import Mathlib

/-!
# Walnut ray tracer: the renderer of `RayTracing/src/Render.cpp`

A shallow embedding of `Render.cpp` and the properties of its
natural-language specification.

Modelling conventions.

* `float` values are elements of a linear ordered field `F` (exact arithmetic;
  rounding, infinities and NaN are not modelled).  `glm::sqrt` is a parameter
  `sqrt : F → F`; theorems that need it to be a square root say so.
* Where the result of the program depends on rounding, the operations are the
  binary32 ones of the namespace `Binary32`: every operation is rounded on its
  own to the nearest binary32 number, ties to even, with no fused
  multiply-add.  `Utils.RandomFloat` converts and divides in binary32; the
  sphere test of `TraceRay` and the pixel update of `Render` have a binary32
  reading next to the exact one.
* `uint32_t` values are natural numbers, reduced modulo `2 ^ 32` where the
  source computes with them.
* Heap cells that were allocated but never written hold `none`; a payload that
  was declared and not assigned is a parameter `fresh`.
* An access outside an array, or through a null pointer, makes the operation
  return `none`.
* The two parallel `for_each` loops of `Render` are run one pixel after the
  other, in the order of the index sequences.
* The values `Walnut::Random::InUnitSphere()` returns are inputs: `slow x y i`
  is the value pixel `(x, y)` receives at its bounce `i`.
-/

namespace Walnut

/-! ## Vectors (`glm::vec3`, `glm::vec4`) -/

/-- The type `glm::vec3`. -/
structure Vec3 (F : Type) where
  x : F
  y : F
  z : F
deriving DecidableEq, Repr

/-- The type `glm::vec4`, with the colour names of its components. -/
structure Vec4 (F : Type) where
  r : F
  g : F
  b : F
  a : F
deriving DecidableEq, Repr

namespace Vec3

variable {F : Type} [LinearOrderedField F]

/-- Component-wise sum. -/
def add (u v : Vec3 F) : Vec3 F := ⟨u.x + v.x, u.y + v.y, u.z + v.z⟩

/-- Component-wise difference. -/
def sub (u v : Vec3 F) : Vec3 F := ⟨u.x - v.x, u.y - v.y, u.z - v.z⟩

/-- Component-wise product (`vec3 * vec3`). -/
def mul (u v : Vec3 F) : Vec3 F := ⟨u.x * v.x, u.y * v.y, u.z * v.z⟩

/-- Product with a scalar (`vec3 * float`). -/
def scale (u : Vec3 F) (k : F) : Vec3 F := ⟨u.x * k, u.y * k, u.z * k⟩

/-- Quotient by a scalar (`vec3 / float`). -/
def div (u : Vec3 F) (k : F) : Vec3 F := ⟨u.x / k, u.y / k, u.z / k⟩

/-- The function `glm::dot`. -/
def dot (u v : Vec3 F) : F := u.x * v.x + u.y * v.y + u.z * v.z

/-- The function `glm::length`. -/
def length (sqrt : F → F) (u : Vec3 F) : F := sqrt (dot u u)

/-- The function `glm::normalize`: the vector times the inverse square root of
its squared length. -/
def normalize (sqrt : F → F) (u : Vec3 F) : Vec3 F := scale u (1 / sqrt (dot u u))

/-- The vector `glm::vec3(0.0f)`. -/
def zero : Vec3 F := ⟨0, 0, 0⟩

/-- The vector `glm::vec3(1.0f)`. -/
def one : Vec3 F := ⟨1, 1, 1⟩

end Vec3

namespace Vec4

variable {F : Type} [LinearOrderedField F]

/-- Component-wise sum (`vec4 += vec4`). -/
def add (u v : Vec4 F) : Vec4 F := ⟨u.r + v.r, u.g + v.g, u.b + v.b, u.a + v.a⟩

/-- Division by a scalar (`vec4 /= scalar`). -/
def divScalar (u : Vec4 F) (k : F) : Vec4 F := ⟨u.r / k, u.g / k, u.b / k, u.a / k⟩

/-- The function `glm::clamp(v, vec4(0.0f), vec4(1.0f))`: each component is
`min(max(x, 0), 1)`. -/
def clamp01 (u : Vec4 F) : Vec4 F :=
  ⟨min (max u.r 0) 1, min (max u.g 0) 1, min (max u.b 0) 1, min (max u.a 0) 1⟩

/-- The all-zero vector, which is what `memset` to zero bytes leaves in a cell. -/
def zero : Vec4 F := ⟨0, 0, 0, 0⟩

end Vec4

/-! ## Scene data (`Ray`, `Sphere`, `Material`, `Scene`, `Camera`) -/

/-- A ray: `Ray::Origin` and `Ray::Direction`. -/
structure Ray (F : Type) where
  Origin : Vec3 F
  Direction : Vec3 F
deriving DecidableEq, Repr

/-- A sphere of the scene. -/
structure Sphere (F : Type) where
  Position : Vec3 F
  Radius : F
  materialIndex : Int
deriving DecidableEq, Repr

/-- A material of the scene. -/
structure Material (F : Type) where
  Albedo : Vec3 F
  EmissionColor : Vec3 F
  EmissionPower : F
deriving DecidableEq, Repr

/-- Modelled from the spec: `Material::GetEmission` is declared in a header that
is not among the sources; the specification gives
`emission = emissionColor * emissionPower`. -/
def Material.GetEmission {F : Type} [LinearOrderedField F] (m : Material F) : Vec3 F :=
  Vec3.scale m.EmissionColor m.EmissionPower

/-- The scene: the sphere list and the material list. -/
structure Scene (F : Type) where
  Spheres : List (Sphere F)
  Materials : List (Material F)
deriving DecidableEq, Repr

/-- What the renderer reads of the camera: `GetPosition()` and the table
`GetRayDirections()`. -/
structure Camera (F : Type) where
  Position : Vec3 F
  RayDirections : List (Vec3 F)
deriving DecidableEq, Repr

/-- The record `Renderer::HitPayLoad`. -/
structure HitPayLoad (F : Type) where
  HitDistance : F
  WorldPosition : Vec3 F
  WorldNormal : Vec3 F
  ObjectIndex : Int
deriving DecidableEq, Repr

/-! ## Intersection (`Renderer::TraceRay`, `ClosestHit`, `Miss`) -/

section Intersection

variable {F : Type} [LinearOrderedField F]

/-- The constant `FLT_MAX`, `(2 ^ 24 - 1) * 2 ^ 104`. -/
def FLT_MAX : F := ((2 ^ 24 - 1 : ℕ) : F) * 2 ^ 104

/-- The local `origin` of the loop body: the ray origin relative to the sphere
centre. -/
def localOrigin (ray : Ray F) (sphere : Sphere F) : Vec3 F :=
  Vec3.sub ray.Origin sphere.Position

/-- The local `a` of the loop body. -/
def quadA (ray : Ray F) : F := Vec3.dot ray.Direction ray.Direction

/-- The local `b` of the loop body. -/
def quadB (ray : Ray F) (sphere : Sphere F) : F :=
  2 * Vec3.dot ray.Direction (localOrigin ray sphere)

/-- The local `c` of the loop body. -/
def quadC (ray : Ray F) (sphere : Sphere F) : F :=
  Vec3.dot (localOrigin ray sphere) (localOrigin ray sphere) - sphere.Radius * sphere.Radius

/-- The local `discriminent` of the loop body, `b * b - 4 * a * c`. -/
def discriminent (ray : Ray F) (sphere : Sphere F) : F :=
  quadB ray sphere * quadB ray sphere - 4 * quadA ray * quadC ray sphere

/-- The local `closestT` of the loop body, the near root
`(-b - sqrt(discriminent)) / (2 * a)`. -/
def closestT (sqrt : F → F) (ray : Ray F) (sphere : Sphere F) : F :=
  (-quadB ray sphere - sqrt (discriminent ray sphere)) / (2 * quadA ray)

/-- One iteration of the sphere loop of `TraceRay`, on the sphere at index `i`
and the loop state `(closestSphere, hitDistance)`. -/
def scanStep (sqrt : F → F) (ray : Ray F) (i : Nat) (sphere : Sphere F)
    (st : Int × F) : Int × F :=
  if discriminent ray sphere < 0 then st
  else if closestT sqrt ray sphere > 0 ∧ closestT sqrt ray sphere < st.2 then
    ((i : Int), closestT sqrt ray sphere)
  else st

/-- The sphere loop of `TraceRay` from index `i` on. -/
def scanFrom (sqrt : F → F) (ray : Ray F) : List (Sphere F) → Nat → Int × F → Int × F
  | [], _, st => st
  | sphere :: rest, i, st => scanFrom sqrt ray rest (i + 1) (scanStep sqrt ray i sphere st)

/-- The whole sphere loop of `TraceRay`, started with `closestSphere = -1` and
`hitDistance = FLT_MAX`. -/
def scanSpheres (sqrt : F → F) (spheres : List (Sphere F)) (ray : Ray F) : Int × F :=
  scanFrom sqrt ray spheres 0 (-1, FLT_MAX)

/-- An element access `v[i]` with a signed index: a negative index, like one
past the end, is outside the array. -/
def indexInt {α : Type} (v : List α) (i : Int) : Option α :=
  if 0 ≤ i then v[i.toNat]? else none

/-- The function `Renderer::ClosestHit`.  `fresh` is the value of a payload that
has been declared and not yet assigned. -/
def ClosestHit (sqrt : F → F) (fresh : HitPayLoad F) (spheres : List (Sphere F))
    (ray : Ray F) (HitDistance : F) (ObjectIndex : Int) : Option (HitPayLoad F) :=
  match indexInt spheres ObjectIndex with
  | none => none
  | some closestSphere =>
    let origin := Vec3.sub ray.Origin closestSphere.Position
    let position := Vec3.add origin (Vec3.scale ray.Direction HitDistance)
    some { fresh with
      HitDistance := HitDistance
      ObjectIndex := ObjectIndex
      WorldNormal := Vec3.normalize sqrt position
      WorldPosition := Vec3.add position closestSphere.Position }

/-- The function `Renderer::Miss`: only `HitDistance` is assigned. -/
def Miss (fresh : HitPayLoad F) (_ray : Ray F) : HitPayLoad F :=
  { fresh with HitDistance := -1 }

/-- The function `Renderer::TraceRay` on the sphere list of the active scene. -/
def TraceRay (sqrt : F → F) (fresh : HitPayLoad F) (spheres : List (Sphere F))
    (ray : Ray F) : Option (HitPayLoad F) :=
  let st := scanSpheres sqrt spheres ray
  if st.1 < 0 then some (Miss fresh ray)
  else ClosestHit sqrt fresh spheres ray st.2 st.1

/-- The payload `ClosestHit` builds for the sphere `s` at index `k` and the
distance `t`. -/
def hitPayload (sqrt : F → F) (fresh : HitPayLoad F) (ray : Ray F) (k : Nat) (s : Sphere F)
    (t : F) : HitPayLoad F :=
  { fresh with
    HitDistance := t
    ObjectIndex := (k : Int)
    WorldNormal :=
      Vec3.normalize sqrt (Vec3.add (Vec3.sub ray.Origin s.Position) (Vec3.scale ray.Direction t))
    WorldPosition :=
      Vec3.add (Vec3.add (Vec3.sub ray.Origin s.Position) (Vec3.scale ray.Direction t)) s.Position }

end Intersection

/-! ## Binary32 arithmetic

The rounded reading of the `float` operations, for the places where the
program's result depends on rounding: a binary32 number is a rational number
with 24 significant bits, and every operation returns the binary32 number
nearest to the exact result, the one with an even last bit when two are equally
near.  The exponent range is not limited: overflow, subnormal numbers,
infinities and NaN are not modelled. -/

namespace Binary32

/-- The integer nearest to `x`, the even one of the two when `x` lies half-way
between two integers. -/
def roundEven (x : ℚ) : ℤ :=
  if x - ⌊x⌋ < 1 / 2 then ⌊x⌋
  else if 1 / 2 < x - ⌊x⌋ then ⌊x⌋ + 1
  else if ⌊x⌋ % 2 = 0 then ⌊x⌋ else ⌊x⌋ + 1

/-- The distance between neighbouring binary32 numbers at a non-zero `x`:
`2 ^ (e - 23)` when `2 ^ e ≤ |x| < 2 ^ (e + 1)`. -/
def ulp (x : ℚ) : ℚ := 2 ^ (Int.log 2 |x| - 23)

/-- Rounding to the nearest binary32 number, ties to even. -/
def round (x : ℚ) : ℚ := if x = 0 then 0 else roundEven (x / ulp x) * ulp x

/-- The conversion `(float)` of an unsigned integer. -/
def ofNat (n : Nat) : ℚ := round n

/-- The operation `a + b` on `float`. -/
def add (a b : ℚ) : ℚ := round (a + b)

/-- The operation `a - b` on `float`. -/
def sub (a b : ℚ) : ℚ := round (a - b)

/-- The operation `a * b` on `float`. -/
def mul (a b : ℚ) : ℚ := round (a * b)

/-- The operation `a / b` on `float`. -/
def div (a b : ℚ) : ℚ := round (a / b)

/-- The function `glm::sqrt` on `float`: the binary32 number nearest to the
square root.  With `s` the integer square root of `x * 4 ^ t`, where `t` is
large enough for `s` to have more than 25 bits, the square root of `x` is
`s / 2 ^ t` when `s * s = x * 4 ^ t`, and otherwise lies strictly between
`s / 2 ^ t` and `(s + 1) / 2 ^ t`, where every number rounds like the midpoint
`(s + 1/2) / 2 ^ t`.  The program calls it on non-negative numbers only; the
value at a negative number is a placeholder. -/
def sqrt (x : ℚ) : ℚ :=
  if x ≤ 0 then 0
  else
    let t : ℕ := (50 - Int.log 2 x).toNat
    let s : ℕ := Nat.sqrt ⌊x * 4 ^ t⌋₊
    if (s : ℚ) * s = x * 4 ^ t then round (s / 2 ^ t) else round ((s + 1 / 2) / 2 ^ t)

/-- The constant `FLT_MAX`, `(2 ^ 24 - 1) * 2 ^ 104`. -/
def FLT_MAX : ℚ := (2 ^ 24 - 1) * 2 ^ 104

/-- The function `glm::dot` on `vec3`: the three products, added from left to
right. -/
def dot (u v : Vec3 ℚ) : ℚ := add (add (mul u.x v.x) (mul u.y v.y)) (mul u.z v.z)

/-- The local `origin` of the loop body of `TraceRay`. -/
def localOrigin (ray : Ray ℚ) (sphere : Sphere ℚ) : Vec3 ℚ :=
  ⟨sub ray.Origin.x sphere.Position.x, sub ray.Origin.y sphere.Position.y,
    sub ray.Origin.z sphere.Position.z⟩

/-- The local `a` of the loop body. -/
def quadA (ray : Ray ℚ) : ℚ := dot ray.Direction ray.Direction

/-- The local `b` of the loop body. -/
def quadB (ray : Ray ℚ) (sphere : Sphere ℚ) : ℚ :=
  mul 2 (dot ray.Direction (localOrigin ray sphere))

/-- The local `c` of the loop body. -/
def quadC (ray : Ray ℚ) (sphere : Sphere ℚ) : ℚ :=
  sub (dot (localOrigin ray sphere) (localOrigin ray sphere)) (mul sphere.Radius sphere.Radius)

/-- The local `discriminent` of the loop body, `b * b - 4.0f * a * c`. -/
def discriminent (ray : Ray ℚ) (sphere : Sphere ℚ) : ℚ :=
  sub (mul (quadB ray sphere) (quadB ray sphere)) (mul (mul 4 (quadA ray)) (quadC ray sphere))

/-- The local `closestT` of the loop body,
`(-b - glm::sqrt(discriminent)) / (2.0f * a)`. -/
def closestT (ray : Ray ℚ) (sphere : Sphere ℚ) : ℚ :=
  div (sub (-quadB ray sphere) (sqrt (discriminent ray sphere))) (mul 2 (quadA ray))

/-- One iteration of the sphere loop of `TraceRay`, on the sphere at index `i`
and the loop state `(closestSphere, hitDistance)`. -/
def scanStep (ray : Ray ℚ) (i : Nat) (sphere : Sphere ℚ) (st : Int × ℚ) : Int × ℚ :=
  if discriminent ray sphere < 0 then st
  else if closestT ray sphere > 0 ∧ closestT ray sphere < st.2 then
    ((i : Int), closestT ray sphere)
  else st

/-- The sphere loop of `TraceRay` from index `i` on. -/
def scanFrom (ray : Ray ℚ) : List (Sphere ℚ) → Nat → Int × ℚ → Int × ℚ
  | [], _, st => st
  | sphere :: rest, i, st => scanFrom ray rest (i + 1) (scanStep ray i sphere st)

/-- The whole sphere loop of `TraceRay`, started with `closestSphere = -1` and
`hitDistance = FLT_MAX`: the two values `TraceRay` passes to `ClosestHit` when
the first is not negative, and calls `Miss` otherwise. -/
def scanSpheres (spheres : List (Sphere ℚ)) (ray : Ray ℚ) : Int × ℚ :=
  scanFrom ray spheres 0 (-1, FLT_MAX)

/-- The function `Renderer::TraceRay`, as far as the fields `ObjectIndex` and
`HitDistance` of the payload it returns through `ClosestHit`, which copies the
two loop variables into them; `none` stands for the payload of `Miss`. -/
def TraceRay (spheres : List (Sphere ℚ)) (ray : Ray ℚ) : Option (Int × ℚ) :=
  let st := scanSpheres spheres ray
  if st.1 < 0 then none else some st

end Binary32

/-! ## Utilities (`namespace Utils`) -/

namespace Utils

/-- The conversion `(uint8_t)` of a `float`: truncation towards zero, then the
low eight bits (the conversion is only defined by C++ when the truncated value
is in `0..255`). -/
def toUInt8 {F : Type} [LinearOrderedField F] [FloorRing F] (v : F) : Nat :=
  ((if 0 ≤ v then ⌊v⌋ else ⌈v⌉) % 256).toNat

/-- The function `Utils::ConvertToRGBA`. -/
def ConvertToRGBA {F : Type} [LinearOrderedField F] [FloorRing F] (color : Vec4 F) : Nat :=
  let r := toUInt8 (color.r * 255)
  let g := toUInt8 (color.g * 250)
  let b := toUInt8 (color.b * 250)
  let a := toUInt8 (color.a * 250)
  ((a <<< 24) ||| (b <<< 16) ||| (g <<< 8) ||| r) % 2 ^ 32

/-- The function `Utils::PCG_Hash`, on 32-bit words. -/
def PCG_Hash (input : Nat) : Nat :=
  let state := (input * 747796405 + 2891336453) % 2 ^ 32
  let word := (((state >>> ((state >>> 28) + 4)) ^^^ state) * 277803737) % 2 ^ 32
  (word >>> 22) ^^^ word

/-- The function `Utils::RandomFloat`: the returned `float` and the new value of
the seed it was given by reference.  The two conversions `(float)` and the
division are the binary32 ones: a 32-bit word need not be a binary32 number, and
`(float)std::numeric_limits<uint32_t>::max()` is `2 ^ 32`. -/
def RandomFloat {F : Type} [LinearOrderedField F] (seed : Nat) : F × Nat :=
  let seed := PCG_Hash seed
  (((Binary32.div (Binary32.ofNat seed) (Binary32.ofNat 4294967295) : ℚ) : F), seed)

/-- The function `Utils::InUnitSphere`: the returned vector and the new value of
the seed.  The three draws are taken in the order of the arguments. -/
def InUnitSphere {F : Type} [LinearOrderedField F] (sqrt : F → F) (seed : Nat) : Vec3 F × Nat :=
  let d1 : F × Nat := RandomFloat seed
  let d2 : F × Nat := RandomFloat d1.2
  let d3 : F × Nat := RandomFloat d2.2
  (Vec3.normalize sqrt ⟨d1.1 * 2 - 1, d2.1 * 2 - 1, d3.1 * 2 - 1⟩, d3.2)

end Utils

/-! ## The renderer state -/

/-- What the renderer observes of `Walnut::Image`: its dimensions. -/
structure Image where
  Width : Nat
  Height : Nat
deriving DecidableEq, Repr

/-- The method `Walnut::Image::Resize`, as far as the renderer observes it. -/
def Image.Resize (_img : Image) (width height : Nat) : Image := ⟨width, height⟩

/-- The record `Renderer::Settings`. -/
structure Settings where
  Accumulate : Bool
  SlowRandom : Bool
deriving DecidableEq, Repr

/-- The data members of `Renderer`.  A null `m_FinalImage`, `m_ActiveScene` or
`m_ActiveCam` is `none`; a null buffer is the empty list.  The frame counter is
unbounded here: its declaration is in a header outside the sources. -/
structure Renderer (F : Type) where
  m_FinalImage : Option Image
  m_ImageData : List (Option Nat)
  m_AccumilationData : List (Option (Vec4 F))
  m_ImageHorizontalIter : List Nat
  m_ImageVerticalIter : List Nat
  m_FrameIndex : Nat
  m_Settings : Settings
  m_ActiveScene : Option (Scene F)
  m_ActiveCam : Option (Camera F)
deriving DecidableEq, Repr

/-! ## Resizing (`Renderer::onResize`) -/

/-- The method `std::vector<uint32_t>::resize`: truncation, or padding with
zeros. -/
def vectorResize (v : List Nat) (n : Nat) : List Nat :=
  v.take n ++ List.replicate (n - v.length) 0

/-- The loop `for (i = 0; i < n; i++) v[i] = i`. -/
def fillIndices (v : List Nat) (n : Nat) : List Nat :=
  (List.range n).foldl (fun v i => v.set i i) v

/-- The function `Renderer::onResize`. -/
def onResize {F : Type} (R : Renderer F) (width height : Nat) : Renderer F :=
  let realloc (image : Image) : Renderer F :=
    { R with
      m_FinalImage := some image
      m_ImageData := List.replicate ((width * height) % 2 ^ 32) none
      m_AccumilationData := List.replicate ((width * height) % 2 ^ 32) none
      m_ImageHorizontalIter := fillIndices (vectorResize R.m_ImageHorizontalIter width) width
      m_ImageVerticalIter := fillIndices (vectorResize R.m_ImageVerticalIter height) height }
  match R.m_FinalImage with
  | some image =>
    if image.Width = width ∧ image.Height = height then R
    else realloc (image.Resize width height)
  | none => realloc ⟨width, height⟩

/-! ## The path integrator (`Renderer::PerPixel`) -/

/-- The expression `x + y * m_FinalImage->GetWidth()`, in 32-bit arithmetic: the
index of the pixel `(x, y)` in the buffers and in the ray direction table. -/
def pixelIndex (width x y : Nat) : Nat := (x + y * width) % 2 ^ 32

section Integrator

variable {F : Type} [LinearOrderedField F]

/-- The locals of `PerPixel` that the bounce loop updates. -/
structure PathState (F : Type) where
  ray : Ray F
  light : Vec3 F
  contribution : Vec3 F
  seed : Nat

/-- The bounce loop of `PerPixel` with `n` iterations left, at loop counter `i`.
`slow i` is what `Walnut::Random::InUnitSphere()` returns when iteration `i`
calls it.  The result is the final `light`. -/
def bounceLoop (sqrt : F → F) (fresh : HitPayLoad F) (scene : Scene F) (slowRandom : Bool)
    (slow : Nat → Vec3 F) : Nat → Nat → PathState F → Option (Vec3 F)
  | 0, _, st => some st.light
  | n + 1, i, st =>
    let seed := (st.seed + i) % 2 ^ 32
    match TraceRay sqrt fresh scene.Spheres st.ray with
    | none => none
    | some payload =>
      if payload.HitDistance < 0 then some st.light
      else
        match indexInt scene.Spheres payload.ObjectIndex with
        | none => none
        | some sphere =>
          match indexInt scene.Materials sphere.materialIndex with
          | none => none
          | some material =>
            let contribution := Vec3.mul st.contribution material.Albedo
            let light := Vec3.add st.light material.GetEmission
            let origin :=
              Vec3.add payload.WorldPosition (Vec3.scale payload.WorldNormal (1 / 10000))
            let sample : Vec3 F × Nat :=
              if slowRandom then (slow i, seed) else Utils.InUnitSphere sqrt seed
            let direction := Vec3.normalize sqrt (Vec3.add payload.WorldNormal sample.1)
            bounceLoop sqrt fresh scene slowRandom slow n (i + 1)
              ⟨⟨origin, direction⟩, light, contribution, sample.2⟩

/-- The function `Renderer::PerPixel`. -/
def PerPixel (sqrt : F → F) (fresh : HitPayLoad F) (R : Renderer F) (slow : Nat → Vec3 F)
    (x y : Nat) : Option (Vec4 F) :=
  match R.m_ActiveCam, R.m_ActiveScene, R.m_FinalImage with
  | some camera, some scene, some image =>
    let index := pixelIndex image.Width x y
    match camera.RayDirections[index]? with
    | none => none
    | some direction =>
      let seed := (index * R.m_FrameIndex) % 2 ^ 32
      match bounceLoop sqrt fresh scene R.m_Settings.SlowRandom slow 5 0
          ⟨⟨camera.Position, direction⟩, Vec3.zero, Vec3.one, seed⟩ with
      | none => none
      | some light => some ⟨light.x, light.y, light.z, 1⟩
  | _, _, _ => none

end Integrator

/-! ## Rendering a frame (`Renderer::Render`) -/

section Frame

variable {F : Type} [LinearOrderedField F] [FloorRing F]

/-- The call `memset(buffer, 0, n * sizeof(glm::vec4))`. -/
def memsetZero (buffer : List (Option (Vec4 F))) (n : Nat) : Option (List (Option (Vec4 F))) :=
  if n ≤ buffer.length then some (List.replicate n (some Vec4.zero) ++ buffer.drop n)
  else none

/-- The body of the inner `for_each` of `Render`, for the pixel `(x, y)`, on the
two buffers `(m_AccumilationData, m_ImageData)`.  `slow` gives, for this pixel,
the values `Walnut::Random::InUnitSphere()` returns. -/
def renderPixel (sqrt : F → F) (fresh : HitPayLoad F) (R : Renderer F) (width : Nat)
    (slow : Nat → Nat → Nat → Vec3 F) (y x : Nat)
    (buffers : List (Option (Vec4 F)) × List (Option Nat)) :
    Option (List (Option (Vec4 F)) × List (Option Nat)) :=
  match PerPixel sqrt fresh R (slow x y) x y with
  | none => none
  | some color =>
    let index := pixelIndex width x y
    match buffers.1[index]?, buffers.2[index]? with
    | some cell, some _ =>
      let sum := cell.map (fun c => Vec4.add c color)
      let accumulatedColor :=
        sum.map (fun c => Vec4.clamp01 (Vec4.divScalar c (R.m_FrameIndex : F)))
      some (buffers.1.set index sum, buffers.2.set index (accumulatedColor.map Utils.ConvertToRGBA))
    | _, _ => none

/-- The two nested `for_each` loops of `Render`, run in the order of the index
sequences. -/
def renderLoop (sqrt : F → F) (fresh : HitPayLoad F) (R : Renderer F) (width : Nat)
    (slow : Nat → Nat → Nat → Vec3 F)
    (buffers : List (Option (Vec4 F)) × List (Option Nat)) :
    Option (List (Option (Vec4 F)) × List (Option Nat)) :=
  R.m_ImageVerticalIter.foldlM
    (fun buffers y =>
      R.m_ImageHorizontalIter.foldlM
        (fun buffers x => renderPixel sqrt fresh R width slow y x buffers) buffers)
    buffers

/-- The function `Renderer::Render`.  The upload `m_FinalImage->SetData` to the
external image is not part of the state. -/
def Render (sqrt : F → F) (fresh : HitPayLoad F) (R : Renderer F) (scene : Scene F)
    (camera : Camera F) (slow : Nat → Nat → Nat → Vec3 F) : Option (Renderer F) :=
  match R.m_FinalImage with
  | none => none
  | some image =>
    let cleared :=
      if R.m_FrameIndex = 1 then
        memsetZero R.m_AccumilationData ((image.Width * image.Height) % 2 ^ 32)
      else some R.m_AccumilationData
    match cleared with
    | none => none
    | some accumulation =>
      let R1 : Renderer F :=
        { R with
          m_ActiveCam := some camera
          m_ActiveScene := some scene
          m_AccumilationData := accumulation }
      match renderLoop sqrt fresh R1 image.Width slow (accumulation, R.m_ImageData) with
      | none => none
      | some buffers =>
        some { R1 with
          m_AccumilationData := buffers.1
          m_ImageData := buffers.2
          m_FrameIndex := if R.m_Settings.Accumulate then R.m_FrameIndex + 1 else 1 }

/-- The renderer after `n` consecutive calls of `Render` on the same scene and
camera; `slow k` gives the values of the external random source during call
number `k` (counted from `1`). -/
def renderFrames (sqrt : F → F) (fresh : HitPayLoad F) (scene : Scene F) (camera : Camera F)
    (slow : Nat → Nat → Nat → Nat → Vec3 F) : Nat → Renderer F → Option (Renderer F)
  | 0, R => some R
  | n + 1, R =>
    match renderFrames sqrt fresh scene camera slow n R with
    | none => none
    | some R' => Render sqrt fresh R' scene camera (slow (n + 1))

end Frame

/-! ## The pixel update of `Render` in binary32 -/

namespace Binary32

/-- The statement `m_AccumilationData[...] += color` of `Render`. -/
def accumulate (cell color : Vec4 ℚ) : Vec4 ℚ :=
  ⟨add cell.r color.r, add cell.g color.g, add cell.b color.b, add cell.a color.a⟩

/-- The accumulation cell of a pixel after `n` calls of `Render` that start at
frame index `1`, where the buffer is cleared, when `PerPixel` returns `color`
for the pixel in every call. -/
def cellAfter (color : Vec4 ℚ) : Nat → Vec4 ℚ
  | 0 => Vec4.zero
  | n + 1 => accumulate (cellAfter color n) color

/-- The local `accumulatedColor` of `Render` after the statements
`accumulatedColor /= m_FrameIndex` and `glm::clamp`. -/
def accumulatedColor (cell : Vec4 ℚ) (frameIndex : Nat) : Vec4 ℚ :=
  Vec4.clamp01 ⟨div cell.r (ofNat frameIndex), div cell.g (ofNat frameIndex),
    div cell.b (ofNat frameIndex), div cell.a (ofNat frameIndex)⟩

/-- The function `Utils::ConvertToRGBA`. -/
def ConvertToRGBA (color : Vec4 ℚ) : Nat :=
  let r := Utils.toUInt8 (mul color.r 255)
  let g := Utils.toUInt8 (mul color.g 250)
  let b := Utils.toUInt8 (mul color.b 250)
  let a := Utils.toUInt8 (mul color.a 250)
  ((a <<< 24) ||| (b <<< 16) ||| (g <<< 8) ||| r) % 2 ^ 32

end Binary32

/-! ## Notions used to state the frame properties -/

section FrameNotions

variable {F : Type} [LinearOrderedField F]

/-- The renderer has an image of `W` by `H` pixels with fewer than `2 ^ 32`
pixels, buffers of `W * H` cells and the index sequences `0..W-1` and
`0..H-1`: the state `onResize W H` leaves behind. -/
def Renderer.Sized (R : Renderer F) (W H : Nat) : Prop :=
  R.m_FinalImage = some ⟨W, H⟩ ∧ W * H < 2 ^ 32 ∧
  R.m_ImageHorizontalIter = List.range W ∧ R.m_ImageVerticalIter = List.range H ∧
  R.m_ImageData.length = W * H ∧ R.m_AccumilationData.length = W * H

/-- The renderer as `PerPixel` reads it during a call of `Render` on `scene` and
`camera` that starts with frame index `k`. -/
def duringRender (R : Renderer F) (scene : Scene F) (camera : Camera F) (k : Nat) :
    Renderer F :=
  { R with m_ActiveCam := some camera, m_ActiveScene := some scene, m_FrameIndex := k }

/-- The sum `sample 1 + ... + sample n`, component by component, added up in
this order from zero. -/
def sumSamples (sample : Nat → Vec4 F) : Nat → Vec4 F
  | 0 => ⟨0, 0, 0, 0⟩
  | n + 1 =>
    ⟨(sumSamples sample n).r + (sample (n + 1)).r, (sumSamples sample n).g + (sample (n + 1)).g,
      (sumSamples sample n).b + (sample (n + 1)).b, (sumSamples sample n).a + (sample (n + 1)).a⟩

end FrameNotions

/-! ## Concrete inputs used by the examples -/

/-- A seed whose hash is the largest 32-bit word. -/
def seedToMax : Nat := 2222045655

/-- A colour with four different channels, all in `[0, 1]`. -/
def sampleColour : Vec4 ℚ := ⟨1, 1 / 2, 1 / 4, 1⟩

/-- A payload as it may be before any field is assigned: all fields zero. -/
def zeroPayload : HitPayLoad ℝ := ⟨0, ⟨0, 0, 0⟩, ⟨0, 0, 0⟩, 0⟩

/-- Two spheres of radius `1` on the `z` axis, at `(0,0,5)` and `(0,0,3)`. -/
def twoSpheres : List (Sphere ℝ) := [⟨⟨0, 0, 5⟩, 1, 0⟩, ⟨⟨0, 0, 3⟩, 1, 0⟩]

/-- One sphere of radius `1` behind the origin, at `(0,0,-3)`. -/
def sphereBehind : List (Sphere ℝ) := [⟨⟨0, 0, -3⟩, 1, 0⟩]

/-- The ray from the origin along the `z` axis. -/
def zRay : Ray ℝ := ⟨⟨0, 0, 0⟩, ⟨0, 0, 1⟩⟩

/-- A renderer in the middle of an accumulation sequence: image of 2 by 2
pixels, frame index 3. -/
def renderer2x2 : Renderer ℝ :=
  { m_FinalImage := some ⟨2, 2⟩
    m_ImageData := [some 0, some 0, some 0, some 0]
    m_AccumilationData :=
      [some ⟨0, 0, 0, 2⟩, some ⟨0, 0, 0, 2⟩, some ⟨0, 0, 0, 2⟩, some ⟨0, 0, 0, 2⟩]
    m_ImageHorizontalIter := [0, 1]
    m_ImageVerticalIter := [0, 1]
    m_FrameIndex := 3
    m_Settings := ⟨true, false⟩
    m_ActiveScene := none
    m_ActiveCam := none }

/-- A scene with one sphere of radius `1` at `(0,0,3)` whose material emits
`(1,1,1)`. -/
def glowScene : Scene ℝ := ⟨[⟨⟨0, 0, 3⟩, 1, 0⟩], [⟨⟨1, 1, 1⟩, ⟨1, 1, 1⟩, 1⟩]⟩

/-- The scene without spheres. -/
def emptyScene : Scene ℝ := ⟨[], []⟩

/-- A camera at the origin with a table of one ray, along the `z` axis. -/
def camera1 : Camera ℝ := ⟨⟨0, 0, 0⟩, [⟨0, 0, 1⟩]⟩

/-- An external random source that returns `(0,0,-1)` at every call. -/
def awayTape : Nat → Nat → Nat → Vec3 ℝ := fun _ _ _ => ⟨0, 0, -1⟩

/-- A renderer of one pixel at the start of an accumulation sequence, with
leftovers of an earlier sequence in its buffers. -/
def renderer1x1 : Renderer ℝ :=
  { m_FinalImage := some ⟨1, 1⟩
    m_ImageData := [some 7]
    m_AccumilationData := [some ⟨5, 5, 5, 5⟩]
    m_ImageHorizontalIter := [0]
    m_ImageVerticalIter := [0]
    m_FrameIndex := 1
    m_Settings := ⟨true, true⟩
    m_ActiveScene := none
    m_ActiveCam := none }

/-- The renderer `renderer1x1` with accumulation disabled. -/
def renderer1x1Single : Renderer ℝ :=
  { renderer1x1 with m_Settings := ⟨false, true⟩ }

/-- The renderer `renderer1x1` after one frame of `glowScene`. -/
def renderer1x1Frame1 : Renderer ℝ :=
  { m_FinalImage := some ⟨1, 1⟩
    m_ImageData := [some 4210752255]
    m_AccumilationData := [some ⟨1, 1, 1, 1⟩]
    m_ImageHorizontalIter := [0]
    m_ImageVerticalIter := [0]
    m_FrameIndex := 2
    m_Settings := ⟨true, true⟩
    m_ActiveScene := some glowScene
    m_ActiveCam := some camera1 }

/-- The renderer `renderer1x1Single` after one frame of `glowScene`. -/
def renderer1x1SingleAfter : Renderer ℝ :=
  { renderer1x1Frame1 with m_FrameIndex := 1, m_Settings := ⟨false, true⟩ }

/-- The scene `glowScene` with the albedo of its material changed to black. -/
def glowSceneDark : Scene ℝ := ⟨[⟨⟨0, 0, 3⟩, 1, 0⟩], [⟨⟨0, 0, 0⟩, ⟨1, 1, 1⟩, 1⟩]⟩

/-- The renderer `renderer1x1` while it renders `glowScene` with `camera1`. -/
def renderer1x1Glow : Renderer ℝ := duringRender renderer1x1 glowScene camera1 1

/-- The renderer `renderer1x1Glow` with the internal random source selected. -/
def renderer1x1Fast : Renderer ℝ := { renderer1x1Glow with m_Settings := ⟨true, false⟩ }

/-! ## Notions used to state the path properties -/

section PathNotions

variable {F : Type} [LinearOrderedField F]

/-- One iteration of the bounce loop of `PerPixel` at loop counter `i`: `none`
when an access is outside its array, `some none` when the traced ray misses (the
`break`), and otherwise the material of the sphere that was hit together with
the locals for the next iteration. -/
def bounceStep (sqrt : F → F) (fresh : HitPayLoad F) (scene : Scene F) (slowRandom : Bool)
    (slow : Nat → Vec3 F) (i : Nat) (st : PathState F) :
    Option (Option (Material F × PathState F)) :=
  let seed := (st.seed + i) % 2 ^ 32
  match TraceRay sqrt fresh scene.Spheres st.ray with
  | none => none
  | some payload =>
    if payload.HitDistance < 0 then some none
    else
      match indexInt scene.Spheres payload.ObjectIndex with
      | none => none
      | some sphere =>
        match indexInt scene.Materials sphere.materialIndex with
        | none => none
        | some material =>
          let contribution := Vec3.mul st.contribution material.Albedo
          let light := Vec3.add st.light material.GetEmission
          let origin :=
            Vec3.add payload.WorldPosition (Vec3.scale payload.WorldNormal (1 / 10000))
          let sample : Vec3 F × Nat :=
            if slowRandom then (slow i, seed) else Utils.InUnitSphere sqrt seed
          let direction := Vec3.normalize sqrt (Vec3.add payload.WorldNormal sample.1)
          some (some (material, ⟨⟨origin, direction⟩, light, contribution, sample.2⟩))

/-- The outcome of every ray the bounce loop traces, in order, with `n`
iterations left: `some material` for a hit on a sphere of that material, `none`
for a miss. -/
def pathEvents (sqrt : F → F) (fresh : HitPayLoad F) (scene : Scene F) (slowRandom : Bool)
    (slow : Nat → Vec3 F) : Nat → Nat → PathState F → Option (List (Option (Material F)))
  | 0, _, _ => some []
  | n + 1, i, st =>
    match bounceStep sqrt fresh scene slowRandom slow i st with
    | none => none
    | some none => some [none]
    | some (some (material, next)) =>
      (pathEvents sqrt fresh scene slowRandom slow n (i + 1) next).map
        (fun events => some material :: events)

/-- The sum of the emissions `emissionColor * emissionPower` of the materials
hit, added to `light` in the order of the hits. -/
def addEmissions (light : Vec3 F) : List (Option (Material F)) → Vec3 F
  | [] => light
  | none :: events => addEmissions light events
  | some material :: events => addEmissions (Vec3.add light material.GetEmission) events

/-- The rays of `PerPixel` for the pixel `(x, y)`: the outcome of every ray it
traces, in order. -/
def pixelEvents (sqrt : F → F) (fresh : HitPayLoad F) (R : Renderer F) (slow : Nat → Vec3 F)
    (x y : Nat) : Option (List (Option (Material F))) :=
  match R.m_ActiveCam, R.m_ActiveScene, R.m_FinalImage with
  | some camera, some scene, some image =>
    match camera.RayDirections[pixelIndex image.Width x y]? with
    | none => none
    | some direction =>
      pathEvents sqrt fresh scene R.m_Settings.SlowRandom slow 5 0
        ⟨⟨camera.Position, direction⟩, Vec3.zero, Vec3.one,
          (pixelIndex image.Width x y * R.m_FrameIndex) % 2 ^ 32⟩
  | _, _, _ => none

/-- Every sphere of the scene refers to a material of the scene. -/
def Scene.ValidMaterials (scene : Scene F) : Prop :=
  ∀ sphere ∈ scene.Spheres,
    0 ≤ sphere.materialIndex ∧ sphere.materialIndex.toNat < scene.Materials.length

/-- Two scenes that differ in albedo values only: the same spheres, and
materials with the same emission colour and power at every index. -/
def Scene.SameButAlbedo (scene scene' : Scene F) : Prop :=
  scene.Spheres = scene'.Spheres ∧
  scene.Materials.map (fun m => (m.EmissionColor, m.EmissionPower))
    = scene'.Materials.map (fun m => (m.EmissionColor, m.EmissionPower))

end PathNotions

/-- The clamped colour of full intensity. -/
def whiteColour : Vec4 ℚ := ⟨1, 1, 1, 1⟩

/-- A sphere of radius `2` at `(0,0,1)`, which contains the origin. -/
def sphereAround : Sphere ℝ := ⟨⟨0, 0, 1⟩, 2, 0⟩

/-- A scene with two spheres of radius `1`, at `(0,0,3)` and `(0,0,-3)`, of one
material that emits `(1,1,1)`. -/
def twinScene : Scene ℝ :=
  ⟨[⟨⟨0, 0, 3⟩, 1, 0⟩, ⟨⟨0, 0, -3⟩, 1, 0⟩], [⟨⟨1, 1, 1⟩, ⟨1, 1, 1⟩, 1⟩]⟩

/-- An external random source that returns `(0,0,-1)` at even bounces and
`(0,0,1)` at odd ones. -/
def backAndForth : Nat → Vec3 ℝ := fun i => if i % 2 = 0 then ⟨0, 0, -1⟩ else ⟨0, 0, 1⟩

/-- The renderer `renderer1x1`, which has `SlowRandom` on, while it renders
`twinScene` with `camera1`. -/
def renderer1x1Twin : Renderer ℝ := duringRender renderer1x1 twinScene camera1 1

/-- The ray from the origin along the `z` axis, in binary32 numbers. -/
def innerRay : Ray ℚ := ⟨⟨0, 0, 0⟩, ⟨0, 0, 1⟩⟩

/-- A sphere of binary32 centre and radius that contains the origin by a thin
margin: the squared distance of the origin from the centre is less than the
squared radius by less than `3 / 10 ^ 8`. -/
def thinMargin : Sphere ℚ := ⟨⟨-(12779435 / 16777216), 0, 1⟩, 5272505 / 4194304, 0⟩

/-- The radiance `(0.3f, 0.3f, 0.3f, 1.0f)`. -/
def dimColour : Vec4 ℚ := ⟨5033165 / 16777216, 5033165 / 16777216, 5033165 / 16777216, 1⟩

/-- The colour next below `dimColour` in binary32. -/
def dimMean : Vec4 ℚ := ⟨10066329 / 33554432, 10066329 / 33554432, 10066329 / 33554432, 1⟩

/-- A scene with two spheres of radius `1`: a dark one at `(0,0,3)`, and one at
`(0,0,-3)` whose material emits `(1,4,1)`. -/
def mixedScene : Scene ℝ :=
  ⟨[⟨⟨0, 0, 3⟩, 1, 0⟩, ⟨⟨0, 0, -3⟩, 1, 1⟩],
    [⟨⟨1, 1, 1⟩, ⟨0, 0, 0⟩, 0⟩, ⟨⟨1, 1, 1⟩, ⟨1, 4, 1⟩, 1⟩]⟩

/-- An external random source that returns `(0,0,-1)` at the first bounce and
`(24/25, 0, 7/25)` afterwards. -/
def towardsGlow : Nat → Vec3 ℝ :=
  fun i => if i = 0 then ⟨0, 0, -1⟩ else ⟨((24 / 25 : ℚ) : ℝ), 0, ((7 / 25 : ℚ) : ℝ)⟩

/-- An external random source that returns `(24/25, 0, -7/25)` at every
bounce. -/
def asideTape : Nat → Vec3 ℝ := fun _ => ⟨((24 / 25 : ℚ) : ℝ), 0, ((-7 / 25 : ℚ) : ℝ)⟩

/-- The external random source of two frames: `towardsGlow` during the first
call of `Render`, `asideTape` afterwards. -/
def mixedTape : Nat → Nat → Nat → Nat → Vec3 ℝ :=
  fun k _ _ => if k = 1 then towardsGlow else asideTape

/-- The renderer `renderer1x1` after one frame of `mixedScene` with the random
source `mixedTape`: the sample is `(1,4,1,1)`, shown as the bytes
`(255, 250, 250, 250)`. -/
def rendererMixed1 : Renderer ℝ :=
  { m_FinalImage := some ⟨1, 1⟩
    m_ImageData := [some 4210752255]
    m_AccumilationData := [some ⟨1, 4, 1, 1⟩]
    m_ImageHorizontalIter := [0]
    m_ImageVerticalIter := [0]
    m_FrameIndex := 2
    m_Settings := ⟨true, true⟩
    m_ActiveScene := some mixedScene
    m_ActiveCam := some camera1 }

/-- The renderer `renderer1x1` after two frames of `mixedScene` with the random
source `mixedTape`: the second sample is `(0,0,0,1)`, the sum `(1,4,1,2)`, the
mean `(1/2, 2, 1/2, 1)`, shown as the bytes `(127, 250, 125, 250)`. -/
def rendererMixed2 : Renderer ℝ :=
  { rendererMixed1 with
    m_ImageData := [some 4202560127]
    m_AccumilationData := [some ⟨1, 4, 1, 2⟩]
    m_FrameIndex := 3 }


/-- The renderer `renderer1x1Fast` after one frame of `emptyScene`: the sample
is `(0,0,0,1)`, shown as the bytes `(0, 0, 0, 250)`. -/
def rendererEmpty1 : Renderer ℝ :=
  { m_FinalImage := some ⟨1, 1⟩
    m_ImageData := [some 4194304000]
    m_AccumilationData := [some ⟨0, 0, 0, 1⟩]
    m_ImageHorizontalIter := [0]
    m_ImageVerticalIter := [0]
    m_FrameIndex := 2
    m_Settings := ⟨true, false⟩
    m_ActiveScene := some emptyScene
    m_ActiveCam := some camera1 }

/-- The renderer `renderer1x1Fast` after two frames of `emptyScene`. -/
def rendererEmpty2 : Renderer ℝ :=
  { rendererEmpty1 with
    m_AccumilationData := [some ⟨0, 0, 0, 2⟩]
    m_FrameIndex := 3 }


/-! # Theorems -/

/-! ## Properties of binary32 rounding -/

namespace Binary32

theorem log_eq (x : ℚ) (e : ℤ) (hlo : (2 : ℚ) ^ e ≤ |x|) (hhi : |x| < 2 ^ (e + 1)) :
    Int.log 2 |x| = e := by
  have hpos : 0 < |x| := lt_of_lt_of_le (by positivity) hlo
  apply le_antisymm
  · have := (Int.lt_zpow_iff_log_lt (b := 2) (by norm_num) hpos).mp (by exact_mod_cast hhi)
    omega
  · exact (Int.zpow_le_iff_le_log (b := 2) (by norm_num) hpos).mp (by exact_mod_cast hlo)

theorem roundEven_intCast (k : ℤ) : roundEven (k : ℚ) = k := by
  simp [roundEven]

/-- Rounding a number that is within less than half a unit of the integer `k`. -/
theorem roundEven_near (y : ℚ) (k : ℤ) (h1 : (k : ℚ) - 1 / 2 < y) (h2 : y < k + 1 / 2) :
    roundEven y = k := by
  unfold roundEven
  by_cases hk : (k : ℚ) ≤ y
  · have hf : ⌊y⌋ = k := by
      rw [Int.floor_eq_iff]
      constructor
      · exact hk
      · linarith
    rw [hf, if_pos (by linarith)]
  · push_neg at hk
    have hf : ⌊y⌋ = k - 1 := by
      rw [Int.floor_eq_iff]
      push_cast
      constructor <;> linarith
    rw [hf]
    push_cast
    rw [if_neg (by linarith), if_pos (by linarith)]
    ring

/-- Rounding a number half-way between `k` and `k + 1`. -/
theorem roundEven_tie (y : ℚ) (k : ℤ) (h : y = k + 1 / 2) :
    roundEven y = if k % 2 = 0 then k else k + 1 := by
  unfold roundEven
  have hf : ⌊y⌋ = k := by
    rw [Int.floor_eq_iff]
    constructor <;> linarith
  rw [hf, if_neg (by linarith), if_neg (by linarith)]

theorem round_eq (x : ℚ) (e k : ℤ) (hlo : (2 : ℚ) ^ e ≤ |x|) (hhi : |x| < 2 ^ (e + 1))
    (hk : roundEven (x / 2 ^ (e - 23)) = k) : round x = k * 2 ^ (e - 23) := by
  have hpos : 0 < |x| := lt_of_lt_of_le (by positivity) hlo
  have hx : x ≠ 0 := abs_pos.mp hpos
  simp only [round, ulp, if_neg hx, log_eq x e hlo hhi, hk]


theorem ulp_pos (x : ℚ) : 0 < ulp x := by
  unfold ulp
  positivity

theorem roundEven_nonneg (y : ℚ) (hy : 0 ≤ y) : 0 ≤ roundEven y := by
  have hf : 0 ≤ ⌊y⌋ := Int.floor_nonneg.mpr hy
  unfold roundEven
  split_ifs <;> omega

theorem roundEven_le (y : ℚ) (n : ℤ) (hy : y ≤ n) : roundEven y ≤ n := by
  rcases eq_or_lt_of_le hy with h | h
  · rw [h, roundEven_intCast]
  · have hf : ⌊y⌋ < n := Int.floor_lt.mpr h
    unfold roundEven
    split_ifs <;> omega

theorem round_nonneg (x : ℚ) (hx : 0 ≤ x) : 0 ≤ round x := by
  unfold round
  split_ifs
  · exact le_refl _
  · have := roundEven_nonneg (x / ulp x) (div_nonneg hx (ulp_pos x).le)
    exact mul_nonneg (by exact_mod_cast this) (ulp_pos x).le

/-- Rounding does not cross a power of two. -/
theorem round_le_zpow (x : ℚ) (k : ℤ) (hx : 0 ≤ x) (hk : x ≤ 2 ^ k) : round x ≤ 2 ^ k := by
  unfold round
  split_ifs with h0
  · positivity
  · have hpos : 0 < x := lt_of_le_of_ne hx (Ne.symm h0)
    have habs : |x| = x := abs_of_pos hpos
    have hlog : (2 : ℚ) ^ Int.log 2 x ≤ x := by
      exact_mod_cast Int.zpow_log_le_self (b := 2) (by norm_num) hpos
    have he : Int.log 2 x ≤ k := by
      have h2 : (2 : ℚ) ^ Int.log 2 x ≤ 2 ^ k := hlog.trans hk
      exact (zpow_le_zpow_iff_right₀ (by norm_num : (1 : ℚ) < 2)).mp h2
    unfold ulp
    rw [habs]
    set e := Int.log 2 x
    have hu : (0 : ℚ) < 2 ^ (e - 23) := by positivity
    obtain ⟨n, hn⟩ : ∃ n : ℕ, k - e + 23 = (n : ℤ) := ⟨(k - e + 23).toNat, by omega⟩
    have hsplit : (2 : ℚ) ^ k = (2 ^ n : ℤ) * 2 ^ (e - 23) := by
      push_cast
      rw [← zpow_natCast, ← hn, ← zpow_add₀ (by norm_num : (2 : ℚ) ≠ 0)]
      congr 1
      ring
    have hy : x / 2 ^ (e - 23) ≤ ((2 ^ n : ℤ) : ℚ) := by
      rw [div_le_iff₀ hu, ← hsplit]
      exact hk
    have := roundEven_le _ _ hy
    rw [hsplit]
    exact mul_le_mul_of_nonneg_right (by exact_mod_cast this) hu.le

theorem roundEven_ge (y : ℚ) (n : ℤ) (hy : (n : ℚ) ≤ y) : n ≤ roundEven y := by
  have hf : n ≤ ⌊y⌋ := Int.le_floor.mpr hy
  unfold roundEven
  split_ifs <;> omega

theorem zpow_split (e : ℤ) : (2 : ℚ) ^ e = 8388608 * 2 ^ (e - 23) := by
  have h : (8388608 : ℚ) = 2 ^ (23 : ℤ) := by norm_num
  rw [h, ← zpow_add₀ (by norm_num : (2 : ℚ) ≠ 0)]
  congr 1
  ring

theorem zpow_split_succ (e : ℤ) : (2 : ℚ) ^ (e + 1) = 16777216 * 2 ^ (e - 23) := by
  have h : (16777216 : ℚ) = 2 ^ (24 : ℤ) := by norm_num
  rw [h, ← zpow_add₀ (by norm_num : (2 : ℚ) ≠ 0)]
  congr 1
  ring

/-- The bounds of a positive number relative to its own unit. -/
theorem scaled_bounds (x : ℚ) (hpos : 0 < x) :
    (8388608 : ℚ) ≤ x / 2 ^ (Int.log 2 x - 23) ∧ x / 2 ^ (Int.log 2 x - 23) ≤ 16777216 := by
  have hlo : (2 : ℚ) ^ Int.log 2 x ≤ x := by
    exact_mod_cast Int.zpow_log_le_self (b := 2) (by norm_num) hpos
  have hhi : x < (2 : ℚ) ^ (Int.log 2 x + 1) := by
    exact_mod_cast Int.lt_zpow_succ_log_self (b := 2) (by norm_num) x
  have hu : (0 : ℚ) < 2 ^ (Int.log 2 x - 23) := by positivity
  constructor
  · rw [le_div_iff₀ hu, ← zpow_split]
    exact hlo
  · rw [div_le_iff₀ hu, ← zpow_split_succ]
    exact hhi.le

/-- A rounded number is a binary32 number: rounding it again changes nothing. -/
theorem round_round (x : ℚ) (hx : 0 ≤ x) : round (round x) = round x := by
  rcases eq_or_lt_of_le hx with h0 | hpos
  · rw [← h0]
    simp [round]
  have hx0 : x ≠ 0 := hpos.ne'
  have habs : |x| = x := abs_of_pos hpos
  have hr : round x = roundEven (x / 2 ^ (Int.log 2 x - 23)) * 2 ^ (Int.log 2 x - 23) := by
    simp only [round, ulp, if_neg hx0, habs]
  obtain ⟨hb1, hb2⟩ := scaled_bounds x hpos
  have hk1 : (8388608 : ℤ) ≤ roundEven (x / 2 ^ (Int.log 2 x - 23)) :=
    roundEven_ge _ _ (by exact_mod_cast hb1)
  have hk2 : roundEven (x / 2 ^ (Int.log 2 x - 23)) ≤ (16777216 : ℤ) :=
    roundEven_le _ _ (by exact_mod_cast hb2)
  rw [hr]
  generalize roundEven (x / 2 ^ (Int.log 2 x - 23)) = k at hk1 hk2
  generalize Int.log 2 x = e
  have hu : (0 : ℚ) < 2 ^ (e - 23) := by positivity
  have hkq1 : (8388608 : ℚ) ≤ (k : ℚ) := by exact_mod_cast hk1
  have hkpos : (0 : ℚ) < (k : ℚ) := lt_of_lt_of_le (by norm_num) hkq1
  have hzabs : |(k : ℚ) * 2 ^ (e - 23)| = (k : ℚ) * 2 ^ (e - 23) :=
    abs_of_pos (mul_pos hkpos hu)
  rcases eq_or_lt_of_le hk2 with hmax | hlt
  · -- the rounding went up to the next power of two
    have hz : (k : ℚ) * 2 ^ (e - 23) = 2 ^ (e + 1) := by
      rw [zpow_split_succ, hmax]
      norm_num
    rw [hz]
    have h3 : (2 : ℚ) ^ (e + 1) / 2 ^ (e + 1 - 23) = ((8388608 : ℤ) : ℚ) := by
      rw [div_eq_iff (by positivity), zpow_split (e + 1)]
      norm_num
    rw [round_eq (2 ^ (e + 1)) (e + 1) 8388608
      (by rw [abs_of_pos (by positivity)])
      (by
        rw [abs_of_pos (by positivity)]
        exact zpow_lt_zpow_right₀ (by norm_num) (by omega))
      (by rw [h3, roundEven_intCast])]
    rw [zpow_split (e + 1)]
    norm_num
  · have hkq2 : (k : ℚ) < 16777216 := by exact_mod_cast hlt
    exact round_eq _ e k
      (by
        rw [hzabs, zpow_split]
        exact mul_le_mul_of_nonneg_right hkq1 hu.le)
      (by
        rw [hzabs, zpow_split_succ]
        exact mul_lt_mul_of_pos_right hkq2 hu)
      (by rw [mul_div_assoc, div_self hu.ne', mul_one, roundEven_intCast])

/-- Rounding commutes with the multiplication by a power of two (the exponent
range is not limited). -/
theorem round_mul_zpow (x : ℚ) (j : ℤ) : round (x * 2 ^ j) = round x * 2 ^ j := by
  by_cases hx : x = 0
  · simp [hx, round]
  have hpos : 0 < |x| := abs_pos.mpr hx
  have hj : (0 : ℚ) < 2 ^ j := by positivity
  have hlo : (2 : ℚ) ^ Int.log 2 |x| ≤ |x| := by
    exact_mod_cast Int.zpow_log_le_self (b := 2) (by norm_num) hpos
  have hhi : |x| < (2 : ℚ) ^ (Int.log 2 |x| + 1) := by
    exact_mod_cast Int.lt_zpow_succ_log_self (b := 2) (by norm_num) |x|
  have habs : |x * 2 ^ j| = |x| * 2 ^ j := by rw [abs_mul, abs_of_pos hj]
  have hlog : Int.log 2 |x * 2 ^ j| = Int.log 2 |x| + j := by
    apply log_eq
    · rw [habs, zpow_add₀ (by norm_num : (2 : ℚ) ≠ 0)]
      exact mul_le_mul_of_nonneg_right hlo hj.le
    · rw [habs, show Int.log 2 |x| + j + 1 = (Int.log 2 |x| + 1) + j by ring,
        zpow_add₀ (by norm_num : (2 : ℚ) ≠ 0)]
      exact mul_lt_mul_of_pos_right hhi hj
  have hne : x * 2 ^ j ≠ 0 := mul_ne_zero hx hj.ne'
  simp only [round, ulp, if_neg hx, if_neg hne, hlog]
  have hu : (2 : ℚ) ^ (Int.log 2 |x| + j - 23) = 2 ^ (Int.log 2 |x| - 23) * 2 ^ j := by
    rw [← zpow_add₀ (by norm_num : (2 : ℚ) ≠ 0)]
    congr 1
    ring
  rw [hu, mul_div_mul_right _ _ hj.ne']
  ring

theorem round_zero : round 0 = 0 := by simp [round]

theorem sqrt_eq (x : ℚ) (e : ℤ) (t s : ℕ) (hlo : (2 : ℚ) ^ e ≤ x) (hhi : x < 2 ^ (e + 1))
    (ht : (50 - e).toNat = t)
    (h1 : ((s * s : ℕ) : ℚ) ≤ x * 4 ^ t) (h2 : x * 4 ^ t < (((s + 1) * (s + 1) : ℕ) : ℚ))
    (hne : (s : ℚ) * s ≠ x * 4 ^ t) :
    sqrt x = round ((s + 1 / 2) / 2 ^ t) := by
  have hpos : 0 < x := lt_of_lt_of_le (by positivity) hlo
  have hlog : Int.log 2 x = e := by
    have := log_eq x e (by rwa [abs_of_pos hpos]) (by rwa [abs_of_pos hpos])
    rwa [abs_of_pos hpos] at this
  have hs : Nat.sqrt ⌊x * 4 ^ t⌋₊ = s := by
    symm
    rw [Nat.eq_sqrt]
    constructor
    · exact Nat.le_floor h1
    · exact (Nat.floor_lt (by positivity)).mpr h2
  unfold sqrt
  rw [if_neg (not_le.mpr hpos)]
  simp only [hlog, ht, hs]
  rw [if_neg hne]

/-- Rounding a number that is strictly nearer to `k` units than to any other
multiple of the unit. -/
theorem round_near (x : ℚ) (e k : ℤ) (hlo : (2 : ℚ) ^ e ≤ |x|) (hhi : |x| < 2 ^ (e + 1))
    (h1 : (k : ℚ) - 1 / 2 < x / 2 ^ (e - 23)) (h2 : x / 2 ^ (e - 23) < k + 1 / 2) :
    round x = k * 2 ^ (e - 23) :=
  round_eq x e k hlo hhi (roundEven_near _ _ h1 h2)

theorem round_one : round 1 = 1 := by
  rw [round_near 1 0 8388608 (by norm_num) (by norm_num) (by norm_num) (by norm_num)]
  norm_num

theorem round_neg_one : round (-1) = -1 := by
  rw [round_near (-1) 0 (-8388608) (by norm_num) (by norm_num) (by norm_num) (by norm_num)]
  norm_num

theorem round_two : round 2 = 2 := by
  rw [round_near 2 1 8388608 (by norm_num) (by norm_num) (by norm_num) (by norm_num)]
  norm_num

theorem round_neg_two : round (-2) = -2 := by
  rw [round_near (-2) 1 (-8388608) (by norm_num) (by norm_num) (by norm_num) (by norm_num)]
  norm_num

theorem round_four : round 4 = 4 := by
  rw [round_near 4 2 8388608 (by norm_num) (by norm_num) (by norm_num) (by norm_num)]
  norm_num

end Binary32

/-! ## Properties of the intersection routine -/

section IntersectionProofs

variable {F : Type} [LinearOrderedField F]

/-- The sphere loop either leaves its state untouched, because no sphere of the
list qualifies below the current `hitDistance`, or it ends on the first sphere
of the list that attains the least qualifying near root. -/
theorem scanFrom_spec (sqrt : F → F) (ray : Ray F) (l : List (Sphere F)) :
    ∀ (i : Nat) (st : Int × F),
      (scanFrom sqrt ray l i st = st ∧
        ∀ s ∈ l, 0 ≤ discriminent ray s → 0 < closestT sqrt ray s →
          st.2 ≤ closestT sqrt ray s) ∨
      (∃ (k : Nat) (s : Sphere F), l[k]? = some s ∧
        scanFrom sqrt ray l i st = (((i + k : Nat) : Int), closestT sqrt ray s) ∧
        0 ≤ discriminent ray s ∧ 0 < closestT sqrt ray s ∧ closestT sqrt ray s < st.2 ∧
        (∀ (j : Nat) (sj : Sphere F), l[j]? = some sj → 0 ≤ discriminent ray sj →
          0 < closestT sqrt ray sj → closestT sqrt ray s ≤ closestT sqrt ray sj) ∧
        (∀ (j : Nat) (sj : Sphere F), j < k → l[j]? = some sj → 0 ≤ discriminent ray sj →
          0 < closestT sqrt ray sj → closestT sqrt ray s < closestT sqrt ray sj)) := by
  induction l with
  | nil => intro i st; left; simp [scanFrom]
  | cons s rest ih =>
    intro i st
    by_cases hupd : 0 ≤ discriminent ray s ∧ 0 < closestT sqrt ray s ∧ closestT sqrt ray s < st.2
    · -- the head sphere becomes the current closest one
      obtain ⟨hd, hpos, hlt⟩ := hupd
      have hstep : scanStep sqrt ray i s st = ((i : Int), closestT sqrt ray s) := by
        simp [scanStep, not_lt.mpr hd, hpos, hlt]
      right
      rcases ih (i + 1) ((i : Int), closestT sqrt ray s) with ⟨hsame, hall⟩ | ⟨k, s', hk, hres, hd', hpos', hlt', hmin, hfirst⟩
      · refine ⟨0, s, by simp, ?_, hd, hpos, hlt, ?_, ?_⟩
        · simp [scanFrom, hstep, hsame]
        · intro j sj hj hdj hpj
          cases j with
          | zero => simp at hj; subst hj; exact le_refl _
          | succ j =>
            simp at hj
            exact hall sj (List.getElem?_mem hj) hdj hpj
        · intro j sj hj; omega
      · refine ⟨k + 1, s', by simpa using hk, ?_, hd', hpos', lt_trans hlt' hlt, ?_, ?_⟩
        · simp only [scanFrom, hstep, hres]
          congr 1
          push_cast; ring
        · intro j sj hj hdj hpj
          cases j with
          | zero => simp at hj; subst hj; exact le_of_lt hlt'
          | succ j => simp at hj; exact hmin j sj hj hdj hpj
        · intro j sj hjk hj hdj hpj
          cases j with
          | zero => simp at hj; subst hj; exact hlt'
          | succ j => simp at hj; exact hfirst j sj (by omega) hj hdj hpj
    · -- the head sphere leaves the state as it is
      have hstep : scanStep sqrt ray i s st = st := by
        unfold scanStep
        by_cases hd : discriminent ray s < 0
        · simp [hd]
        · have : ¬ (closestT sqrt ray s > 0 ∧ closestT sqrt ray s < st.2) := by
            intro h; exact hupd ⟨not_lt.mp hd, h.1, h.2⟩
          simp only [hd, if_false, this]
      have hhead : 0 ≤ discriminent ray s → 0 < closestT sqrt ray s →
          st.2 ≤ closestT sqrt ray s := by
        intro hd hp
        by_contra hc
        exact hupd ⟨hd, hp, not_le.mp hc⟩
      rcases ih (i + 1) st with ⟨hsame, hall⟩ | ⟨k, s', hk, hres, hd', hpos', hlt', hmin, hfirst⟩
      · left
        refine ⟨by simp [scanFrom, hstep, hsame], ?_⟩
        intro s' hs' hd hp
        rcases List.mem_cons.mp hs' with rfl | hmem
        · exact hhead hd hp
        · exact hall s' hmem hd hp
      · right
        refine ⟨k + 1, s', by simpa using hk, ?_, hd', hpos', hlt', ?_, ?_⟩
        · simp only [scanFrom, hstep, hres]
          congr 1
          push_cast; ring
        · intro j sj hj hdj hpj
          cases j with
          | zero => simp at hj; subst hj; exact le_trans (le_of_lt hlt') (hhead hdj hpj)
          | succ j => simp at hj; exact hmin j sj hj hdj hpj
        · intro j sj hjk hj hdj hpj
          cases j with
          | zero => simp at hj; subst hj; exact lt_of_lt_of_le hlt' (hhead hdj hpj)
          | succ j => simp at hj; exact hfirst j sj (by omega) hj hdj hpj

theorem ClosestHit_of_getElem? (sqrt : F → F) (fresh : HitPayLoad F) (spheres : List (Sphere F))
    (ray : Ray F) (t : F) (k : Nat) (s : Sphere F) (hk : spheres[k]? = some s) :
    ClosestHit sqrt fresh spheres ray t (k : Int) = some (hitPayload sqrt fresh ray k s t) := by
  simp [ClosestHit, indexInt, hitPayload, hk]

/-- The two outcomes of `TraceRay`: the miss payload, when no sphere has a
qualifying near root below `FLT_MAX`, or the payload of the first sphere that
attains the least qualifying near root. -/
theorem TraceRay_cases (sqrt : F → F) (fresh : HitPayLoad F) (spheres : List (Sphere F))
    (ray : Ray F) :
    (TraceRay sqrt fresh spheres ray = some (Miss fresh ray) ∧
      ∀ s ∈ spheres, 0 ≤ discriminent ray s → 0 < closestT sqrt ray s →
        FLT_MAX ≤ closestT sqrt ray s) ∨
    (∃ (k : Nat) (s : Sphere F), spheres[k]? = some s ∧
      TraceRay sqrt fresh spheres ray
        = some (hitPayload sqrt fresh ray k s (closestT sqrt ray s)) ∧
      0 ≤ discriminent ray s ∧ 0 < closestT sqrt ray s ∧ closestT sqrt ray s < FLT_MAX ∧
      (∀ (j : Nat) (sj : Sphere F), spheres[j]? = some sj → 0 ≤ discriminent ray sj →
        0 < closestT sqrt ray sj → closestT sqrt ray s ≤ closestT sqrt ray sj) ∧
      (∀ (j : Nat) (sj : Sphere F), j < k → spheres[j]? = some sj → 0 ≤ discriminent ray sj →
        0 < closestT sqrt ray sj → closestT sqrt ray s < closestT sqrt ray sj)) := by
  rcases scanFrom_spec sqrt ray spheres 0 (-1, FLT_MAX) with
    ⟨hsame, hall⟩ | ⟨k, s, hk, hres, hd, hpos, hlt, hmin, hfirst⟩
  · left
    refine ⟨?_, hall⟩
    simp [TraceRay, scanSpheres, hsame]
  · right
    refine ⟨k, s, hk, ?_, hd, hpos, hlt, hmin, hfirst⟩
    have hres' : scanSpheres sqrt spheres ray = ((k : Int), closestT sqrt ray s) := by
      simpa [scanSpheres] using hres
    have hnn : ¬ ((k : Int) < 0) := by omega
    simp only [TraceRay, hres', hnn, if_false]
    exact ClosestHit_of_getElem? sqrt fresh spheres ray _ k s hk

/-- The function `TraceRay` always returns a payload: its access to the sphere
list is within bounds. -/
theorem TraceRay_isSome (sqrt : F → F) (fresh : HitPayLoad F) (spheres : List (Sphere F))
    (ray : Ray F) : ∃ p, TraceRay sqrt fresh spheres ray = some p := by
  rcases TraceRay_cases sqrt fresh spheres ray with ⟨h, _⟩ | ⟨k, s, _, h, _⟩
  · exact ⟨_, h⟩
  · exact ⟨_, h⟩

/-- Claim C1. Whenever `TraceRay` reports a hit (the payload distance is not
negative), the object index `i` is that of a sphere with a non-negative
discriminant and a positive near root, the hit distance is that near root, no
sphere with a non-negative discriminant and a positive near root has a smaller
one, and every such sphere at a lower index has a strictly larger one. -/
theorem TraceRay_closest_hit (sqrt : F → F) (fresh : HitPayLoad F) (spheres : List (Sphere F))
    (ray : Ray F) (p : HitPayLoad F) (hp : TraceRay sqrt fresh spheres ray = some p)
    (hhit : ¬ p.HitDistance < 0) :
    ∃ (i : Nat) (s : Sphere F), spheres[i]? = some s ∧ p.ObjectIndex = (i : Int) ∧
      0 ≤ discriminent ray s ∧ 0 < closestT sqrt ray s ∧
      p.HitDistance = closestT sqrt ray s ∧
      (∀ (j : Nat) (sj : Sphere F), spheres[j]? = some sj → 0 ≤ discriminent ray sj →
        0 < closestT sqrt ray sj → closestT sqrt ray s ≤ closestT sqrt ray sj) ∧
      (∀ (j : Nat) (sj : Sphere F), j < i → spheres[j]? = some sj → 0 ≤ discriminent ray sj →
        0 < closestT sqrt ray sj → closestT sqrt ray s < closestT sqrt ray sj) := by
  rcases TraceRay_cases sqrt fresh spheres ray with
    ⟨hmiss, _⟩ | ⟨k, s, hk, hres, hd, hpos, _, hmin, hfirst⟩
  · rw [hmiss] at hp
    cases hp
    exact absurd (by simp [Miss]) hhit
  · rw [hres] at hp
    cases hp
    exact ⟨k, s, hk, rfl, hd, hpos, rfl, hmin, hfirst⟩

/-- Claim C2, as amended. When no sphere of the scene (the empty scene included)
has a non-negative discriminant together with a positive near root, `TraceRay`
returns the payload of `Miss`: its hit distance is `-1`, and its object index is
the one of a payload that was never assigned. -/
theorem TraceRay_miss (sqrt : F → F) (fresh : HitPayLoad F) (spheres : List (Sphere F))
    (ray : Ray F)
    (hnone : ∀ s ∈ spheres, ¬ (0 ≤ discriminent ray s ∧ 0 < closestT sqrt ray s)) :
    ∃ p, TraceRay sqrt fresh spheres ray = some p ∧ p = Miss fresh ray ∧
      p.HitDistance = -1 ∧ p.ObjectIndex = fresh.ObjectIndex := by
  rcases TraceRay_cases sqrt fresh spheres ray with
    ⟨hmiss, _⟩ | ⟨k, s, hk, _, hd, hpos, _⟩
  · exact ⟨_, hmiss, rfl, rfl, rfl⟩
  · exact absurd ⟨hd, hpos⟩ (hnone s (List.getElem?_mem hk))

end IntersectionProofs

/-! ## Properties of the utilities -/

section UtilsProofs

theorem PCG_Hash_lt (input : Nat) : Utils.PCG_Hash input < 2 ^ 32 := by
  unfold Utils.PCG_Hash
  have hword : ∀ w : Nat, w % 2 ^ 32 < 2 ^ 32 := fun w => Nat.mod_lt _ (by norm_num)
  refine Nat.xor_lt_two_pow ?_ (hword _)
  rw [Nat.shiftRight_eq_div_pow]
  exact lt_of_le_of_lt (Nat.div_le_self _ _) (hword _)

/-- The value `RandomFloat` returns: the new seed, rounded to a binary32 number,
divided by `2 ^ 32`. -/
theorem RandomFloat_value {F : Type} [LinearOrderedField F] (seed : Nat) :
    Binary32.ofNat 4294967295 = 4294967296 ∧
    (Utils.RandomFloat seed : F × Nat).1
      = ((Binary32.ofNat (Utils.PCG_Hash seed) / 4294967296 : ℚ) : F) := by
  have hmax : Binary32.ofNat 4294967295 = 4294967296 := by
    unfold Binary32.ofNat
    rw [Binary32.round_near _ 31 16777216 (by norm_num) (by norm_num) (by norm_num)
      (by norm_num)]
    norm_num
  refine ⟨hmax, ?_⟩
  simp only [Utils.RandomFloat, Binary32.div, hmax]
  congr 1
  have h := Binary32.round_mul_zpow (Binary32.ofNat (Utils.PCG_Hash seed)) (-32)
  have hr : Binary32.round (Binary32.ofNat (Utils.PCG_Hash seed))
      = Binary32.ofNat (Utils.PCG_Hash seed) :=
    Binary32.round_round _ (Nat.cast_nonneg _)
  rw [hr] at h
  have hz : (2 : ℚ) ^ (-32 : ℤ) = 1 / 4294967296 := by norm_num
  rw [hz, mul_one_div] at h
  exact h

/-- Claim C9, as amended.  `RandomFloat` replaces the seed by `PCG_Hash seed`, a
32-bit word, and returns the binary32 quotient of that word by `2 ^ 32 - 1`:
both are converted to `float`, which makes the divisor `2 ^ 32` and rounds the
word to 24 significant bits.  The value `r` returned satisfies `0 ≤ r ≤ 1`. -/
theorem RandomFloat_range {F : Type} [LinearOrderedField F] (seed : Nat) :
    (Utils.RandomFloat seed : F × Nat).2 = Utils.PCG_Hash seed ∧
    Utils.PCG_Hash seed < 2 ^ 32 ∧
    Binary32.ofNat (2 ^ 32 - 1) = 2 ^ 32 ∧
    (Utils.RandomFloat seed : F × Nat).1
      = ((Binary32.ofNat (Utils.PCG_Hash seed) / 2 ^ 32 : ℚ) : F) ∧
    0 ≤ (Utils.RandomFloat seed : F × Nat).1 ∧
    (Utils.RandomFloat seed : F × Nat).1 ≤ 1 := by
  have hlt := PCG_Hash_lt seed
  obtain ⟨hmax, hval⟩ := RandomFloat_value (F := F) seed
  have h0 : 0 ≤ Binary32.ofNat (Utils.PCG_Hash seed) :=
    Binary32.round_nonneg _ (Nat.cast_nonneg _)
  have h1 : Binary32.ofNat (Utils.PCG_Hash seed) ≤ 4294967296 := by
    have hle : ((Utils.PCG_Hash seed : ℕ) : ℚ) ≤ 2 ^ (32 : ℤ) := by
      norm_num
      omega
    have := Binary32.round_le_zpow _ 32 (Nat.cast_nonneg _) hle
    norm_num at this
    exact this
  have hq0 : (0 : ℚ) ≤ Binary32.ofNat (Utils.PCG_Hash seed) / 4294967296 :=
    div_nonneg h0 (by norm_num)
  have hq1 : Binary32.ofNat (Utils.PCG_Hash seed) / 4294967296 ≤ (1 : ℚ) :=
    (div_le_one (by norm_num)).mpr h1
  refine ⟨rfl, hlt, ?_, ?_, ?_, ?_⟩
  · norm_num
    exact hmax
  · rw [hval]
    norm_num
  · rw [hval]
    exact_mod_cast hq0
  · rw [hval]
    exact_mod_cast hq1

/-- Claim C9 fails as stated: the seed `2222045655` is hashed to `2 ^ 32 - 1`, and
`RandomFloat` then returns `1`, which is not below `1`. -/
theorem RandomFloat_reaches_one :
    Utils.PCG_Hash seedToMax = 4294967295 ∧
    (Utils.RandomFloat seedToMax : ℚ × Nat).1 = 1 ∧
    ¬ ((Utils.RandomFloat seedToMax : ℚ × Nat).1 < 1) := by
  have h : Utils.PCG_Hash seedToMax = 4294967295 := by decide
  obtain ⟨hmax, hval⟩ := RandomFloat_value (F := ℚ) seedToMax
  have h1 : (Utils.RandomFloat seedToMax : ℚ × Nat).1 = 1 := by
    rw [hval, h, hmax]
    norm_num
  exact ⟨h, h1, by rw [h1]; norm_num⟩

theorem toUInt8_lt {F : Type} [LinearOrderedField F] [FloorRing F] (v : F) :
    Utils.toUInt8 v < 256 := by
  unfold Utils.toUInt8
  have h1 := Int.emod_nonneg (if 0 ≤ v then ⌊v⌋ else ⌈v⌉) (show (256 : Int) ≠ 0 by norm_num)
  have h2 := Int.emod_lt_of_pos (if 0 ≤ v then ⌊v⌋ else ⌈v⌉) (show (0 : Int) < 256 by norm_num)
  omega

/-- On a value `k * v` with `0 ≤ v ≤ 1` and `k ≤ 255` the conversion to
`uint8_t` is the floor. -/
theorem toUInt8_scaled {F : Type} [LinearOrderedField F] [FloorRing F] (v : F) (k : Nat)
    (hk : k ≤ 255) (h0 : 0 ≤ v) (h1 : v ≤ 1) :
    Utils.toUInt8 (v * (k : F)) = ⌊v * (k : F)⌋.toNat := by
  have hnn : 0 ≤ v * (k : F) := mul_nonneg h0 (Nat.cast_nonneg _)
  have hfl0 : 0 ≤ ⌊v * (k : F)⌋ := Int.floor_nonneg.mpr hnn
  have hle : v * (k : F) ≤ (k : F) := by
    calc v * (k : F) ≤ 1 * (k : F) := mul_le_mul_of_nonneg_right h1 (Nat.cast_nonneg _)
      _ = (k : F) := one_mul _
  have hfl1 : ⌊v * (k : F)⌋ ≤ (k : Int) := by
    have := Int.floor_le (v * (k : F))
    have h3 : ((⌊v * (k : F)⌋ : Int) : F) ≤ ((k : Int) : F) := by
      push_cast
      exact le_trans this hle
    exact_mod_cast h3
  unfold Utils.toUInt8
  rw [if_pos hnn]
  congr 1
  exact Int.emod_eq_of_lt hfl0 (by omega)

/-- Four bytes combined by shifts and bitwise or are the digits of the word in
base 256. -/
theorem pack_bytes (a b g r : Nat) (hb : b < 256) (hg : g < 256) (hr : r < 256) :
    (a <<< 24) ||| (b <<< 16) ||| (g <<< 8) ||| r
      = a * 2 ^ 24 + b * 2 ^ 16 + g * 2 ^ 8 + r := by
  simp only [Nat.shiftLeft_eq]
  have e1 : a * 2 ^ 24 ||| b * 2 ^ 16 = a * 2 ^ 24 + b * 2 ^ 16 := by
    have := Nat.mul_add_lt_is_or (show b * 2 ^ 16 < 2 ^ 24 by omega) a
    rw [mul_comm (2 ^ 24) a] at this
    exact this.symm
  have e2 : (a * 2 ^ 24 + b * 2 ^ 16) ||| g * 2 ^ 8 = a * 2 ^ 24 + b * 2 ^ 16 + g * 2 ^ 8 := by
    have := Nat.mul_add_lt_is_or (show g * 2 ^ 8 < 2 ^ 16 by omega) (a * 2 ^ 8 + b)
    have e : 2 ^ 16 * (a * 2 ^ 8 + b) = a * 2 ^ 24 + b * 2 ^ 16 := by ring
    rw [e] at this
    exact this.symm
  have e3 : (a * 2 ^ 24 + b * 2 ^ 16 + g * 2 ^ 8) ||| r
      = a * 2 ^ 24 + b * 2 ^ 16 + g * 2 ^ 8 + r := by
    have := Nat.mul_add_lt_is_or (show r < 2 ^ 8 by omega) (a * 2 ^ 16 + b * 2 ^ 8 + g)
    have e : 2 ^ 8 * (a * 2 ^ 16 + b * 2 ^ 8 + g) = a * 2 ^ 24 + b * 2 ^ 16 + g * 2 ^ 8 := by ring
    rw [e] at this
    exact this.symm
  rw [e1, e2, e3]

/-- The bytes of the word `ConvertToRGBA` returns. -/
theorem ConvertToRGBA_bytes {F : Type} [LinearOrderedField F] [FloorRing F] (color : Vec4 F) :
    Utils.ConvertToRGBA color < 2 ^ 32 ∧
    (Utils.ConvertToRGBA color >>> 24) % 256 = Utils.toUInt8 (color.a * 250) ∧
    (Utils.ConvertToRGBA color >>> 16) % 256 = Utils.toUInt8 (color.b * 250) ∧
    (Utils.ConvertToRGBA color >>> 8) % 256 = Utils.toUInt8 (color.g * 250) ∧
    Utils.ConvertToRGBA color % 256 = Utils.toUInt8 (color.r * 255) := by
  have ha := toUInt8_lt (color.a * 250)
  have hb := toUInt8_lt (color.b * 250)
  have hg := toUInt8_lt (color.g * 250)
  have hr := toUInt8_lt (color.r * 255)
  have hpack := pack_bytes (Utils.toUInt8 (color.a * 250)) _ _ _ hb hg hr
  simp only [Utils.ConvertToRGBA, hpack, Nat.shiftRight_eq_div_pow]
  norm_num
  omega

/-- Claim C10.  For a colour with all four channels in `[0, 1]`, the word
`ConvertToRGBA` returns is a 32-bit word whose bits 24-31 are the byte of the
alpha channel, bits 16-23 the byte of blue, bits 8-15 the byte of green and bits
0-7 the byte of red (the floor of the channel times the scale the code uses for
it); and each byte is the same for every colour that has the same value in that
channel. -/
theorem ConvertToRGBA_layout {F : Type} [LinearOrderedField F] [FloorRing F] (color : Vec4 F)
    (hr : 0 ≤ color.r ∧ color.r ≤ 1) (hg : 0 ≤ color.g ∧ color.g ≤ 1)
    (hb : 0 ≤ color.b ∧ color.b ≤ 1) (ha : 0 ≤ color.a ∧ color.a ≤ 1) :
    Utils.ConvertToRGBA color < 2 ^ 32 ∧
    (Utils.ConvertToRGBA color >>> 24) % 256 = ⌊color.a * 250⌋.toNat ∧
    (Utils.ConvertToRGBA color >>> 16) % 256 = ⌊color.b * 250⌋.toNat ∧
    (Utils.ConvertToRGBA color >>> 8) % 256 = ⌊color.g * 250⌋.toNat ∧
    Utils.ConvertToRGBA color % 256 = ⌊color.r * 255⌋.toNat ∧
    ∀ other : Vec4 F,
      (other.a = color.a →
        (Utils.ConvertToRGBA other >>> 24) % 256 = (Utils.ConvertToRGBA color >>> 24) % 256) ∧
      (other.b = color.b →
        (Utils.ConvertToRGBA other >>> 16) % 256 = (Utils.ConvertToRGBA color >>> 16) % 256) ∧
      (other.g = color.g →
        (Utils.ConvertToRGBA other >>> 8) % 256 = (Utils.ConvertToRGBA color >>> 8) % 256) ∧
      (other.r = color.r →
        Utils.ConvertToRGBA other % 256 = Utils.ConvertToRGBA color % 256) := by
  obtain ⟨hlt, h24, h16, h8, h0⟩ := ConvertToRGBA_bytes color
  have ea := toUInt8_scaled color.a 250 (by norm_num) ha.1 ha.2
  have eb := toUInt8_scaled color.b 250 (by norm_num) hb.1 hb.2
  have eg := toUInt8_scaled color.g 250 (by norm_num) hg.1 hg.2
  have er := toUInt8_scaled color.r 255 (by norm_num) hr.1 hr.2
  simp only [Nat.cast_ofNat] at ea eb eg er
  refine ⟨hlt, h24.trans ea, h16.trans eb, h8.trans eg, h0.trans er, ?_⟩
  intro other
  obtain ⟨_, o24, o16, o8, o0⟩ := ConvertToRGBA_bytes other
  refine ⟨fun h => ?_, fun h => ?_, fun h => ?_, fun h => ?_⟩
  · rw [o24, h24, h]
  · rw [o16, h16, h]
  · rw [o8, h8, h]
  · rw [o0, h0, h]

/-- Claim C10 at the colour `(1, 1/2, 1/4, 1)`. -/
theorem ConvertToRGBA_layout_witness :
    ((0 : ℚ) ≤ sampleColour.r ∧ sampleColour.r ≤ 1) ∧
    ((0 : ℚ) ≤ sampleColour.g ∧ sampleColour.g ≤ 1) ∧
    ((0 : ℚ) ≤ sampleColour.b ∧ sampleColour.b ≤ 1) ∧
    ((0 : ℚ) ≤ sampleColour.a ∧ sampleColour.a ≤ 1) ∧
    (Utils.ConvertToRGBA sampleColour >>> 24) % 256 = ⌊sampleColour.a * 250⌋.toNat ∧
    Utils.ConvertToRGBA sampleColour = 0xFA3E7DFF :=
  have hr : (0 : ℚ) ≤ sampleColour.r ∧ sampleColour.r ≤ 1 := by norm_num [sampleColour]
  have hg : (0 : ℚ) ≤ sampleColour.g ∧ sampleColour.g ≤ 1 := by norm_num [sampleColour]
  have hb : (0 : ℚ) ≤ sampleColour.b ∧ sampleColour.b ≤ 1 := by norm_num [sampleColour]
  have ha : (0 : ℚ) ≤ sampleColour.a ∧ sampleColour.a ≤ 1 := by norm_num [sampleColour]
  ⟨hr, hg, hb, ha, (ConvertToRGBA_layout sampleColour hr hg hb ha).2.1, by
    norm_num [Utils.ConvertToRGBA, Utils.toUInt8, sampleColour]
    decide⟩

end UtilsProofs

/-! ## Geometry of the hit payload -/

section GeometryProofs

variable {F : Type} [LinearOrderedField F]

/-- A function that is the square root on the non-negative numbers. -/
theorem sqrt_mul_self_of_pos (sqrt : F → F)
    (hsqrt : ∀ v, 0 ≤ v → 0 ≤ sqrt v ∧ sqrt v * sqrt v = v) (r : F) (hr : 0 < r) :
    sqrt (r * r) = r := by
  obtain ⟨h0, h1⟩ := hsqrt (r * r) (mul_self_nonneg r)
  rcases mul_self_eq_mul_self_iff.mp h1 with h | h
  · exact h
  · linarith

/-- The squared length of a non-zero vector is not zero. -/
theorem dot_self_ne_zero (d : Vec3 F) (hd : d ≠ Vec3.zero) : Vec3.dot d d ≠ 0 := by
  intro h
  apply hd
  unfold Vec3.dot at h
  have hx : d.x * d.x = 0 :=
    le_antisymm (by nlinarith [mul_self_nonneg d.y, mul_self_nonneg d.z]) (mul_self_nonneg _)
  have hy : d.y * d.y = 0 :=
    le_antisymm (by nlinarith [mul_self_nonneg d.x, mul_self_nonneg d.z]) (mul_self_nonneg _)
  have hz : d.z * d.z = 0 :=
    le_antisymm (by nlinarith [mul_self_nonneg d.x, mul_self_nonneg d.y]) (mul_self_nonneg _)
  cases d
  simp only [Vec3.zero, Vec3.mk.injEq]
  exact ⟨mul_self_eq_zero.mp hx, mul_self_eq_zero.mp hy, mul_self_eq_zero.mp hz⟩

/-- The near root is a root of the quadratic of the sphere, when the
discriminant has a square root and the direction is not zero. -/
theorem closestT_is_root (sqrt : F → F) (ray : Ray F) (s : Sphere F)
    (ha : quadA ray ≠ 0)
    (hsq : sqrt (discriminent ray s) * sqrt (discriminent ray s) = discriminent ray s) :
    quadA ray * closestT sqrt ray s * closestT sqrt ray s
      + quadB ray s * closestT sqrt ray s + quadC ray s = 0 := by
  have h1 : 2 * quadA ray * closestT sqrt ray s
      = -quadB ray s - sqrt (discriminent ray s) := by
    unfold closestT
    field_simp
  have h2 : sqrt (discriminent ray s) * sqrt (discriminent ray s)
      = quadB ray s * quadB ray s - 4 * quadA ray * quadC ray s := by
    rw [hsq]; rfl
  have h3 : 4 * quadA ray * (quadA ray * closestT sqrt ray s * closestT sqrt ray s
      + quadB ray s * closestT sqrt ray s + quadC ray s) = 0 := by
    linear_combination
      (2 * quadA ray * closestT sqrt ray s + quadB ray s - sqrt (discriminent ray s)) * h1 + h2
  rcases mul_eq_zero.mp h3 with h | h
  · exact absurd h (mul_ne_zero (by norm_num) ha)
  · exact h

/-- The squared distance from the sphere centre of the point of the ray at
parameter `t`. -/
theorem dot_hit_point (ray : Ray F) (s : Sphere F) (t : F) :
    Vec3.dot (Vec3.add (Vec3.sub ray.Origin s.Position) (Vec3.scale ray.Direction t))
        (Vec3.add (Vec3.sub ray.Origin s.Position) (Vec3.scale ray.Direction t))
      = quadA ray * t * t + quadB ray s * t + quadC ray s + s.Radius * s.Radius := by
  simp only [quadA, quadB, quadC, localOrigin, Vec3.dot, Vec3.add, Vec3.sub, Vec3.scale]
  ring

/-- Claim C8.  Let `sqrt` be a square root on the non-negative numbers.  When
`TraceRay` reports a hit for a ray with a non-zero direction, on a sphere with
centre `c` and radius `r > 0`: the world position is the ray origin plus the
direction times the hit distance; its distance from `c` is `r`; and the world
normal is the world position minus `c`, divided by `r`, of length `1`. -/
theorem ClosestHit_geometry (sqrt : F → F)
    (hsqrt : ∀ v, 0 ≤ v → 0 ≤ sqrt v ∧ sqrt v * sqrt v = v)
    (fresh : HitPayLoad F) (spheres : List (Sphere F)) (ray : Ray F) (p : HitPayLoad F)
    (s : Sphere F) (hdir : ray.Direction ≠ Vec3.zero)
    (hp : TraceRay sqrt fresh spheres ray = some p) (hhit : ¬ p.HitDistance < 0)
    (hs : indexInt spheres p.ObjectIndex = some s) (hr : 0 < s.Radius) :
    p.WorldPosition = Vec3.add ray.Origin (Vec3.scale ray.Direction p.HitDistance) ∧
    Vec3.length sqrt (Vec3.sub p.WorldPosition s.Position) = s.Radius ∧
    p.WorldNormal = Vec3.div (Vec3.sub p.WorldPosition s.Position) s.Radius ∧
    Vec3.length sqrt p.WorldNormal = 1 := by
  rcases TraceRay_cases sqrt fresh spheres ray with
    ⟨hmiss, _⟩ | ⟨k, s', hk, hres, hd, _, _, _, _⟩
  · rw [hmiss] at hp
    cases hp
    exact absurd (by simp [Miss]) hhit
  · rw [hres] at hp
    cases hp
    have hss : s' = s := by
      simpa [indexInt, hitPayload, hk] using hs
    subst hss
    have ha : quadA ray ≠ 0 := dot_self_ne_zero ray.Direction hdir
    have hroot := closestT_is_root sqrt ray s' ha (hsqrt _ hd).2
    have hdot := dot_hit_point ray s' (closestT sqrt ray s')
    rw [hroot, zero_add] at hdot
    have hsr : sqrt (s'.Radius * s'.Radius) = s'.Radius :=
      sqrt_mul_self_of_pos sqrt hsqrt s'.Radius hr
    have hone : sqrt 1 = 1 := by
      have := sqrt_mul_self_of_pos sqrt hsqrt 1 one_pos
      simpa using this
    have hrne : s'.Radius ≠ 0 := ne_of_gt hr
    -- the world position minus the centre is the local hit point
    have hlocal : Vec3.sub (hitPayload sqrt fresh ray k s' (closestT sqrt ray s')).WorldPosition
        s'.Position
        = Vec3.add (Vec3.sub ray.Origin s'.Position)
            (Vec3.scale ray.Direction (closestT sqrt ray s')) := by
      simp only [hitPayload, Vec3.add, Vec3.sub, Vec3.scale, Vec3.mk.injEq]
      refine ⟨by ring, by ring, by ring⟩
    have hnormal : (hitPayload sqrt fresh ray k s' (closestT sqrt ray s')).WorldNormal
        = Vec3.div (Vec3.add (Vec3.sub ray.Origin s'.Position)
            (Vec3.scale ray.Direction (closestT sqrt ray s'))) s'.Radius := by
      simp only [hitPayload, Vec3.normalize, hdot, hsr]
      simp only [Vec3.scale, Vec3.div, Vec3.mk.injEq]
      refine ⟨by ring, by ring, by ring⟩
    refine ⟨?_, ?_, ?_, ?_⟩
    · simp only [hitPayload, Vec3.add, Vec3.sub, Vec3.scale, Vec3.mk.injEq]
      refine ⟨by ring, by ring, by ring⟩
    · rw [hlocal, Vec3.length, hdot, hsr]
    · rw [hlocal, hnormal]
    · rw [hnormal, Vec3.length]
      have hnn : Vec3.dot
          (Vec3.div (Vec3.add (Vec3.sub ray.Origin s'.Position)
            (Vec3.scale ray.Direction (closestT sqrt ray s'))) s'.Radius)
          (Vec3.div (Vec3.add (Vec3.sub ray.Origin s'.Position)
            (Vec3.scale ray.Direction (closestT sqrt ray s'))) s'.Radius) = 1 := by
        have : Vec3.dot
            (Vec3.div (Vec3.add (Vec3.sub ray.Origin s'.Position)
              (Vec3.scale ray.Direction (closestT sqrt ray s'))) s'.Radius)
            (Vec3.div (Vec3.add (Vec3.sub ray.Origin s'.Position)
              (Vec3.scale ray.Direction (closestT sqrt ray s'))) s'.Radius)
          = Vec3.dot (Vec3.add (Vec3.sub ray.Origin s'.Position)
              (Vec3.scale ray.Direction (closestT sqrt ray s')))
            (Vec3.add (Vec3.sub ray.Origin s'.Position)
              (Vec3.scale ray.Direction (closestT sqrt ray s'))) / (s'.Radius * s'.Radius) := by
          simp only [Vec3.dot, Vec3.div]
          field_simp
        rw [this, hdot]
        exact div_self (mul_ne_zero hrne hrne)
      rw [hnn, hone]

end GeometryProofs

/-! ## The intersection routine on concrete scenes -/

section IntersectionExamples

theorem sqrt_four : Real.sqrt 4 = 2 := by
  rw [show (4 : ℝ) = 2 ^ 2 by norm_num, Real.sqrt_sq (by norm_num)]

theorem TraceRay_twoSpheres :
    TraceRay Real.sqrt zeroPayload twoSpheres zRay
      = some ⟨2, ⟨0, 0, 2⟩, ⟨0, 0, -1⟩, 1⟩ := by
  norm_num [TraceRay, scanSpheres, scanFrom, scanStep, closestT, discriminent, quadA, quadB,
    quadC, localOrigin, Vec3.dot, Vec3.sub, Vec3.add, Vec3.scale, Vec3.normalize, ClosestHit,
    indexInt, FLT_MAX, twoSpheres, zRay, zeroPayload, sqrt_four]

theorem sphereBehind_not_qualifying :
    ∀ s ∈ sphereBehind, ¬ (0 ≤ discriminent zRay s ∧ 0 < closestT Real.sqrt zRay s) := by
  intro s hs
  simp only [sphereBehind, List.mem_singleton] at hs
  subst hs
  norm_num [closestT, discriminent, quadA, quadB, quadC, localOrigin, Vec3.dot, Vec3.sub, zRay,
    sqrt_four]

/-- Claim C1 on the scene of the specification: spheres of radius `1` at
`(0,0,5)` (index 0) and `(0,0,3)` (index 1), ray from the origin along `z`.
The hit is sphere 1 at distance 2. -/
theorem TraceRay_closest_hit_witness :
    TraceRay Real.sqrt zeroPayload twoSpheres zRay
      = some ⟨2, ⟨0, 0, 2⟩, ⟨0, 0, -1⟩, 1⟩ ∧
    ¬ ((2 : ℝ) < 0) ∧
    ∃ (i : Nat) (s : Sphere ℝ), twoSpheres[i]? = some s ∧ (1 : Int) = (i : Int) ∧
      0 ≤ discriminent zRay s ∧ 0 < closestT Real.sqrt zRay s ∧
      (2 : ℝ) = closestT Real.sqrt zRay s ∧
      (∀ (j : Nat) (sj : Sphere ℝ), twoSpheres[j]? = some sj → 0 ≤ discriminent zRay sj →
        0 < closestT Real.sqrt zRay sj → closestT Real.sqrt zRay s ≤ closestT Real.sqrt zRay sj) ∧
      (∀ (j : Nat) (sj : Sphere ℝ), j < i → twoSpheres[j]? = some sj →
        0 ≤ discriminent zRay sj → 0 < closestT Real.sqrt zRay sj →
        closestT Real.sqrt zRay s < closestT Real.sqrt zRay sj) :=
  ⟨TraceRay_twoSpheres, by norm_num,
    TraceRay_closest_hit Real.sqrt zeroPayload twoSpheres zRay _ TraceRay_twoSpheres
      (by norm_num)⟩

/-- Claim C2, as amended, on a sphere that lies behind the ray origin. -/
theorem TraceRay_miss_witness :
    (∀ s ∈ sphereBehind, ¬ (0 ≤ discriminent zRay s ∧ 0 < closestT Real.sqrt zRay s)) ∧
    ∃ p, TraceRay Real.sqrt zeroPayload sphereBehind zRay = some p ∧
      p = Miss zeroPayload zRay ∧ p.HitDistance = -1 ∧
      p.ObjectIndex = zeroPayload.ObjectIndex :=
  ⟨sphereBehind_not_qualifying,
    TraceRay_miss Real.sqrt zeroPayload sphereBehind zRay sphereBehind_not_qualifying⟩

/-- Claim C2 fails as stated: on a scene whose only sphere lies behind the ray
origin no sphere qualifies, and the payload `TraceRay` returns has the object
index `0` of the unassigned payload it started from, not `-1`. -/
theorem TraceRay_miss_index_unassigned :
    (∀ s ∈ sphereBehind, ¬ (0 ≤ discriminent zRay s ∧ 0 < closestT Real.sqrt zRay s)) ∧
    TraceRay Real.sqrt zeroPayload sphereBehind zRay
      = some ⟨-1, ⟨0, 0, 0⟩, ⟨0, 0, 0⟩, 0⟩ ∧
    ¬ (∃ p, TraceRay Real.sqrt zeroPayload sphereBehind zRay = some p ∧
      p.HitDistance = -1 ∧ p.ObjectIndex = -1) := by
  have heval : TraceRay Real.sqrt zeroPayload sphereBehind zRay
      = some ⟨-1, ⟨0, 0, 0⟩, ⟨0, 0, 0⟩, 0⟩ := by
    norm_num [TraceRay, scanSpheres, scanFrom, scanStep, closestT, discriminent, quadA, quadB,
      quadC, localOrigin, Vec3.dot, Vec3.sub, Miss, FLT_MAX, sphereBehind, zRay, zeroPayload,
      sqrt_four]
  refine ⟨sphereBehind_not_qualifying, heval, ?_⟩
  rintro ⟨p, hp, _, hidx⟩
  rw [heval] at hp
  cases hp
  norm_num at hidx

theorem real_sqrt_spec : ∀ v : ℝ, 0 ≤ v → 0 ≤ Real.sqrt v ∧ Real.sqrt v * Real.sqrt v = v :=
  fun v hv => ⟨Real.sqrt_nonneg v, Real.mul_self_sqrt hv⟩

theorem zRay_direction_ne_zero : zRay.Direction ≠ Vec3.zero := by
  simp [zRay, Vec3.zero]

/-- Claim C8 on the two-sphere scene with the real square root: the hit on the
sphere at `(0,0,3)` has world position `(0,0,2)` and world normal `(0,0,-1)`. -/
theorem ClosestHit_geometry_witness :
    (∀ v : ℝ, 0 ≤ v → 0 ≤ Real.sqrt v ∧ Real.sqrt v * Real.sqrt v = v) ∧
    zRay.Direction ≠ Vec3.zero ∧
    TraceRay Real.sqrt zeroPayload twoSpheres zRay
      = some ⟨2, ⟨0, 0, 2⟩, ⟨0, 0, -1⟩, 1⟩ ∧
    ¬ ((2 : ℝ) < 0) ∧
    indexInt twoSpheres 1 = some ⟨⟨0, 0, 3⟩, 1, 0⟩ ∧
    (0 : ℝ) < 1 ∧
    (⟨0, 0, 2⟩ : Vec3 ℝ) = Vec3.add zRay.Origin (Vec3.scale zRay.Direction 2) ∧
    Vec3.length Real.sqrt (Vec3.sub ⟨0, 0, 2⟩ ⟨0, 0, 3⟩) = 1 ∧
    (⟨0, 0, -1⟩ : Vec3 ℝ) = Vec3.div (Vec3.sub ⟨0, 0, 2⟩ ⟨0, 0, 3⟩) 1 ∧
    Vec3.length Real.sqrt (⟨0, 0, -1⟩ : Vec3 ℝ) = 1 :=
  ⟨real_sqrt_spec, zRay_direction_ne_zero, TraceRay_twoSpheres, by norm_num, rfl, one_pos,
    ClosestHit_geometry Real.sqrt real_sqrt_spec zeroPayload twoSpheres zRay
      ⟨2, ⟨0, 0, 2⟩, ⟨0, 0, -1⟩, 1⟩ ⟨⟨0, 0, 3⟩, 1, 0⟩ zRay_direction_ne_zero
      TraceRay_twoSpheres (by norm_num) rfl one_pos⟩

end IntersectionExamples

/-! ## Properties of `onResize` -/

section ResizeProofs

theorem vectorResize_length (v : List Nat) (n : Nat) : (vectorResize v n).length = n := by
  simp only [vectorResize, List.length_append, List.length_take, List.length_replicate]
  omega

theorem fillIndices_prefix (v : List Nat) :
    ∀ k, k ≤ v.length →
      (List.range k).foldl (fun v i => v.set i i) v = List.range k ++ v.drop k := by
  intro k
  induction k with
  | zero => intro _; simp
  | succ k ih =>
    intro hk
    have hk' : k < v.length := by omega
    rw [List.range_succ, List.foldl_append, ih (by omega)]
    simp only [List.foldl_cons, List.foldl_nil]
    rw [List.set_append_right _ _ (by simp), List.drop_eq_getElem_cons hk']
    simp only [List.length_range, Nat.sub_self, List.set_cons_zero, List.append_assoc,
      List.singleton_append]

/-- After `resize(n)` the filling loop leaves the sequence `0, 1, ..., n - 1`. -/
theorem fillIndices_vectorResize (v : List Nat) (n : Nat) :
    fillIndices (vectorResize v n) n = List.range n := by
  have h := fillIndices_prefix (vectorResize v n) n (by rw [vectorResize_length])
  have hdrop : (vectorResize v n).drop n = [] := by
    apply List.drop_eq_nil_of_le
    rw [vectorResize_length]
  rw [fillIndices, h, hdrop, List.append_nil]

/-- The function `onResize` never writes the frame index. -/
theorem onResize_frameIndex {F : Type} (R : Renderer F) (width height : Nat) :
    (onResize R width height).m_FrameIndex = R.m_FrameIndex := by
  unfold onResize
  cases R.m_FinalImage with
  | none => rfl
  | some image =>
    simp only
    split_ifs <;> rfl

/-- When the dimensions differ from those of the current image (or there is no
image yet), `onResize` records them, allocates both buffers anew, with
`width * height` (modulo `2 ^ 32`) unwritten cells, and regenerates the index
sequences. -/
theorem onResize_realloc {F : Type} (R : Renderer F) (width height : Nat)
    (hne : R.m_FinalImage ≠ some ⟨width, height⟩) :
    onResize R width height =
      { R with
        m_FinalImage := some ⟨width, height⟩
        m_ImageData := List.replicate ((width * height) % 2 ^ 32) none
        m_AccumilationData := List.replicate ((width * height) % 2 ^ 32) none
        m_ImageHorizontalIter := List.range width
        m_ImageVerticalIter := List.range height } := by
  unfold onResize
  cases himg : R.m_FinalImage with
  | none => simp only [fillIndices_vectorResize]
  | some image =>
    have hdim : ¬ (image.Width = width ∧ image.Height = height) := by
      rintro ⟨hw, hh⟩
      apply hne
      rw [himg]
      cases image
      simp_all
    simp only [hdim, if_false, Image.Resize, fillIndices_vectorResize]

/-- After a resize to `W` by `H` pixels with `W * H < 2 ^ 32` the renderer is set
up for `W` by `H` pixels. -/
theorem onResize_sized {F : Type} [LinearOrderedField F] (R : Renderer F) (W H : Nat)
    (hWH : W * H < 2 ^ 32) (hne : R.m_FinalImage ≠ some ⟨W, H⟩) :
    (onResize R W H).Sized W H := by
  rw [onResize_realloc R W H hne]
  have hmod : (W * H) % 2 ^ 32 = W * H := Nat.mod_eq_of_lt hWH
  refine ⟨rfl, hWH, rfl, rfl, ?_, ?_⟩ <;> simp only [hmod, List.length_replicate]

/-- Claim C6.  For a renderer whose image already has the size `(w, h)`,
`onResize w h` changes nothing: the output buffer, the accumulation buffer, the
two index sequences, the frame index and every other member are as before. -/
theorem onResize_same_size {F : Type} (R : Renderer F) (w h : Nat)
    (himg : R.m_FinalImage = some ⟨w, h⟩) :
    onResize R w h = R := by
  unfold onResize
  simp [himg]

/-- Claim C6 on a renderer with an image of 2 by 2 pixels. -/
theorem onResize_same_size_witness :
    renderer2x2.m_FinalImage = some ⟨2, 2⟩ ∧ onResize renderer2x2 2 2 = renderer2x2 :=
  ⟨rfl, onResize_same_size renderer2x2 2 2 rfl⟩

/-- Claim C7, as amended.  With `width = 0` or `height = 0`, `onResize` changes
nothing only when the image already has exactly these dimensions; otherwise it
proceeds as for any other size: the dimensions are recorded, both buffers are
allocated anew with no cell, and the index sequences become `0..width-1` and
`0..height-1`. -/
theorem onResize_zero_size {F : Type} (R : Renderer F) (width height : Nat)
    (hzero : width = 0 ∨ height = 0) :
    (R.m_FinalImage = some ⟨width, height⟩ → onResize R width height = R) ∧
    (R.m_FinalImage ≠ some ⟨width, height⟩ →
      (onResize R width height).m_FinalImage = some ⟨width, height⟩ ∧
      (onResize R width height).m_ImageData = [] ∧
      (onResize R width height).m_AccumilationData = [] ∧
      (onResize R width height).m_ImageHorizontalIter = List.range width ∧
      (onResize R width height).m_ImageVerticalIter = List.range height) := by
  have hprod : (width * height) % 2 ^ 32 = 0 := by
    rcases hzero with h | h <;> simp [h]
  refine ⟨fun himg => ?_, fun hne => ?_⟩
  · unfold onResize
    simp [himg]
  · rw [onResize_realloc R width height hne]
    simp only [hprod, List.replicate_zero, and_self]

/-- Claim C7, as amended, on the request `(0, 5)` for a renderer of 2 by 2
pixels. -/
theorem onResize_zero_size_witness :
    ((0 : Nat) = 0 ∨ (5 : Nat) = 0) ∧
    (renderer2x2.m_FinalImage ≠ some ⟨0, 5⟩ →
      (onResize renderer2x2 0 5).m_FinalImage = some ⟨0, 5⟩ ∧
      (onResize renderer2x2 0 5).m_ImageData = [] ∧
      (onResize renderer2x2 0 5).m_AccumilationData = [] ∧
      (onResize renderer2x2 0 5).m_ImageHorizontalIter = List.range 0 ∧
      (onResize renderer2x2 0 5).m_ImageVerticalIter = List.range 5) :=
  ⟨Or.inl rfl, (onResize_zero_size renderer2x2 0 5 (Or.inl rfl)).2⟩

/-- Claim C7 fails as stated: the request `(0, 5)` on a renderer of 2 by 2
pixels is carried out; the recorded dimensions, both buffers and both index
sequences change. -/
theorem onResize_zero_not_rejected :
    (onResize renderer2x2 0 5).m_FinalImage = some ⟨0, 5⟩ ∧
    (onResize renderer2x2 0 5).m_ImageData = [] ∧
    (onResize renderer2x2 0 5).m_AccumilationData = [] ∧
    (onResize renderer2x2 0 5).m_ImageHorizontalIter = [] ∧
    (onResize renderer2x2 0 5).m_ImageVerticalIter = [0, 1, 2, 3, 4] ∧
    (onResize renderer2x2 0 5).m_FinalImage ≠ renderer2x2.m_FinalImage ∧
    (onResize renderer2x2 0 5).m_ImageData ≠ renderer2x2.m_ImageData ∧
    (onResize renderer2x2 0 5).m_AccumilationData ≠ renderer2x2.m_AccumilationData ∧
    (onResize renderer2x2 0 5).m_ImageHorizontalIter ≠ renderer2x2.m_ImageHorizontalIter ∧
    (onResize renderer2x2 0 5).m_ImageVerticalIter ≠ renderer2x2.m_ImageVerticalIter := by
  have hne : renderer2x2.m_FinalImage ≠ some ⟨0, 5⟩ := by simp [renderer2x2]
  rw [onResize_realloc renderer2x2 0 5 hne]
  simp [renderer2x2, List.range_succ]

end ResizeProofs

/-! ## Properties of `Render` -/

section FrameProofs

variable {F : Type} [LinearOrderedField F]

/-- The function `PerPixel` reads the camera, the scene, the image, the frame
index and the settings, and nothing else of the renderer. -/
theorem PerPixel_congr (sqrt : F → F) (fresh : HitPayLoad F) (R R' : Renderer F)
    (slow : Nat → Vec3 F) (x y : Nat)
    (hcam : R.m_ActiveCam = R'.m_ActiveCam) (hscene : R.m_ActiveScene = R'.m_ActiveScene)
    (himg : R.m_FinalImage = R'.m_FinalImage) (hframe : R.m_FrameIndex = R'.m_FrameIndex)
    (hset : R.m_Settings = R'.m_Settings) :
    PerPixel sqrt fresh R slow x y = PerPixel sqrt fresh R' slow x y := by
  unfold PerPixel
  rw [hcam, hscene, himg, hframe, hset]

variable [FloorRing F]

/-- What a successful run of the pixel body did. -/
theorem renderPixel_eq_some (sqrt : F → F) (fresh : HitPayLoad F) (R : Renderer F) (width : Nat)
    (slow : Nat → Nat → Nat → Vec3 F) (y x : Nat)
    (buffers result : List (Option (Vec4 F)) × List (Option Nat))
    (h : renderPixel sqrt fresh R width slow y x buffers = some result) :
    ∃ (color : Vec4 F) (cell : Option (Vec4 F)) (old : Option Nat),
      PerPixel sqrt fresh R (slow x y) x y = some color ∧
      buffers.1[pixelIndex width x y]? = some cell ∧
      buffers.2[pixelIndex width x y]? = some old ∧
      result =
        (buffers.1.set (pixelIndex width x y) (cell.map (fun c => Vec4.add c color)),
         buffers.2.set (pixelIndex width x y)
          (((cell.map (fun c => Vec4.add c color)).map
            (fun c => Vec4.clamp01 (Vec4.divScalar c (R.m_FrameIndex : F)))).map
              Utils.ConvertToRGBA)) := by
  unfold renderPixel at h
  cases hpp : PerPixel sqrt fresh R (slow x y) x y with
  | none => simp [hpp] at h
  | some color =>
    simp only [hpp] at h
    cases h1 : buffers.1[pixelIndex width x y]? with
    | none => simp [h1] at h
    | some cell =>
      cases h2 : buffers.2[pixelIndex width x y]? with
      | none => simp [h1, h2] at h
      | some old =>
        simp only [h1, h2, Option.some.injEq] at h
        exact ⟨color, cell, old, rfl, rfl, rfl, h.symm⟩

/-- Two nested loops are one loop over the pairs, rows first. -/
theorem foldlM_nested {β : Type} (f : Nat → Nat → β → Option β) (ys xs : List Nat) :
    ∀ b : β,
      ys.foldlM (fun b y => xs.foldlM (fun b x => f y x b) b) b
        = (ys ×ˢ xs).foldlM (fun b p => f p.1 p.2 b) b := by
  induction ys with
  | nil => intro b; rfl
  | cons y ys ih =>
    intro b
    rw [List.product_cons, List.foldlM_append, List.foldlM_cons, List.foldlM_map]
    cases xs.foldlM (fun b x => f y x b) b with
    | none => rfl
    | some b' => exact ih b'

/-- What a successful run of the pixel body over a list of pixels with pairwise
different indices did: every listed pixel had its sample added to its cell and
its output cell written, and every other cell is as before. -/
theorem renderPixels_spec (sqrt : F → F) (fresh : HitPayLoad F) (R : Renderer F) (width : Nat)
    (slow : Nat → Nat → Nat → Vec3 F) (ps : List (Nat × Nat)) :
    ∀ (buffers result : List (Option (Vec4 F)) × List (Option Nat)),
      (ps.map (fun p => pixelIndex width p.2 p.1)).Nodup →
      ps.foldlM (fun b p => renderPixel sqrt fresh R width slow p.1 p.2 b) buffers
        = some result →
      result.1.length = buffers.1.length ∧ result.2.length = buffers.2.length ∧
      (∀ p ∈ ps, ∃ (color : Vec4 F) (cell : Option (Vec4 F)),
        PerPixel sqrt fresh R (slow p.2 p.1) p.2 p.1 = some color ∧
        buffers.1[pixelIndex width p.2 p.1]? = some cell ∧
        result.1[pixelIndex width p.2 p.1]? = some (cell.map (fun c => Vec4.add c color)) ∧
        result.2[pixelIndex width p.2 p.1]? =
          some (((cell.map (fun c => Vec4.add c color)).map
            (fun c => Vec4.clamp01 (Vec4.divScalar c (R.m_FrameIndex : F)))).map
              Utils.ConvertToRGBA)) ∧
      (∀ j, (∀ p ∈ ps, pixelIndex width p.2 p.1 ≠ j) →
        result.1[j]? = buffers.1[j]? ∧ result.2[j]? = buffers.2[j]?) := by
  induction ps with
  | nil =>
    intro buffers result _ h
    simp only [List.foldlM_nil, pure, Option.some.injEq] at h
    subst h
    simp
  | cons p ps ih =>
    intro buffers result hnd h
    rw [List.map_cons, List.nodup_cons] at hnd
    obtain ⟨hfresh, hnd'⟩ := hnd
    rw [List.foldlM_cons] at h
    obtain ⟨mid, hmid, hrest⟩ := Option.bind_eq_some.mp h
    obtain ⟨color, cell, old, hpp, hc1, hc2, hmideq⟩ :=
      renderPixel_eq_some sqrt fresh R width slow p.1 p.2 buffers mid hmid
    obtain ⟨hl1, hl2, hin, hout⟩ := ih mid result hnd' hrest
    have hlt1 : pixelIndex width p.2 p.1 < buffers.1.length :=
      (List.getElem?_eq_some.mp hc1).1
    have hlt2 : pixelIndex width p.2 p.1 < buffers.2.length :=
      (List.getElem?_eq_some.mp hc2).1
    have hnotin : ∀ q ∈ ps, pixelIndex width q.2 q.1 ≠ pixelIndex width p.2 p.1 := by
      intro q hq heq
      apply hfresh
      rw [← heq]
      exact List.mem_map.mpr ⟨q, hq, rfl⟩
    refine ⟨?_, ?_, ?_, ?_⟩
    · rw [hl1, hmideq]; simp
    · rw [hl2, hmideq]; simp
    · intro q hq
      rcases List.mem_cons.mp hq with rfl | hq'
      · obtain ⟨e1, e2⟩ := hout _ hnotin
        refine ⟨color, cell, hpp, hc1, ?_, ?_⟩
        · rw [e1, hmideq]
          simp [List.getElem?_set_eq_of_lt, hlt1]
        · rw [e2, hmideq]
          simp [List.getElem?_set_eq_of_lt, hlt2]
      · obtain ⟨color', cell', hpp', hc', hr1, hr2⟩ := hin q hq'
        refine ⟨color', cell', hpp', ?_, hr1, hr2⟩
        rw [hmideq] at hc'
        simpa [List.getElem?_set_ne (hnotin q hq').symm] using hc'
    · intro j hj
      have hjp : pixelIndex width p.2 p.1 ≠ j := hj p (List.mem_cons_self _ _)
      obtain ⟨e1, e2⟩ := hout j (fun q hq => hj q (List.mem_cons_of_mem _ hq))
      rw [e1, e2, hmideq]
      simp [List.getElem?_set_ne hjp]

omit [LinearOrderedField F] [FloorRing F] in
/-- Inside an image of `W` by `H` pixels with `W * H < 2 ^ 32` the pixel index is
`x + y * W`, without wrap-around, and below `W * H`. -/
theorem pixelIndex_eq (W H x y : Nat) (hWH : W * H < 2 ^ 32) (hx : x < W) (hy : y < H) :
    pixelIndex W x y = x + y * W ∧ x + y * W < W * H := by
  have h1 : (y + 1) * W ≤ H * W := Nat.mul_le_mul_right W hy
  have h2 : x + y * W < W * H := by
    have : (y + 1) * W = y * W + W := by ring
    rw [Nat.mul_comm W H]
    omega
  refine ⟨?_, h2⟩
  unfold pixelIndex
  exact Nat.mod_eq_of_lt (lt_trans h2 hWH)

omit [LinearOrderedField F] [FloorRing F] in
/-- Different pixels of the image have different indices. -/
theorem pixelIndex_injective (W H x y x' y' : Nat) (hWH : W * H < 2 ^ 32)
    (hx : x < W) (hy : y < H) (hx' : x' < W) (hy' : y' < H)
    (h : pixelIndex W x y = pixelIndex W x' y') : x = x' ∧ y = y' := by
  rw [(pixelIndex_eq W H x y hWH hx hy).1, (pixelIndex_eq W H x' y' hWH hx' hy').1] at h
  have hm : (x + y * W) % W = (x' + y' * W) % W := by rw [h]
  have hd : (x + y * W) / W = (x' + y' * W) / W := by rw [h]
  have hW : 0 < W := by omega
  rw [Nat.add_mul_mod_self_right, Nat.add_mul_mod_self_right, Nat.mod_eq_of_lt hx,
    Nat.mod_eq_of_lt hx'] at hm
  rw [Nat.add_mul_div_right _ _ hW, Nat.add_mul_div_right _ _ hW, Nat.div_eq_of_lt hx,
    Nat.div_eq_of_lt hx'] at hd
  exact ⟨hm, by omega⟩

omit [LinearOrderedField F] [FloorRing F] in
/-- The pixels `Render` visits have pairwise different indices. -/
theorem pixelIndex_nodup (W H : Nat) (hWH : W * H < 2 ^ 32) :
    ((List.range H ×ˢ List.range W).map (fun p => pixelIndex W p.2 p.1)).Nodup := by
  apply List.Nodup.map_on
  · intro p hp q hq heq
    obtain ⟨hp1, hp2⟩ := List.mem_product.mp hp
    obtain ⟨hq1, hq2⟩ := List.mem_product.mp hq
    rw [List.mem_range] at hp1 hp2 hq1 hq2
    obtain ⟨e1, e2⟩ := pixelIndex_injective W H p.2 p.1 q.2 q.1 hWH hp2 hp1 hq2 hq1 heq
    exact Prod.ext e2 e1
  · exact List.Nodup.product (List.nodup_range H) (List.nodup_range W)

/-- What a successful call of `Render` did, on a renderer set up for `W` by `H`
pixels.  The cell a pixel starts from is zero when the frame index is `1`, and
the stored cell otherwise. -/
theorem Render_spec (sqrt : F → F) (fresh : HitPayLoad F) (R R' : Renderer F) (W H : Nat)
    (scene : Scene F) (camera : Camera F) (slow : Nat → Nat → Nat → Vec3 F)
    (hsized : R.Sized W H) (hrun : Render sqrt fresh R scene camera slow = some R') :
    R'.Sized W H ∧
    R'.m_FrameIndex = (if R.m_Settings.Accumulate then R.m_FrameIndex + 1 else 1) ∧
    R'.m_Settings = R.m_Settings ∧
    ∀ x y, x < W → y < H →
      ∃ (color : Vec4 F) (cell : Option (Vec4 F)),
        PerPixel sqrt fresh (duringRender R scene camera R.m_FrameIndex) (slow x y) x y
          = some color ∧
        (if R.m_FrameIndex = 1 then some (some Vec4.zero)
          else R.m_AccumilationData[x + y * W]?) = some cell ∧
        R'.m_AccumilationData[x + y * W]? = some (cell.map (fun c => Vec4.add c color)) ∧
        R'.m_ImageData[x + y * W]? =
          some (((cell.map (fun c => Vec4.add c color)).map
            (fun c => Vec4.clamp01 (Vec4.divScalar c (R.m_FrameIndex : F)))).map
              Utils.ConvertToRGBA) := by
  obtain ⟨himg, hWH, hxs, hys, hlen2, hlen1⟩ := hsized
  unfold Render at hrun
  simp only [himg] at hrun
  have hmod : (W * H) % 2 ^ 32 = W * H := Nat.mod_eq_of_lt hWH
  -- the accumulation buffer the loop starts from
  obtain ⟨start, hstart, hstartlen, hstartcell⟩ :
      ∃ start : List (Option (Vec4 F)),
        (if R.m_FrameIndex = 1 then memsetZero R.m_AccumilationData ((W * H) % 2 ^ 32)
          else some R.m_AccumilationData) = some start ∧
        start.length = W * H ∧
        ∀ j, j < W * H →
          start[j]? = (if R.m_FrameIndex = 1 then some (some Vec4.zero)
            else R.m_AccumilationData[j]?) := by
    by_cases h1 : R.m_FrameIndex = 1
    · refine ⟨List.replicate (W * H) (some Vec4.zero), ?_, by simp, ?_⟩
      · simp only [h1, if_true, memsetZero, hmod, hlen1, le_refl]
        rw [List.drop_eq_nil_of_le (by omega), List.append_nil]
      · intro j hj
        simp [h1, List.getElem?_replicate, hj]
    · exact ⟨R.m_AccumilationData, by simp [h1], hlen1, fun j _ => by simp [h1]⟩
  rw [hstart] at hrun
  simp only at hrun
  split at hrun
  · exact absurd hrun (by simp)
  · rename_i buffers hloop
    simp only [Option.some.injEq] at hrun
    subst hrun
    unfold renderLoop at hloop
    simp only [hxs, hys] at hloop
    rw [foldlM_nested] at hloop
    obtain ⟨hl1, hl2, hin, _⟩ :=
      renderPixels_spec sqrt fresh _ W slow _ _ _ (pixelIndex_nodup W H hWH) hloop
    refine ⟨⟨rfl, hWH, hxs, hys, ?_, ?_⟩, rfl, rfl, ?_⟩
    · simp only [hl2, hlen2]
    · simp only [hl1, hstartlen]
    · intro x y hx hy
      obtain ⟨hidx, hlt⟩ := pixelIndex_eq W H x y hWH hx hy
      have hmem : (y, x) ∈ List.range H ×ˢ List.range W :=
        List.mem_product.mpr ⟨List.mem_range.mpr hy, List.mem_range.mpr hx⟩
      obtain ⟨color, cell, hpp, hc, hr1, hr2⟩ := hin (y, x) hmem
      simp only [hidx] at hc hr1 hr2
      refine ⟨color, cell, ?_, ?_, hr1, hr2⟩
      · rw [← hpp]
        exact PerPixel_congr sqrt fresh _ _ _ x y rfl rfl himg rfl rfl
      · rw [← hstartcell _ hlt]
        exact hc

omit [FloorRing F] in
theorem Vec4.zero_add (c : Vec4 F) : Vec4.add Vec4.zero c = c := by
  cases c
  simp [Vec4.add, Vec4.zero]

omit [FloorRing F] in
theorem sumSamples_zero (s : Nat → Vec4 F) : sumSamples s 0 = Vec4.zero := rfl

omit [FloorRing F] in
theorem sumSamples_succ (s : Nat → Vec4 F) (n : Nat) :
    sumSamples s (n + 1) = Vec4.add (sumSamples s n) (s (n + 1)) := rfl

omit [FloorRing F] in
/-- The sum of the first `n` samples only depends on those samples. -/
theorem sumSamples_congr (s s' : Nat → Vec4 F) :
    ∀ n, (∀ k, 1 ≤ k → k ≤ n → s k = s' k) → sumSamples s n = sumSamples s' n := by
  intro n
  induction n with
  | zero => intro _; rfl
  | succ n ih =>
    intro h
    simp only [sumSamples]
    rw [ih (fun k h1 h2 => h k h1 (by omega)), h (n + 1) (by omega) (le_refl _)]

/-- The frame index after a successful call of `Render`. -/
theorem Render_frameIndex (sqrt : F → F) (fresh : HitPayLoad F) (R R' : Renderer F)
    (scene : Scene F) (camera : Camera F) (slow : Nat → Nat → Nat → Vec3 F)
    (hrun : Render sqrt fresh R scene camera slow = some R') :
    R'.m_FrameIndex = (if R.m_Settings.Accumulate then R.m_FrameIndex + 1 else 1) := by
  unfold Render at hrun
  split at hrun
  · exact absurd hrun (by simp)
  · simp only at hrun
    split at hrun
    · exact absurd hrun (by simp)
    · split at hrun
      · exact absurd hrun (by simp)
      · simp only [Option.some.injEq] at hrun
        subst hrun
        rfl

/-- The state after `n` successful calls of `Render` with accumulation enabled,
started at frame index `1`. -/
theorem renderFrames_spec (sqrt : F → F) (fresh : HitPayLoad F) (R0 : Renderer F) (W H : Nat)
    (scene : Scene F) (camera : Camera F) (slow : Nat → Nat → Nat → Nat → Vec3 F)
    (hsized : R0.Sized W H) (hframe : R0.m_FrameIndex = 1)
    (hacc : R0.m_Settings.Accumulate = true) :
    ∀ (n : Nat) (Rn : Renderer F), renderFrames sqrt fresh scene camera slow n R0 = some Rn →
      Rn.Sized W H ∧ Rn.m_FrameIndex = n + 1 ∧ Rn.m_Settings = R0.m_Settings ∧
      (1 ≤ n → ∀ x y, x < W → y < H →
        ∃ sample : Nat → Vec4 F,
          (∀ k, 1 ≤ k → k ≤ n →
            PerPixel sqrt fresh (duringRender R0 scene camera k) (slow k x y) x y
              = some (sample k)) ∧
          Rn.m_AccumilationData[x + y * W]? = some (some (sumSamples sample n)) ∧
          Rn.m_ImageData[x + y * W]? =
            some (some (Utils.ConvertToRGBA
              (Vec4.clamp01 (Vec4.divScalar (sumSamples sample n) (n : F)))))) := by
  intro n
  induction n with
  | zero =>
    intro Rn h
    simp only [renderFrames, Option.some.injEq] at h
    subst h
    exact ⟨hsized, by simp [hframe], rfl, fun h => absurd h (by omega)⟩
  | succ n ih =>
    intro Rn h
    simp only [renderFrames] at h
    cases hprev : renderFrames sqrt fresh scene camera slow n R0 with
    | none => simp [hprev] at h
    | some Rp =>
      simp only [hprev] at h
      obtain ⟨hsz, hfi, hset, hcells⟩ := ih Rp hprev
      obtain ⟨hsz', hfi', hset', hpix⟩ :=
        Render_spec sqrt fresh Rp Rn W H scene camera (slow (n + 1)) hsz h
      have hacc' : Rp.m_Settings.Accumulate = true := by rw [hset]; exact hacc
      refine ⟨hsz', ?_, hset'.trans hset, ?_⟩
      · rw [hfi', hacc', hfi]; simp
      · intro _ x y hx hy
        obtain ⟨color, cell, hpp, hcell, hr1, hr2⟩ := hpix x y hx hy
        have hpp' : PerPixel sqrt fresh (duringRender R0 scene camera (n + 1))
            (slow (n + 1) x y) x y = some color := by
          rw [← hpp, hfi]
          exact PerPixel_congr sqrt fresh _ _ _ x y rfl rfl (hsized.1.trans hsz.1.symm) rfl
            hset.symm
        rw [hfi] at hr2 hcell
        by_cases hn : n = 0
        · subst hn
          simp only [zero_add, if_true, Option.some.injEq] at hcell
          subst hcell
          refine ⟨fun _ => color, ?_, ?_, ?_⟩
          · intro k hk1 hk2
            have : k = 0 + 1 := by omega
            subst this
            exact hpp'
          · rw [sumSamples_succ, sumSamples_zero]
            simpa using hr1
          · rw [sumSamples_succ, sumSamples_zero]
            simpa using hr2
        · obtain ⟨sample, hs, ha, _⟩ := hcells (by omega) x y hx hy
          have hne : ¬ (n + 1 = 1) := by omega
          simp only [hne, if_false] at hcell
          rw [ha] at hcell
          simp only [Option.some.injEq] at hcell
          subst hcell
          have hsum : sumSamples (fun k => if k = n + 1 then color else sample k) (n + 1)
              = Vec4.add (sumSamples sample n) color := by
            simp only [sumSamples_succ, if_true]
            rw [sumSamples_congr (fun k => if k = n + 1 then color else sample k) sample n
              (fun k _ hk => by simp [show k ≠ n + 1 by omega])]
          refine ⟨fun k => if k = n + 1 then color else sample k, ?_, ?_, ?_⟩
          · intro k hk1 hk2
            by_cases hk : k = n + 1
            · subst hk; simpa using hpp'
            · simp only [hk, if_false]
              exact hs k hk1 (by omega)
          · rw [hsum]; simpa using hr1
          · rw [hsum]; simpa using hr2

/-- Claim C3.  Start at frame index `1` with accumulation enabled, on a renderer
set up for `W` by `H` pixels, and let `N ≥ 1` consecutive calls of `Render` on
the same scene and camera complete.  Then the frame index is `N + 1`, and for
every pixel there are the `N` radiances `PerPixel` returned for it at the frame
indices `1..N`, its accumulation cell is their sum, and its output cell is the
conversion of the colour whose every channel is the channel of that sum divided
by `N`, raised to `0` where it is below `0` and lowered to `1` where it is
above `1`. -/
theorem Render_accumulates {F : Type} [LinearOrderedField F] [FloorRing F]
    (sqrt : F → F) (fresh : HitPayLoad F) (R0 RN : Renderer F) (W H N : Nat)
    (scene : Scene F) (camera : Camera F) (slow : Nat → Nat → Nat → Nat → Vec3 F)
    (hN : 1 ≤ N) (hsized : R0.Sized W H) (hframe : R0.m_FrameIndex = 1)
    (hacc : R0.m_Settings.Accumulate = true)
    (hrun : renderFrames sqrt fresh scene camera slow N R0 = some RN) :
    RN.m_FrameIndex = N + 1 ∧
    ∀ x y, x < W → y < H →
      ∃ sample : Nat → Vec4 F,
        (∀ k, 1 ≤ k → k ≤ N →
          PerPixel sqrt fresh (duringRender R0 scene camera k) (slow k x y) x y
            = some (sample k)) ∧
        RN.m_AccumilationData[x + y * W]? = some (some (sumSamples sample N)) ∧
        RN.m_ImageData[x + y * W]? =
          some (some (Utils.ConvertToRGBA
            ⟨min (max ((sumSamples sample N).r / (N : F)) 0) 1,
              min (max ((sumSamples sample N).g / (N : F)) 0) 1,
              min (max ((sumSamples sample N).b / (N : F)) 0) 1,
              min (max ((sumSamples sample N).a / (N : F)) 0) 1⟩)) := by
  obtain ⟨_, hfi, _, hcells⟩ :=
    renderFrames_spec sqrt fresh R0 W H scene camera slow hsized hframe hacc N RN hrun
  exact ⟨hfi, hcells hN⟩

/-- Claim C4.  A call of `Render` with accumulation disabled leaves the frame
index at `1`; and a call that starts with frame index `1`, on a renderer set up
for `W` by `H` pixels, leaves in every accumulation cell exactly the radiance
`PerPixel` returned for that pixel in this call, whatever the cell held. -/
theorem Render_restart {F : Type} [LinearOrderedField F] [FloorRing F]
    (sqrt : F → F) (fresh : HitPayLoad F) (R R' : Renderer F)
    (scene : Scene F) (camera : Camera F) (slow : Nat → Nat → Nat → Vec3 F)
    (hrun : Render sqrt fresh R scene camera slow = some R') :
    (R.m_Settings.Accumulate = false → R'.m_FrameIndex = 1) ∧
    (R.m_FrameIndex = 1 → ∀ W H, R.Sized W H → ∀ x y, x < W → y < H →
      ∃ color : Vec4 F,
        PerPixel sqrt fresh (duringRender R scene camera 1) (slow x y) x y = some color ∧
        R'.m_AccumilationData[x + y * W]? = some (some color)) := by
  refine ⟨fun hoff => ?_, fun h1 W H hsized x y hx hy => ?_⟩
  · rw [Render_frameIndex sqrt fresh R R' scene camera slow hrun, hoff]
    simp
  · obtain ⟨_, _, _, hpix⟩ := Render_spec sqrt fresh R R' W H scene camera slow hsized hrun
    obtain ⟨color, cell, hpp, hcell, hr1, _⟩ := hpix x y hx hy
    rw [h1] at hpp
    simp only [h1, if_true, Option.some.injEq] at hcell
    subst hcell
    refine ⟨color, hpp, ?_⟩
    rw [hr1]
    simp [Vec4.zero_add]

end FrameProofs

/-! ## Frames on concrete renderers -/

section FrameExamples

/-- On `glowScene` the camera ray hits the sphere, the next ray leaves it, and
the radiance is the emission `(1,1,1)`, at every frame index. -/
theorem PerPixel_glow (R : Renderer ℝ) (hcam : R.m_ActiveCam = some camera1)
    (hscene : R.m_ActiveScene = some glowScene) (himg : R.m_FinalImage = some ⟨1, 1⟩)
    (hslow : R.m_Settings.SlowRandom = true) :
    PerPixel Real.sqrt zeroPayload R (awayTape 0 0) 0 0 = some ⟨1, 1, 1, 1⟩ := by
  unfold PerPixel
  rw [hcam, hscene, himg, hslow]
  norm_num [glowScene, camera1, awayTape, bounceLoop, pixelIndex,
    TraceRay, scanSpheres, scanFrom, scanStep, closestT, discriminent, quadA, quadB,
    quadC, localOrigin, Vec3.dot, Vec3.sub, Vec3.add, Vec3.mul, Vec3.scale, Vec3.normalize,
    ClosestHit, indexInt, FLT_MAX, zeroPayload, sqrt_four, Miss, Material.GetEmission,
    Vec3.zero, Vec3.one]

theorem Render_glow_first :
    Render Real.sqrt zeroPayload renderer1x1 glowScene camera1 awayTape
      = some renderer1x1Frame1 := by
  have h := PerPixel_glow
    { renderer1x1 with
      m_ActiveCam := some camera1
      m_ActiveScene := some glowScene
      m_AccumilationData := [some ⟨0, 0, 0, 0⟩] } rfl rfl rfl rfl
  simp only [renderer1x1] at h
  simp only [Render, renderer1x1, renderer1x1Frame1, renderLoop, renderPixel, memsetZero,
    List.foldlM_cons, List.foldlM_nil]
  norm_num [h, pixelIndex, Vec4.add, Vec4.zero, Vec4.divScalar, Vec4.clamp01,
    Utils.ConvertToRGBA, Utils.toUInt8]
  decide

theorem Render_glow_single :
    Render Real.sqrt zeroPayload renderer1x1Single glowScene camera1 awayTape
      = some renderer1x1SingleAfter := by
  have h := PerPixel_glow
    { renderer1x1Single with
      m_ActiveCam := some camera1
      m_ActiveScene := some glowScene
      m_AccumilationData := [some ⟨0, 0, 0, 0⟩] } rfl rfl rfl rfl
  simp only [renderer1x1Single, renderer1x1] at h
  simp only [Render, renderer1x1Single, renderer1x1, renderer1x1SingleAfter, renderer1x1Frame1,
    renderLoop, renderPixel, memsetZero, List.foldlM_cons, List.foldlM_nil]
  norm_num [h, pixelIndex, Vec4.add, Vec4.zero, Vec4.divScalar, Vec4.clamp01,
    Utils.ConvertToRGBA, Utils.toUInt8]
  decide

theorem renderer1x1_sized : renderer1x1.Sized 1 1 := by
  simp [Renderer.Sized, renderer1x1, List.range_succ]

theorem renderer1x1Single_sized : renderer1x1Single.Sized 1 1 := by
  simp [Renderer.Sized, renderer1x1Single, renderer1x1, List.range_succ]

/-- Claim C4 on the one-pixel renderer with accumulation disabled and a stale
cell `(5,5,5,5)`: after the call the frame index is `1` and the cell is the
radiance `(1,1,1,1)` of this call. -/
theorem Render_restart_witness :
    Render Real.sqrt zeroPayload renderer1x1Single glowScene camera1 awayTape
      = some renderer1x1SingleAfter ∧
    (renderer1x1Single.m_Settings.Accumulate = false → renderer1x1SingleAfter.m_FrameIndex = 1) ∧
    (renderer1x1Single.m_FrameIndex = 1 → ∀ W H, renderer1x1Single.Sized W H →
      ∀ x y, x < W → y < H →
      ∃ color : Vec4 ℝ,
        PerPixel Real.sqrt zeroPayload (duringRender renderer1x1Single glowScene camera1 1)
          (awayTape x y) x y = some color ∧
        renderer1x1SingleAfter.m_AccumilationData[x + y * W]? = some (some color)) :=
  ⟨Render_glow_single,
    Render_restart Real.sqrt zeroPayload renderer1x1Single _ glowScene camera1 awayTape
      Render_glow_single⟩

/-- Claim C5 fails on the code: a resize from 2 by 2 to 1 by 1 pixels at frame
index `3` leaves the frame index at `3` and the new accumulation cell unwritten;
the next frame skips the clearing, adds its sample to the unwritten cell and
divides by `3`, so neither the cell nor the output pixel holds a defined value,
and the frame index goes on to `4`. -/
theorem onResize_stale_frame_index :
    renderer2x2.m_FrameIndex = 3 ∧
    (onResize renderer2x2 1 1).m_FrameIndex = 3 ∧
    (onResize renderer2x2 1 1).m_AccumilationData = [none] ∧
    (Render Real.sqrt zeroPayload (onResize renderer2x2 1 1) emptyScene camera1 awayTape).map
        (fun R => (R.m_AccumilationData, R.m_ImageData, R.m_FrameIndex))
      = some ([none], [none], 4) := by
  have hne : renderer2x2.m_FinalImage ≠ some ⟨1, 1⟩ := by simp [renderer2x2]
  rw [onResize_realloc renderer2x2 1 1 hne]
  refine ⟨rfl, rfl, by simp, ?_⟩
  simp [Render, renderLoop, renderPixel, PerPixel, bounceLoop, TraceRay, scanSpheres, scanFrom,
    Miss, pixelIndex, renderer2x2, emptyScene, camera1, zeroPayload, List.range_succ]

end FrameExamples

/-! ## Properties of the path integrator -/

section PathProofs

variable {F : Type} [LinearOrderedField F]

/-- The bounce loop, one iteration at a time. -/
theorem bounceLoop_succ (sqrt : F → F) (fresh : HitPayLoad F) (scene : Scene F)
    (slowRandom : Bool) (slow : Nat → Vec3 F) (n i : Nat) (st : PathState F) :
    bounceLoop sqrt fresh scene slowRandom slow (n + 1) i st =
      match bounceStep sqrt fresh scene slowRandom slow i st with
      | none => none
      | some none => some st.light
      | some (some (_, next)) => bounceLoop sqrt fresh scene slowRandom slow n (i + 1) next := by
  rw [bounceLoop]
  unfold bounceStep
  cases TraceRay sqrt fresh scene.Spheres st.ray with
  | none => rfl
  | some payload =>
    simp only
    by_cases hmiss : payload.HitDistance < 0
    · simp only [hmiss, if_true]
    · simp only [hmiss, if_false]
      cases indexInt scene.Spheres payload.ObjectIndex with
      | none => rfl
      | some sphere =>
        simp only
        cases indexInt scene.Materials sphere.materialIndex with
        | none => rfl
        | some material => rfl

/-- After a hit the light is the light before plus the emission of the material
that was hit. -/
theorem bounceStep_light (sqrt : F → F) (fresh : HitPayLoad F) (scene : Scene F)
    (slowRandom : Bool) (slow : Nat → Vec3 F) (i : Nat) (st next : PathState F)
    (material : Material F)
    (h : bounceStep sqrt fresh scene slowRandom slow i st = some (some (material, next))) :
    next.light = Vec3.add st.light material.GetEmission := by
  unfold bounceStep at h
  cases hT : TraceRay sqrt fresh scene.Spheres st.ray with
  | none => simp [hT] at h
  | some payload =>
    simp only [hT] at h
    by_cases hmiss : payload.HitDistance < 0
    · simp [hmiss] at h
    · simp only [hmiss, if_false] at h
      cases hS : indexInt scene.Spheres payload.ObjectIndex with
      | none => simp [hS] at h
      | some sphere =>
        simp only [hS] at h
        cases hM : indexInt scene.Materials sphere.materialIndex with
        | none => simp [hM] at h
        | some m =>
          simp only [hM, Option.some.injEq, Prod.mk.injEq] at h
          obtain ⟨hm, hnext⟩ := h
          subst hm
          rw [← hnext]

/-- The light the bounce loop returns is the light it starts from plus the
emissions of the materials hit along the path. -/
theorem bounceLoop_eq_events (sqrt : F → F) (fresh : HitPayLoad F) (scene : Scene F)
    (slowRandom : Bool) (slow : Nat → Vec3 F) :
    ∀ (n i : Nat) (st : PathState F),
      bounceLoop sqrt fresh scene slowRandom slow n i st
        = (pathEvents sqrt fresh scene slowRandom slow n i st).map (addEmissions st.light) := by
  intro n
  induction n with
  | zero => intro i st; simp [bounceLoop, pathEvents, addEmissions]
  | succ n ih =>
    intro i st
    rw [bounceLoop_succ, pathEvents]
    cases hstep : bounceStep sqrt fresh scene slowRandom slow i st with
    | none => rfl
    | some outcome =>
      cases outcome with
      | none => simp [addEmissions]
      | some hit =>
        obtain ⟨material, next⟩ := hit
        simp only [ih, Option.map_map]
        rw [bounceStep_light sqrt fresh scene slowRandom slow i st next material hstep]
        rfl

/-- The bounce loop with `n` iterations traces at most `n` rays, and a miss can
only be the last of them. -/
theorem pathEvents_shape (sqrt : F → F) (fresh : HitPayLoad F) (scene : Scene F)
    (slowRandom : Bool) (slow : Nat → Vec3 F) :
    ∀ (n i : Nat) (st : PathState F) (events : List (Option (Material F))),
      pathEvents sqrt fresh scene slowRandom slow n i st = some events →
      events.length ≤ n ∧ ∀ j, events[j]? = some none → j + 1 = events.length := by
  intro n
  induction n with
  | zero =>
    intro i st events h
    simp only [pathEvents, Option.some.injEq] at h
    subst h
    simp
  | succ n ih =>
    intro i st events h
    rw [pathEvents] at h
    cases hstep : bounceStep sqrt fresh scene slowRandom slow i st with
    | none => simp [hstep] at h
    | some outcome =>
      cases outcome with
      | none =>
        simp only [hstep, Option.some.injEq] at h
        subst h
        refine ⟨by simp, ?_⟩
        intro j hj
        cases j with
        | zero => rfl
        | succ j => simp at hj
      | some hit =>
        obtain ⟨material, next⟩ := hit
        simp only [hstep, Option.map_eq_some'] at h
        obtain ⟨rest, hrest, rfl⟩ := h
        obtain ⟨hlen, hlast⟩ := ih (i + 1) next rest hrest
        refine ⟨by simp; omega, ?_⟩
        intro j hj
        cases j with
        | zero => simp at hj
        | succ j =>
          simp only [List.getElem?_cons_succ] at hj
          have := hlast j hj
          simp only [List.length_cons]
          omega

/-- An element access with a non-negative index below the length succeeds. -/
theorem indexInt_isSome {α : Type} (v : List α) (i : Int) (h0 : 0 ≤ i)
    (hlt : i.toNat < v.length) : ∃ a, indexInt v i = some a := by
  refine ⟨v[i.toNat], ?_⟩
  simp [indexInt, h0, List.getElem?_eq_getElem hlt]

/-- A payload that passes the test `HitDistance < 0` of `PerPixel` carries the
index of a sphere of the scene. -/
theorem TraceRay_hit_index (sqrt : F → F) (fresh : HitPayLoad F) (spheres : List (Sphere F))
    (ray : Ray F) (p : HitPayLoad F) (hp : TraceRay sqrt fresh spheres ray = some p)
    (hhit : ¬ p.HitDistance < 0) :
    0 ≤ p.ObjectIndex ∧ p.ObjectIndex < (spheres.length : Int) ∧
    ∃ sphere, sphere ∈ spheres ∧ indexInt spheres p.ObjectIndex = some sphere := by
  rcases TraceRay_cases sqrt fresh spheres ray with ⟨hmiss, _⟩ | ⟨k, s, hk, hres, _⟩
  · rw [hmiss] at hp
    cases hp
    exact absurd (by simp [Miss]) hhit
  · rw [hres] at hp
    cases hp
    have hlt : k < spheres.length := (List.getElem?_eq_some.mp hk).1
    refine ⟨by simp [hitPayload], by simp [hitPayload, hlt], s, List.getElem?_mem hk, ?_⟩
    simp [hitPayload, indexInt, hk]

/-- With valid material indices an iteration of the bounce loop makes no access
outside an array. -/
theorem bounceStep_isSome (sqrt : F → F) (fresh : HitPayLoad F) (scene : Scene F)
    (hvalid : scene.ValidMaterials) (slowRandom : Bool) (slow : Nat → Vec3 F) (i : Nat)
    (st : PathState F) :
    ∃ outcome, bounceStep sqrt fresh scene slowRandom slow i st = some outcome := by
  unfold bounceStep
  obtain ⟨p, hp⟩ := TraceRay_isSome sqrt fresh scene.Spheres st.ray
  simp only [hp]
  by_cases hmiss : p.HitDistance < 0
  · exact ⟨none, by simp [hmiss]⟩
  · obtain ⟨_, _, sphere, hmem, hs⟩ := TraceRay_hit_index sqrt fresh scene.Spheres st.ray p hp hmiss
    obtain ⟨material, hm⟩ :=
      indexInt_isSome scene.Materials sphere.materialIndex (hvalid sphere hmem).1
        (hvalid sphere hmem).2
    simp only [hmiss, if_false, hs, hm]
    exact ⟨_, rfl⟩

/-- With valid material indices the bounce loop returns a light. -/
theorem bounceLoop_isSome (sqrt : F → F) (fresh : HitPayLoad F) (scene : Scene F)
    (hvalid : scene.ValidMaterials) (slowRandom : Bool) (slow : Nat → Vec3 F) :
    ∀ (n i : Nat) (st : PathState F),
      ∃ light, bounceLoop sqrt fresh scene slowRandom slow n i st = some light := by
  intro n
  induction n with
  | zero => intro i st; exact ⟨st.light, by simp [bounceLoop]⟩
  | succ n ih =>
    intro i st
    rw [bounceLoop_succ]
    obtain ⟨outcome, ho⟩ := bounceStep_isSome sqrt fresh scene hvalid slowRandom slow i st
    rw [ho]
    cases outcome with
    | none => exact ⟨st.light, rfl⟩
    | some hit => exact ih (i + 1) hit.2

/-- Claim C11.  In a scene whose spheres all refer to a material of the scene:
a payload that passes the test `HitDistance < 0` has an object index `i` with
`0 ≤ i < Spheres.size()`, so `Spheres[i]` and the material of that sphere are
defined; the bounce loop never leaves its arrays, whatever the ray, the random
source and the number of iterations; and `PerPixel` returns a radiance for every
pixel for which the camera supplies a ray direction. -/
theorem PerPixel_in_range (sqrt : F → F) (fresh : HitPayLoad F) (scene : Scene F)
    (hvalid : scene.ValidMaterials) :
    (∀ (ray : Ray F) (p : HitPayLoad F), TraceRay sqrt fresh scene.Spheres ray = some p →
      ¬ p.HitDistance < 0 →
      0 ≤ p.ObjectIndex ∧ p.ObjectIndex < (scene.Spheres.length : Int) ∧
      ∃ sphere material, indexInt scene.Spheres p.ObjectIndex = some sphere ∧
        indexInt scene.Materials sphere.materialIndex = some material) ∧
    (∀ (slowRandom : Bool) (slow : Nat → Vec3 F) (n i : Nat) (st : PathState F),
      ∃ light, bounceLoop sqrt fresh scene slowRandom slow n i st = some light) ∧
    (∀ (R : Renderer F) (slow : Nat → Vec3 F) (x y : Nat) (camera : Camera F) (image : Image)
      (direction : Vec3 F), R.m_ActiveScene = some scene → R.m_ActiveCam = some camera →
      R.m_FinalImage = some image →
      camera.RayDirections[pixelIndex image.Width x y]? = some direction →
      ∃ c, PerPixel sqrt fresh R slow x y = some c) := by
  refine ⟨?_, ?_, ?_⟩
  · intro ray p hp hhit
    obtain ⟨h0, hlt, sphere, hmem, hs⟩ := TraceRay_hit_index sqrt fresh scene.Spheres ray p hp hhit
    obtain ⟨material, hm⟩ :=
      indexInt_isSome scene.Materials sphere.materialIndex (hvalid sphere hmem).1
        (hvalid sphere hmem).2
    exact ⟨h0, hlt, sphere, material, hs, hm⟩
  · intro slowRandom slow n i st
    exact bounceLoop_isSome sqrt fresh scene hvalid slowRandom slow n i st
  · intro R slow x y camera image direction hscene hcam himg hdir
    unfold PerPixel
    simp only [hscene, hcam, himg, hdir]
    obtain ⟨light, hl⟩ := bounceLoop_isSome sqrt fresh scene hvalid R.m_Settings.SlowRandom slow
      5 0 ⟨⟨camera.Position, direction⟩, Vec3.zero, Vec3.one,
        (pixelIndex image.Width x y * R.m_FrameIndex) % 2 ^ 32⟩
    rw [hl]
    exact ⟨_, rfl⟩

/-- Claim C14.  Whenever `PerPixel` returns a radiance, it traced at most 5 rays,
a miss is the last ray traced, the RGB part of the radiance is the sum of the
emissions of the materials of the spheres hit, and alpha is `1`; when the camera
ray itself misses, the radiance is `(0, 0, 0, 1)`. -/
theorem PerPixel_path (sqrt : F → F) (fresh : HitPayLoad F) (R : Renderer F)
    (slow : Nat → Vec3 F) (x y : Nat) (c : Vec4 F)
    (hpp : PerPixel sqrt fresh R slow x y = some c) :
    ∃ events, pixelEvents sqrt fresh R slow x y = some events ∧
      events.length ≤ 5 ∧
      (∀ j, events[j]? = some none → j + 1 = events.length) ∧
      c = ⟨(addEmissions Vec3.zero events).x, (addEmissions Vec3.zero events).y,
            (addEmissions Vec3.zero events).z, 1⟩ ∧
      (events.head? = some none → c = ⟨0, 0, 0, 1⟩) := by
  unfold PerPixel at hpp
  unfold pixelEvents
  cases hcam : R.m_ActiveCam with
  | none => simp [hcam] at hpp
  | some camera =>
    cases hscene : R.m_ActiveScene with
    | none => simp [hcam, hscene] at hpp
    | some scene =>
      cases himg : R.m_FinalImage with
      | none => simp [hcam, hscene, himg] at hpp
      | some image =>
        simp only [hcam, hscene, himg] at hpp ⊢
        cases hdir : camera.RayDirections[pixelIndex image.Width x y]? with
        | none => simp [hdir] at hpp
        | some direction =>
          simp only [hdir] at hpp ⊢
          rw [bounceLoop_eq_events] at hpp
          cases hev : pathEvents sqrt fresh scene R.m_Settings.SlowRandom slow 5 0
              ⟨⟨camera.Position, direction⟩, Vec3.zero, Vec3.one,
                (pixelIndex image.Width x y * R.m_FrameIndex) % 2 ^ 32⟩ with
          | none =>
            rw [hev] at hpp
            simp at hpp
          | some events =>
            rw [hev] at hpp
            simp only [Option.map_some', Option.some.injEq] at hpp
            obtain ⟨hlen, hlast⟩ := pathEvents_shape sqrt fresh scene R.m_Settings.SlowRandom
              slow 5 0 _ events hev
            refine ⟨events, rfl, hlen, hlast, hpp.symm, ?_⟩
            intro hhead
            cases events with
            | nil => simp at hhead
            | cons e rest =>
              simp only [List.head?_cons, Option.some.injEq] at hhead
              subst hhead
              have hone := hlast 0 (by simp)
              have hrest : rest = [] := by
                cases rest with
                | nil => rfl
                | cons _ _ => simp at hone
              subst hrest
              rw [← hpp]
              simp [addEmissions, Vec3.zero]

theorem indexInt_map {α β : Type} (f : α → β) (v : List α) (i : Int) :
    indexInt (v.map f) i = (indexInt v i).map f := by
  unfold indexInt
  split_ifs
  · exact List.getElem?_map f v i.toNat
  · rfl

/-- In two scenes that differ in albedo values only, the material lookups agree
on the emission. -/
theorem SameButAlbedo_lookup (scene scene' : Scene F) (hsame : scene.SameButAlbedo scene')
    (i : Int) :
    (indexInt scene.Materials i = none ∧ indexInt scene'.Materials i = none) ∨
    ∃ m m', indexInt scene.Materials i = some m ∧ indexInt scene'.Materials i = some m' ∧
      m.GetEmission = m'.GetEmission := by
  have h := congrArg (fun l => indexInt l i) hsame.2
  simp only [indexInt_map] at h
  cases h1 : indexInt scene.Materials i with
  | none =>
    left
    rw [h1] at h
    cases h2 : indexInt scene'.Materials i with
    | none => exact ⟨rfl, rfl⟩
    | some m' => rw [h2] at h; simp at h
  | some m =>
    right
    rw [h1] at h
    cases h2 : indexInt scene'.Materials i with
    | none => rw [h2] at h; simp at h
    | some m' =>
      rw [h2] at h
      simp only [Option.map_some', Option.some.injEq, Prod.mk.injEq] at h
      exact ⟨m, m', rfl, rfl, by simp [Material.GetEmission, h.1, h.2]⟩

/-- In two scenes that differ in albedo values only, the bounce loop returns the
same light from locals that agree on the ray, the light and the seed. -/
theorem bounceLoop_albedo (sqrt : F → F) (fresh : HitPayLoad F) (scene scene' : Scene F)
    (hsame : scene.SameButAlbedo scene') (slowRandom : Bool) (slow : Nat → Vec3 F) :
    ∀ (n i : Nat) (st st' : PathState F), st.ray = st'.ray → st.light = st'.light →
      st.seed = st'.seed →
      bounceLoop sqrt fresh scene slowRandom slow n i st
        = bounceLoop sqrt fresh scene' slowRandom slow n i st' := by
  intro n
  induction n with
  | zero => intro i st st' _ hl _; simp [bounceLoop, hl]
  | succ n ih =>
    intro i st st' hr hl hs
    rw [bounceLoop, bounceLoop, ← hsame.1, ← hr, ← hl, ← hs]
    cases TraceRay sqrt fresh scene.Spheres st.ray with
    | none => rfl
    | some payload =>
      simp only
      by_cases hmiss : payload.HitDistance < 0
      · simp only [hmiss, if_true]
      · simp only [hmiss, if_false]
        cases indexInt scene.Spheres payload.ObjectIndex with
        | none => rfl
        | some sphere =>
          simp only
          rcases SameButAlbedo_lookup scene scene' hsame sphere.materialIndex with
            ⟨h1, h2⟩ | ⟨m, m', h1, h2, he⟩
          · rw [h1, h2]
          · rw [h1, h2]
            simp only
            rw [he]
            exact ih _ _ _ rfl rfl rfl

/-- Claim C13.  The radiance `PerPixel` returns does not depend on the albedo of
any material: for two scenes that differ in albedo values only, and the same
camera, image, frame index, settings, random source and pixel, the results are
equal. -/
theorem PerPixel_albedo_independent (sqrt : F → F) (fresh : HitPayLoad F)
    (scene scene' : Scene F) (hsame : scene.SameButAlbedo scene') (R : Renderer F)
    (slow : Nat → Vec3 F) (x y : Nat) :
    PerPixel sqrt fresh { R with m_ActiveScene := some scene } slow x y
      = PerPixel sqrt fresh { R with m_ActiveScene := some scene' } slow x y := by
  unfold PerPixel
  cases R.m_ActiveCam with
  | none => rfl
  | some camera =>
    cases R.m_FinalImage with
    | none => rfl
    | some image =>
      simp only
      cases camera.RayDirections[pixelIndex image.Width x y]? with
      | none => rfl
      | some direction =>
        simp only
        rw [bounceLoop_albedo sqrt fresh scene scene' hsame R.m_Settings.SlowRandom slow 5 0 _ _
          rfl rfl rfl]

/-- With the internal random source selected the bounce loop does not read the
values of the external one. -/
theorem bounceLoop_fast (sqrt : F → F) (fresh : HitPayLoad F) (scene : Scene F)
    (slow slow' : Nat → Vec3 F) :
    ∀ (n i : Nat) (st : PathState F),
      bounceLoop sqrt fresh scene false slow n i st
        = bounceLoop sqrt fresh scene false slow' n i st := by
  intro n
  induction n with
  | zero => intro i st; simp [bounceLoop]
  | succ n ih =>
    intro i st
    rw [bounceLoop, bounceLoop]
    cases TraceRay sqrt fresh scene.Spheres st.ray with
    | none => rfl
    | some payload =>
      simp only
      by_cases hmiss : payload.HitDistance < 0
      · simp only [hmiss, if_true]
      · simp only [hmiss, if_false]
        cases indexInt scene.Spheres payload.ObjectIndex with
        | none => rfl
        | some sphere =>
          simp only
          cases indexInt scene.Materials sphere.materialIndex with
          | none => rfl
          | some material =>
            simp only [Bool.false_eq_true, if_false]
            exact ih _ _

/-- With the internal random source selected `PerPixel` does not depend on the
values of the external one. -/
theorem PerPixel_fast (sqrt : F → F) (fresh : HitPayLoad F) (R : Renderer F)
    (hfast : R.m_Settings.SlowRandom = false) (slow slow' : Nat → Vec3 F) (x y : Nat) :
    PerPixel sqrt fresh R slow x y = PerPixel sqrt fresh R slow' x y := by
  unfold PerPixel
  rw [hfast]
  cases R.m_ActiveCam with
  | none => rfl
  | some camera =>
    cases R.m_ActiveScene with
    | none => rfl
    | some scene =>
      cases R.m_FinalImage with
      | none => rfl
      | some image =>
        simp only
        cases camera.RayDirections[pixelIndex image.Width x y]? with
        | none => rfl
        | some direction =>
          simp only
          rw [bounceLoop_fast sqrt fresh scene slow slow']

/-- At the pixel `(0, 0)` the seed `PerPixel` starts from is `0` at every frame
index, so with the internal random source the result is the same at every frame
index. -/
theorem PerPixel_origin_frame (sqrt : F → F) (fresh : HitPayLoad F) (R : Renderer F)
    (scene : Scene F) (camera : Camera F) (hfast : R.m_Settings.SlowRandom = false)
    (slow slow' : Nat → Vec3 F) (k k' : Nat) :
    PerPixel sqrt fresh (duringRender R scene camera k) slow 0 0
      = PerPixel sqrt fresh (duringRender R scene camera k') slow' 0 0 := by
  rw [PerPixel_fast sqrt fresh (duringRender R scene camera k) hfast slow slow']
  unfold PerPixel duringRender
  cases R.m_FinalImage with
  | none => rfl
  | some image =>
    have hidx : pixelIndex image.Width 0 0 = 0 := by simp [pixelIndex]
    simp only [hidx, Nat.zero_mul]

omit [LinearOrderedField F] in
theorem pixelIndex_origin (W : Nat) : pixelIndex W 0 0 = 0 := by
  simp [pixelIndex]

/-- The sum of `n` copies of a sample. -/
theorem sumSamples_const (c : Vec4 F) :
    ∀ n : Nat, sumSamples (fun _ => c) n
      = ⟨(n : F) * c.r, (n : F) * c.g, (n : F) * c.b, (n : F) * c.a⟩ := by
  intro n
  induction n with
  | zero => simp [sumSamples, Vec4.zero]
  | succ n ih =>
    simp only [sumSamples, ih, Vec4.add, Vec4.mk.injEq]
    push_cast
    refine ⟨by ring, by ring, by ring, by ring⟩

/-- The mean of `n ≥ 1` copies of a sample is the sample. -/
theorem mean_const (c : Vec4 F) (n : Nat) (hn : 1 ≤ n) :
    Vec4.divScalar (sumSamples (fun _ => c) n) (n : F) = c := by
  have hne : (n : F) ≠ 0 := by
    have : (0 : F) < (n : F) := by exact_mod_cast hn
    exact ne_of_gt this
  rw [sumSamples_const]
  cases c
  simp only [Vec4.divScalar, Vec4.mk.injEq]
  refine ⟨?_, ?_, ?_, ?_⟩ <;> field_simp

end PathProofs

/-- Claim C12, as amended.  With `SlowRandom` off, `PerPixel` is a function of
the scene, camera, image, frame index and pixel alone: two invocations return
the same radiance whatever the external random source does in between. -/
theorem PerPixel_deterministic {F : Type} [LinearOrderedField F] (sqrt : F → F)
    (fresh : HitPayLoad F) (R : Renderer F) (hfast : R.m_Settings.SlowRandom = false)
    (slow slow' : Nat → Vec3 F) (x y : Nat) :
    PerPixel sqrt fresh R slow x y = PerPixel sqrt fresh R slow' x y :=
  PerPixel_fast sqrt fresh R hfast slow slow' x y

/-- Claim C19, as amended.  For the pixel `(0, 0)` the seed `PerPixel` starts
from is `0` at every frame index; so, with `SlowRandom` off, `PerPixel` returns
for that pixel the same radiance at every frame index; and after `N ≥ 1`
accumulated frames of the same scene and camera the cell of that pixel holds
that radiance added `N` times, and the output pixel is the conversion of the
colour whose every channel is the channel of that sum divided by `N` and
clamped to `[0, 1]`. -/
theorem PerPixel_origin_pixel {F : Type} [LinearOrderedField F] [FloorRing F] (sqrt : F → F)
    (fresh : HitPayLoad F) (R0 : Renderer F) (scene : Scene F) (camera : Camera F)
    (hfast : R0.m_Settings.SlowRandom = false) :
    (∀ width k : Nat, (pixelIndex width 0 0 * k) % 2 ^ 32 = 0) ∧
    (∀ (slow slow' : Nat → Vec3 F) (k k' : Nat),
      PerPixel sqrt fresh (duringRender R0 scene camera k) slow 0 0
        = PerPixel sqrt fresh (duringRender R0 scene camera k') slow' 0 0) ∧
    (∀ (W H N : Nat) (RN : Renderer F) (slow : Nat → Nat → Nat → Nat → Vec3 F),
      1 ≤ N → 0 < W → 0 < H → R0.Sized W H → R0.m_FrameIndex = 1 →
      R0.m_Settings.Accumulate = true →
      renderFrames sqrt fresh scene camera slow N R0 = some RN →
      ∃ c : Vec4 F,
        (∀ (tape : Nat → Vec3 F) (k : Nat),
          PerPixel sqrt fresh (duringRender R0 scene camera k) tape 0 0 = some c) ∧
        RN.m_AccumilationData[0]? = some (some (sumSamples (fun _ => c) N)) ∧
        RN.m_ImageData[0]? =
          some (some (Utils.ConvertToRGBA
            ⟨min (max ((sumSamples (fun _ => c) N).r / (N : F)) 0) 1,
              min (max ((sumSamples (fun _ => c) N).g / (N : F)) 0) 1,
              min (max ((sumSamples (fun _ => c) N).b / (N : F)) 0) 1,
              min (max ((sumSamples (fun _ => c) N).a / (N : F)) 0) 1⟩))) := by
  refine ⟨fun width k => by simp [pixelIndex_origin], fun slow slow' k k' =>
    PerPixel_origin_frame sqrt fresh R0 scene camera hfast slow slow' k k', ?_⟩
  intro W H N RN slow hN hW hH hsized hframe hacc hrun
  obtain ⟨_, _, _, hcells⟩ :=
    renderFrames_spec sqrt fresh R0 W H scene camera slow hsized hframe hacc N RN hrun
  obtain ⟨sample, hs, ha, hi⟩ := hcells hN 0 0 hW hH
  simp only [Nat.zero_mul, Nat.add_zero] at ha hi
  have hone := hs 1 (le_refl 1) hN
  have hall : ∀ (tape : Nat → Vec3 F) (k : Nat),
      PerPixel sqrt fresh (duringRender R0 scene camera k) tape 0 0 = some (sample 1) := by
    intro tape k
    rw [← hone]
    exact PerPixel_origin_frame sqrt fresh R0 scene camera hfast tape (slow 1 0 0) k 1
  have hsum : sumSamples sample N = sumSamples (fun _ => sample 1) N := by
    apply sumSamples_congr
    intro k hk1 hk2
    have h1 := hs k hk1 hk2
    rw [hall (slow k 0 0) k] at h1
    exact (Option.some.inj h1).symm
  refine ⟨sample 1, hall, ?_, ?_⟩
  · rw [ha, hsum]
  · rw [hi, hsum]
    rfl

/-! ## The path integrator on concrete scenes -/

section PathExamples

theorem glowScene_valid : glowScene.ValidMaterials := by
  intro sphere hs
  simp only [glowScene, List.mem_singleton] at hs
  subst hs
  simp [glowScene]

theorem glowScene_sameButAlbedo : glowScene.SameButAlbedo glowSceneDark := by
  simp [Scene.SameButAlbedo, glowScene, glowSceneDark]

theorem PerPixel_renderer1x1Glow :
    PerPixel Real.sqrt zeroPayload renderer1x1Glow (awayTape 0 0) 0 0 = some ⟨1, 1, 1, 1⟩ :=
  PerPixel_glow renderer1x1Glow rfl rfl rfl rfl

/-- Claim C11 on `glowScene`, whose sphere refers to the only material. -/
theorem PerPixel_in_range_witness :
    glowScene.ValidMaterials ∧
    (∀ (slowRandom : Bool) (slow : Nat → Vec3 ℝ) (n i : Nat) (st : PathState ℝ),
      ∃ light, bounceLoop Real.sqrt zeroPayload glowScene slowRandom slow n i st = some light) :=
  ⟨glowScene_valid, (PerPixel_in_range Real.sqrt zeroPayload glowScene glowScene_valid).2.1⟩

/-- Claim C12, as amended, on a one-pixel renderer with `SlowRandom` off. -/
theorem PerPixel_deterministic_witness :
    renderer1x1Fast.m_Settings.SlowRandom = false ∧
    PerPixel Real.sqrt zeroPayload renderer1x1Fast (awayTape 0 0) 0 0
      = PerPixel Real.sqrt zeroPayload renderer1x1Fast (fun _ => ⟨0, 1, 0⟩) 0 0 :=
  ⟨rfl, PerPixel_deterministic Real.sqrt zeroPayload renderer1x1Fast rfl _ _ 0 0⟩

/-- Claim C13 on `glowScene` and the same scene with a black albedo. -/
theorem PerPixel_albedo_independent_witness :
    glowScene.SameButAlbedo glowSceneDark ∧
    PerPixel Real.sqrt zeroPayload { renderer1x1Fast with m_ActiveScene := some glowScene }
        (awayTape 0 0) 0 0
      = PerPixel Real.sqrt zeroPayload
          { renderer1x1Fast with m_ActiveScene := some glowSceneDark } (awayTape 0 0) 0 0 :=
  ⟨glowScene_sameButAlbedo,
    PerPixel_albedo_independent Real.sqrt zeroPayload glowScene glowSceneDark
      glowScene_sameButAlbedo renderer1x1Fast (awayTape 0 0) 0 0⟩

/-- Claim C14 on `glowScene`: the camera ray hits the sphere, the second ray
misses, and the radiance is the emission `(1,1,1)` with alpha `1`. -/
theorem PerPixel_path_witness :
    PerPixel Real.sqrt zeroPayload renderer1x1Glow (awayTape 0 0) 0 0 = some ⟨1, 1, 1, 1⟩ ∧
    ∃ events, pixelEvents Real.sqrt zeroPayload renderer1x1Glow (awayTape 0 0) 0 0
        = some events ∧
      events.length ≤ 5 ∧
      (∀ j, events[j]? = some none → j + 1 = events.length) ∧
      (⟨1, 1, 1, 1⟩ : Vec4 ℝ) = ⟨(addEmissions Vec3.zero events).x,
        (addEmissions Vec3.zero events).y, (addEmissions Vec3.zero events).z, 1⟩ ∧
      (events.head? = some none → (⟨1, 1, 1, 1⟩ : Vec4 ℝ) = ⟨0, 0, 0, 1⟩) :=
  ⟨PerPixel_renderer1x1Glow,
    PerPixel_path Real.sqrt zeroPayload renderer1x1Glow (awayTape 0 0) 0 0 ⟨1, 1, 1, 1⟩
      PerPixel_renderer1x1Glow⟩

end PathExamples

/-! ## Further properties of the utilities and of `onResize` -/

section MoreUtilsProofs

/-- Claim C15 fails on the code: the colour `(1, 1, 1, 1)` is packed to
`0xFAFAFAFF`, with the bytes 250, 250, 250 for alpha, blue and green and 255 for
red, because those three channels are scaled by 250 and only red by 255; it is
not packed to `0xFFFFFFFF`, and the four bytes are not equal. -/
theorem ConvertToRGBA_white :
    Utils.ConvertToRGBA whiteColour = 0xFAFAFAFF ∧
    Utils.ConvertToRGBA whiteColour ≠ 0xFFFFFFFF ∧
    (Utils.ConvertToRGBA whiteColour >>> 24) % 256 = 250 ∧
    (Utils.ConvertToRGBA whiteColour >>> 16) % 256 = 250 ∧
    (Utils.ConvertToRGBA whiteColour >>> 8) % 256 = 250 ∧
    Utils.ConvertToRGBA whiteColour % 256 = 255 := by
  have h : Utils.ConvertToRGBA whiteColour = 0xFAFAFAFF := by
    norm_num [Utils.ConvertToRGBA, Utils.toUInt8, whiteColour]
    decide
  rw [h]
  decide

/-- Claim C16.  For `0 < w`, `0 < h` and `w * h < 2 ^ 32`, after `onResize w h`
has changed the resolution: the image is `w` by `h`, both buffers have `w * h`
cells, the index sequences are `0..w-1` and `0..h-1`, and the pixel indices
`Render` computes for `(x, y)` from these sequences equal `x + y * w`, are below
`w * h`, are different for different pixels, and reach every cell. -/
theorem onResize_disjoint_writes {F : Type} (R : Renderer F) (w h : Nat) (hw : 0 < w)
    (_hh : 0 < h) (hwh : w * h < 2 ^ 32) (hne : R.m_FinalImage ≠ some ⟨w, h⟩) :
    (onResize R w h).m_FinalImage = some ⟨w, h⟩ ∧
    (onResize R w h).m_ImageData.length = w * h ∧
    (onResize R w h).m_AccumilationData.length = w * h ∧
    (onResize R w h).m_ImageHorizontalIter = List.range w ∧
    (onResize R w h).m_ImageVerticalIter = List.range h ∧
    (∀ x ∈ (onResize R w h).m_ImageHorizontalIter, ∀ y ∈ (onResize R w h).m_ImageVerticalIter,
      pixelIndex w x y = x + y * w ∧ pixelIndex w x y < w * h) ∧
    (∀ x ∈ (onResize R w h).m_ImageHorizontalIter, ∀ y ∈ (onResize R w h).m_ImageVerticalIter,
      ∀ x' ∈ (onResize R w h).m_ImageHorizontalIter,
      ∀ y' ∈ (onResize R w h).m_ImageVerticalIter,
      pixelIndex w x y = pixelIndex w x' y' → x = x' ∧ y = y') ∧
    (∀ j, j < w * h →
      ∃ x ∈ (onResize R w h).m_ImageHorizontalIter,
      ∃ y ∈ (onResize R w h).m_ImageVerticalIter, pixelIndex w x y = j) := by
  rw [onResize_realloc R w h hne]
  have hmod : (w * h) % 2 ^ 32 = w * h := Nat.mod_eq_of_lt hwh
  simp only [hmod, List.length_replicate, List.mem_range, true_and]
  refine ⟨?_, ?_, ?_⟩
  · intro x hx y hy
    obtain ⟨h1, h2⟩ := pixelIndex_eq w h x y hwh hx hy
    exact ⟨h1, by rw [h1]; exact h2⟩
  · intro x hx y hy x' hx' y' hy' heq
    exact pixelIndex_injective w h x y x' y' hwh hx hy hx' hy' heq
  · intro j hj
    have hy : j / w < h := by
      rw [Nat.div_lt_iff_lt_mul hw, Nat.mul_comm]
      exact hj
    refine ⟨j % w, Nat.mod_lt j hw, j / w, hy, ?_⟩
    rw [(pixelIndex_eq w h (j % w) (j / w) hwh (Nat.mod_lt j hw) hy).1]
    exact Nat.mod_add_div' j w

/-- Claim C16 on a resize of the 2 by 2 renderer to 3 by 2 pixels. -/
theorem onResize_disjoint_writes_witness :
    0 < 3 ∧ 0 < 2 ∧ 3 * 2 < 2 ^ 32 ∧ renderer2x2.m_FinalImage ≠ some ⟨3, 2⟩ ∧
    (onResize renderer2x2 3 2).m_FinalImage = some ⟨3, 2⟩ ∧
    (onResize renderer2x2 3 2).m_ImageData.length = 3 * 2 ∧
    (onResize renderer2x2 3 2).m_AccumilationData.length = 3 * 2 ∧
    (onResize renderer2x2 3 2).m_ImageHorizontalIter = List.range 3 ∧
    (onResize renderer2x2 3 2).m_ImageVerticalIter = List.range 2 :=
  have hne : renderer2x2.m_FinalImage ≠ some ⟨3, 2⟩ := by simp [renderer2x2]
  have hall := onResize_disjoint_writes renderer2x2 3 2 (by norm_num) (by norm_num)
    (by norm_num) hne
  ⟨by norm_num, by norm_num, by norm_num, hne, hall.1, hall.2.1, hall.2.2.1, hall.2.2.2.1,
    hall.2.2.2.2.1⟩

end MoreUtilsProofs

/-! ## Scaling the direction, and rays that start inside a sphere -/

section ScalingProofs

variable {F : Type} [LinearOrderedField F]

/-- A square root on the non-negative numbers takes the value `w` at `w * w`
for `w ≥ 0`. -/
theorem sqrt_unique (sqrt : F → F) (hsqrt : ∀ v, 0 ≤ v → 0 ≤ sqrt v ∧ sqrt v * sqrt v = v)
    (w : F) (hw : 0 ≤ w) : sqrt (w * w) = w := by
  obtain ⟨h0, h1⟩ := hsqrt (w * w) (mul_self_nonneg w)
  rcases mul_self_eq_mul_self_iff.mp h1 with h | h
  · exact h
  · have : w = 0 := by linarith
    rw [h, this, neg_zero]

theorem quadA_scale (ray : Ray F) (k : F) :
    quadA (⟨ray.Origin, Vec3.scale ray.Direction k⟩ : Ray F) = k * k * quadA ray := by
  simp only [quadA, Vec3.dot, Vec3.scale]
  ring

theorem quadB_scale (ray : Ray F) (s : Sphere F) (k : F) :
    quadB (⟨ray.Origin, Vec3.scale ray.Direction k⟩ : Ray F) s = k * quadB ray s := by
  simp only [quadB, localOrigin, Vec3.dot, Vec3.scale, Vec3.sub]
  ring

theorem quadC_scale (ray : Ray F) (s : Sphere F) (k : F) :
    quadC (⟨ray.Origin, Vec3.scale ray.Direction k⟩ : Ray F) s = quadC ray s := by
  simp only [quadC, localOrigin]

theorem discriminent_scale (ray : Ray F) (s : Sphere F) (k : F) :
    discriminent (⟨ray.Origin, Vec3.scale ray.Direction k⟩ : Ray F) s
      = k * k * discriminent ray s := by
  simp only [discriminent, quadA_scale, quadB_scale, quadC_scale]
  ring

theorem discriminent_scale_nonneg (ray : Ray F) (s : Sphere F) (k : F) (hk : 0 < k) :
    0 ≤ discriminent (⟨ray.Origin, Vec3.scale ray.Direction k⟩ : Ray F) s
      ↔ 0 ≤ discriminent ray s := by
  rw [discriminent_scale]
  constructor
  · intro h
    by_contra hneg
    have : k * k * discriminent ray s < 0 :=
      mul_neg_of_pos_of_neg (mul_pos hk hk) (not_le.mp hneg)
    linarith
  · intro h
    exact mul_nonneg (mul_pos hk hk).le h

/-- Scaling the direction by `k > 0` divides the near root by `k`. -/
theorem closestT_scale (sqrt : F → F) (hsqrt : ∀ v, 0 ≤ v → 0 ≤ sqrt v ∧ sqrt v * sqrt v = v)
    (ray : Ray F) (s : Sphere F) (k : F) (hk : 0 < k) (hdir : ray.Direction ≠ Vec3.zero)
    (hd : 0 ≤ discriminent ray s) :
    closestT sqrt (⟨ray.Origin, Vec3.scale ray.Direction k⟩ : Ray F) s
      = closestT sqrt ray s / k := by
  have ha : quadA ray ≠ 0 := dot_self_ne_zero ray.Direction hdir
  have hkne : k ≠ 0 := ne_of_gt hk
  obtain ⟨hs0, hs1⟩ := hsqrt (discriminent ray s) hd
  have hroot : sqrt (k * k * discriminent ray s) = k * sqrt (discriminent ray s) := by
    have h := sqrt_unique sqrt hsqrt (k * sqrt (discriminent ray s)) (mul_nonneg hk.le hs0)
    rw [← h]
    congr 1
    calc k * k * discriminent ray s
        = k * k * (sqrt (discriminent ray s) * sqrt (discriminent ray s)) := by rw [hs1]
      _ = k * sqrt (discriminent ray s) * (k * sqrt (discriminent ray s)) := by ring
  unfold closestT
  rw [discriminent_scale, hroot, quadA_scale, quadB_scale]
  field_simp
  ring

/-- Scaling the direction by `k > 0` and the distance by `1 / k` leaves the hit
point where it is. -/
theorem hitPayload_scale (sqrt : F → F) (fresh : HitPayLoad F) (ray : Ray F) (i : Nat)
    (s : Sphere F) (t k : F) (hk : 0 < k) :
    (hitPayload sqrt fresh (⟨ray.Origin, Vec3.scale ray.Direction k⟩ : Ray F) i s
        (t / k)).WorldPosition = (hitPayload sqrt fresh ray i s t).WorldPosition ∧
    (hitPayload sqrt fresh (⟨ray.Origin, Vec3.scale ray.Direction k⟩ : Ray F) i s
        (t / k)).WorldNormal = (hitPayload sqrt fresh ray i s t).WorldNormal := by
  have hkne : k ≠ 0 := ne_of_gt hk
  have hpoint : Vec3.scale (Vec3.scale ray.Direction k) (t / k) = Vec3.scale ray.Direction t := by
    simp only [Vec3.scale, Vec3.mk.injEq]
    refine ⟨?_, ?_, ?_⟩ <;> (field_simp; ring)
  simp only [hitPayload, hpoint, and_self]

/-- Claim C17.  Let `sqrt` be a square root on the non-negative numbers, the
direction not zero, `k > 0`, and all qualifying near roots below `FLT_MAX` for
both rays.  Then `TraceRay` on the ray with direction `k * d` reports a hit
exactly when it does for direction `d`, and in that case with the same object
index, world position and world normal, and with the hit distance divided by
`k`. -/
theorem TraceRay_scale (sqrt : F → F) (hsqrt : ∀ v, 0 ≤ v → 0 ≤ sqrt v ∧ sqrt v * sqrt v = v)
    (fresh : HitPayLoad F) (spheres : List (Sphere F)) (ray : Ray F) (k : F)
    (hdir : ray.Direction ≠ Vec3.zero) (hk : 0 < k)
    (hcap : ∀ s ∈ spheres, 0 ≤ discriminent ray s → 0 < closestT sqrt ray s →
      closestT sqrt ray s < FLT_MAX ∧ closestT sqrt ray s / k < FLT_MAX) :
    ∃ p p', TraceRay sqrt fresh spheres ray = some p ∧
      TraceRay sqrt fresh spheres ⟨ray.Origin, Vec3.scale ray.Direction k⟩ = some p' ∧
      (p'.HitDistance < 0 ↔ p.HitDistance < 0) ∧
      (¬ p.HitDistance < 0 →
        p'.ObjectIndex = p.ObjectIndex ∧ p'.WorldPosition = p.WorldPosition ∧
        p'.WorldNormal = p.WorldNormal ∧ p'.HitDistance = p.HitDistance / k) := by
  -- qualifying for the scaled ray is qualifying for the ray, with the root divided by `k`
  have hq : ∀ s, 0 ≤ discriminent (⟨ray.Origin, Vec3.scale ray.Direction k⟩ : Ray F) s →
      0 ≤ discriminent ray s ∧
      closestT sqrt (⟨ray.Origin, Vec3.scale ray.Direction k⟩ : Ray F) s
        = closestT sqrt ray s / k := by
    intro s hd'
    have hd := (discriminent_scale_nonneg ray s k hk).mp hd'
    exact ⟨hd, closestT_scale sqrt hsqrt ray s k hk hdir hd⟩
  have hq' : ∀ s, 0 ≤ discriminent ray s →
      0 ≤ discriminent (⟨ray.Origin, Vec3.scale ray.Direction k⟩ : Ray F) s ∧
      closestT sqrt (⟨ray.Origin, Vec3.scale ray.Direction k⟩ : Ray F) s
        = closestT sqrt ray s / k := by
    intro s hd
    exact ⟨(discriminent_scale_nonneg ray s k hk).mpr hd,
      closestT_scale sqrt hsqrt ray s k hk hdir hd⟩
  rcases TraceRay_cases sqrt fresh spheres ray with
    ⟨hmiss, hall⟩ | ⟨i, s, hi, hres, hd, hpos, _, hmin, hfirst⟩
  · -- no hit for the ray
    rcases TraceRay_cases sqrt fresh spheres ⟨ray.Origin, Vec3.scale ray.Direction k⟩ with
      ⟨hmiss', _⟩ | ⟨i', s', hi', _, hd', hpos', _⟩
    · exact ⟨_, _, hmiss, hmiss', by simp [Miss], fun h => absurd (by simp [Miss]) h⟩
    · exfalso
      obtain ⟨hds, ht⟩ := hq s' hd'
      rw [ht] at hpos'
      have hpos_s : 0 < closestT sqrt ray s' := by
        have := mul_pos hpos' hk
        rwa [div_mul_cancel₀ _ (ne_of_gt hk)] at this
      have hmem := List.getElem?_mem hi'
      exact absurd (hcap s' hmem hds hpos_s).1 (not_lt.mpr (hall s' hmem hds hpos_s))
  · -- a hit on the sphere `s` at index `i`
    obtain ⟨hd2, ht2⟩ := hq' s hd
    have hmem := List.getElem?_mem hi
    rcases TraceRay_cases sqrt fresh spheres ⟨ray.Origin, Vec3.scale ray.Direction k⟩ with
      ⟨_, hall'⟩ | ⟨i', s', hi', hres', hd', hpos', _, hmin', hfirst'⟩
    · exfalso
      have hpos2 : 0 < closestT sqrt (⟨ray.Origin, Vec3.scale ray.Direction k⟩ : Ray F) s := by
        rw [ht2]; exact div_pos hpos hk
      have := hall' s hmem hd2 hpos2
      rw [ht2] at this
      exact absurd (hcap s hmem hd hpos).2 (not_lt.mpr this)
    · obtain ⟨hds', ht'⟩ := hq s' hd'
      have hpos_s' : 0 < closestT sqrt ray s' := by
        rw [ht'] at hpos'
        have := mul_pos hpos' hk
        rwa [div_mul_cancel₀ _ (ne_of_gt hk)] at this
      have hpos2 : 0 < closestT sqrt (⟨ray.Origin, Vec3.scale ray.Direction k⟩ : Ray F) s := by
        rw [ht2]; exact div_pos hpos hk
      have hii : i' = i := by
        rcases Nat.lt_trichotomy i' i with hlt | heq | hgt
        · exfalso
          have h1 := hfirst i' s' hlt hi' hds' hpos_s'
          have h2 := hmin' i s hi hd2 hpos2
          rw [ht', ht2, div_le_div_iff_of_pos_right hk] at h2
          exact absurd h1 (not_lt.mpr h2)
        · exact heq
        · exfalso
          have h1 := hfirst' i s hgt hi hd2 hpos2
          rw [ht', ht2, div_lt_div_iff_of_pos_right hk] at h1
          have h2 := hmin i' s' hi' hds' hpos_s'
          exact absurd h1 (not_lt.mpr h2)
      subst hii
      have hss : s' = s := by
        rw [hi] at hi'
        exact (Option.some.inj hi').symm
      subst hss
      refine ⟨_, _, hres, hres', ?_, ?_⟩
      · constructor
        · intro h
          exact absurd h (not_lt.mpr (by simpa [hitPayload] using hpos'.le))
        · intro h
          exact absurd h (not_lt.mpr (by simpa [hitPayload] using hpos.le))
      · intro _
        rw [ht']
        obtain ⟨hwp, hwn⟩ := hitPayload_scale sqrt fresh ray i' s' (closestT sqrt ray s') k hk
        exact ⟨rfl, hwp, hwn, rfl⟩

/-- Claim C18, as amended: in exact arithmetic.  Let `sqrt` be a square root on
the non-negative numbers of an ordered field.  For a
ray with a non-zero direction whose origin is at a distance below `r` from the
centre of a sphere of radius `r`, the near root of that sphere is negative; so
`TraceRay` never reports a hit with the index of that sphere, and on the scene
that consists of this sphere it returns the miss payload. -/
theorem TraceRay_inside (sqrt : F → F) (hsqrt : ∀ v, 0 ≤ v → 0 ≤ sqrt v ∧ sqrt v * sqrt v = v)
    (fresh : HitPayLoad F) (ray : Ray F) (s : Sphere F) (hdir : ray.Direction ≠ Vec3.zero)
    (hin : Vec3.length sqrt (localOrigin ray s) < s.Radius) :
    closestT sqrt ray s < 0 ∧
    (∀ (spheres : List (Sphere F)) (p : HitPayLoad F) (i : Nat),
      TraceRay sqrt fresh spheres ray = some p → ¬ p.HitDistance < 0 →
      spheres[i]? = some s → p.ObjectIndex ≠ (i : Int)) ∧
    TraceRay sqrt fresh [s] ray = some (Miss fresh ray) := by
  have hneg : closestT sqrt ray s < 0 := by
    have hoo : 0 ≤ Vec3.dot (localOrigin ray s) (localOrigin ray s) := by
      simp only [Vec3.dot]
      nlinarith [mul_self_nonneg (localOrigin ray s).x, mul_self_nonneg (localOrigin ray s).y,
        mul_self_nonneg (localOrigin ray s).z]
    obtain ⟨hL0, hL1⟩ := hsqrt _ hoo
    unfold Vec3.length at hin
    have hc : quadC ray s < 0 := by
      unfold quadC
      have : sqrt (Vec3.dot (localOrigin ray s) (localOrigin ray s))
          * sqrt (Vec3.dot (localOrigin ray s) (localOrigin ray s)) < s.Radius * s.Radius :=
        mul_self_lt_mul_self hL0 hin
      linarith
    have ha0 : 0 ≤ quadA ray := by
      simp only [quadA, Vec3.dot]
      nlinarith [mul_self_nonneg ray.Direction.x, mul_self_nonneg ray.Direction.y,
        mul_self_nonneg ray.Direction.z]
    have ha : 0 < quadA ray := lt_of_le_of_ne ha0 (Ne.symm (dot_self_ne_zero ray.Direction hdir))
    have hdisc : quadB ray s * quadB ray s < discriminent ray s := by
      unfold discriminent
      nlinarith [mul_pos ha (neg_pos.mpr hc)]
    have hd0 : 0 ≤ discriminent ray s := le_trans (mul_self_nonneg _) hdisc.le
    obtain ⟨hS0, hS1⟩ := hsqrt _ hd0
    have hnum : -quadB ray s - sqrt (discriminent ray s) < 0 := by
      by_contra hcon
      push_neg at hcon
      have h1 : sqrt (discriminent ray s) ≤ -quadB ray s := by linarith
      have h2 : sqrt (discriminent ray s) * sqrt (discriminent ray s)
          ≤ -quadB ray s * -quadB ray s := mul_self_le_mul_self hS0 h1
      rw [hS1] at h2
      nlinarith
    unfold closestT
    exact div_neg_of_neg_of_pos hnum (by linarith)
  refine ⟨hneg, ?_, ?_⟩
  · intro spheres p i hp hhit hi hidx
    rcases TraceRay_cases sqrt fresh spheres ray with ⟨hmiss, _⟩ | ⟨k, s', hk, hres, _, hpos, _⟩
    · rw [hmiss] at hp
      cases hp
      exact absurd (by simp [Miss]) hhit
    · rw [hres] at hp
      cases hp
      have hki : k = i := by
        simpa [hitPayload] using hidx
      subst hki
      rw [hi] at hk
      cases hk
      exact absurd hpos (not_lt.mpr hneg.le)
  · rcases TraceRay_cases sqrt fresh [s] ray with ⟨hmiss, _⟩ | ⟨k, s', hk, _, _, hpos, _⟩
    · exact hmiss
    · have hs' : s' = s := by
        have := List.getElem?_mem hk
        simpa using this
      subst hs'
      exact absurd hpos (not_lt.mpr hneg.le)

end ScalingProofs

/-! ## Scaled rays and inner rays on concrete scenes -/

section ScalingExamples

theorem twoSpheres_below_cap :
    ∀ s ∈ twoSpheres, 0 ≤ discriminent zRay s → 0 < closestT Real.sqrt zRay s →
      closestT Real.sqrt zRay s < FLT_MAX ∧ closestT Real.sqrt zRay s / 2 < FLT_MAX := by
  intro s hs _ _
  simp only [twoSpheres, List.mem_cons, List.mem_singleton, List.not_mem_nil, or_false] at hs
  rcases hs with rfl | rfl <;>
    norm_num [closestT, discriminent, quadA, quadB, quadC, localOrigin, Vec3.dot, Vec3.sub, zRay,
      sqrt_four, FLT_MAX]

/-- Claim C17 on the two-sphere scene, with the direction of the ray doubled. -/
theorem TraceRay_scale_witness :
    (∀ v : ℝ, 0 ≤ v → 0 ≤ Real.sqrt v ∧ Real.sqrt v * Real.sqrt v = v) ∧
    zRay.Direction ≠ Vec3.zero ∧ (0 : ℝ) < 2 ∧
    (∀ s ∈ twoSpheres, 0 ≤ discriminent zRay s → 0 < closestT Real.sqrt zRay s →
      closestT Real.sqrt zRay s < FLT_MAX ∧ closestT Real.sqrt zRay s / 2 < FLT_MAX) ∧
    ∃ p p', TraceRay Real.sqrt zeroPayload twoSpheres zRay = some p ∧
      TraceRay Real.sqrt zeroPayload twoSpheres ⟨zRay.Origin, Vec3.scale zRay.Direction 2⟩
        = some p' ∧
      (p'.HitDistance < 0 ↔ p.HitDistance < 0) ∧
      (¬ p.HitDistance < 0 →
        p'.ObjectIndex = p.ObjectIndex ∧ p'.WorldPosition = p.WorldPosition ∧
        p'.WorldNormal = p.WorldNormal ∧ p'.HitDistance = p.HitDistance / 2) :=
  ⟨real_sqrt_spec, zRay_direction_ne_zero, by norm_num, twoSpheres_below_cap,
    TraceRay_scale Real.sqrt real_sqrt_spec zeroPayload twoSpheres zRay 2
      zRay_direction_ne_zero (by norm_num) twoSpheres_below_cap⟩

theorem zRay_inside_sphereAround :
    Vec3.length Real.sqrt (localOrigin zRay sphereAround) < sphereAround.Radius := by
  norm_num [Vec3.length, localOrigin, Vec3.dot, Vec3.sub, zRay, sphereAround]

/-- Claim C18, as amended, on the ray from the origin and a sphere of radius `2` around
`(0,0,1)`. -/
theorem TraceRay_inside_witness :
    (∀ v : ℝ, 0 ≤ v → 0 ≤ Real.sqrt v ∧ Real.sqrt v * Real.sqrt v = v) ∧
    zRay.Direction ≠ Vec3.zero ∧
    Vec3.length Real.sqrt (localOrigin zRay sphereAround) < sphereAround.Radius ∧
    closestT Real.sqrt zRay sphereAround < 0 ∧
    TraceRay Real.sqrt zeroPayload [sphereAround] zRay = some (Miss zeroPayload zRay) :=
  have h := TraceRay_inside Real.sqrt real_sqrt_spec zeroPayload zRay sphereAround
    zRay_direction_ne_zero zRay_inside_sphereAround
  ⟨real_sqrt_spec, zRay_direction_ne_zero, zRay_inside_sphereAround, h.1, h.2.2⟩

end ScalingExamples

/-! ## The hash is a bijection -/

section HashProofs

/-- A bit at position 32 or above of a 32-bit word is not set. -/
theorem testBit_word (x i : Nat) (hx : x < 2 ^ 32) (hi : 32 ≤ i) : x.testBit i = false := by
  apply Nat.testBit_lt_two_pow
  exact lt_of_lt_of_le hx (Nat.pow_le_pow_right (by norm_num) hi)

/-- The step `x ↦ (x >> k) ^ x` with `k ≥ 1` is injective on 32-bit words: the
bits of `x` are recovered from the top down. -/
theorem xorshift_injective (k x y : Nat) (hk : 1 ≤ k) (hx : x < 2 ^ 32) (hy : y < 2 ^ 32)
    (h : (x >>> k) ^^^ x = (y >>> k) ^^^ y) : x = y := by
  have hbits : ∀ n i, 32 ≤ i + n → x.testBit i = y.testBit i := by
    intro n
    induction n with
    | zero =>
      intro i hi
      rw [testBit_word x i hx (by omega), testBit_word y i hy (by omega)]
    | succ n ih =>
      intro i hi
      have hup : x.testBit (k + i) = y.testBit (k + i) := ih (k + i) (by omega)
      have hb := congrArg (fun w => w.testBit i) h
      simp only [Nat.testBit_xor, Nat.testBit_shiftRight, hup] at hb
      cases hxi : x.testBit i <;> cases hyi : y.testBit i <;> simp [hxi, hyi] at hb ⊢
  exact Nat.eq_of_testBit_eq (fun i => hbits 32 i (by omega))

/-- A shift by at least 4 leaves the top four bits of `(s >> k) ^ s` those of
`s`. -/
theorem xorshift_top (k s : Nat) (hk : 4 ≤ k) (hs : s < 2 ^ 32) :
    ((s >>> k) ^^^ s) >>> 28 = s >>> 28 := by
  apply Nat.eq_of_testBit_eq
  intro j
  simp only [Nat.testBit_shiftRight, Nat.testBit_xor]
  rw [testBit_word s (k + (28 + j)) hs (by omega)]
  simp

/-- Multiplication by an odd constant is injective on 32-bit words. -/
theorem mul_mod_injective (c x y : Nat) (hc : Nat.gcd (2 ^ 32) c = 1) (hx : x < 2 ^ 32)
    (hy : y < 2 ^ 32) (h : (x * c) % 2 ^ 32 = (y * c) % 2 ^ 32) : x = y := by
  have hmod : x ≡ y [MOD 2 ^ 32] := Nat.ModEq.cancel_right_of_coprime hc h
  unfold Nat.ModEq at hmod
  rwa [Nat.mod_eq_of_lt hx, Nat.mod_eq_of_lt hy] at hmod

/-- The hash is injective on 32-bit words. -/
theorem PCG_Hash_injective (x y : Nat) (hx : x < 2 ^ 32) (hy : y < 2 ^ 32)
    (h : Utils.PCG_Hash x = Utils.PCG_Hash y) : x = y := by
  unfold Utils.PCG_Hash at h
  simp only at h
  have hlt : ∀ n : Nat, n % 2 ^ 32 < 2 ^ 32 := fun n => Nat.mod_lt _ (by norm_num)
  -- the final step
  have hword := xorshift_injective 22 _ _ (by norm_num) (hlt _) (hlt _) h
  -- the second multiplication
  have hshift : ∀ s : Nat, s < 2 ^ 32 → (s >>> (s >>> 28 + 4)) ^^^ s < 2 ^ 32 := by
    intro s hs
    refine Nat.xor_lt_two_pow ?_ hs
    rw [Nat.shiftRight_eq_div_pow]
    exact lt_of_le_of_lt (Nat.div_le_self _ _) hs
  have hmix := mul_mod_injective 277803737 _ _ (by norm_num) (hshift _ (hlt _))
    (hshift _ (hlt _)) hword
  -- the shift by a count taken from the top four bits
  have htop := congrArg (fun w => w >>> 28) hmix
  simp only at htop
  rw [xorshift_top _ _ (by omega) (hlt _), xorshift_top _ _ (by omega) (hlt _)] at htop
  rw [← htop] at hmix
  have hstate := xorshift_injective _ _ _ (by omega) (hlt _) (hlt _) hmix
  -- the first multiplication and the increment
  have hmod : x * 747796405 ≡ y * 747796405 [MOD 2 ^ 32] :=
    Nat.ModEq.add_right_cancel' 2891336453 hstate
  exact mul_mod_injective 747796405 x y (by norm_num) hx hy hmod

/-- Claim C20.  The hash is a bijection on 32-bit words: it is injective on
them, and every 32-bit word, `0xFFFFFFFF` included, is the hash of a 32-bit
word. -/
theorem PCG_Hash_bijective :
    (∀ x y : Nat, x < 2 ^ 32 → y < 2 ^ 32 → Utils.PCG_Hash x = Utils.PCG_Hash y → x = y) ∧
    (∀ w : Nat, w < 2 ^ 32 → ∃ x : Nat, x < 2 ^ 32 ∧ Utils.PCG_Hash x = w) := by
  refine ⟨PCG_Hash_injective, ?_⟩
  intro w hw
  have hinj : Function.Injective
      (fun x : Fin (2 ^ 32) => (⟨Utils.PCG_Hash x.1, PCG_Hash_lt x.1⟩ : Fin (2 ^ 32))) := by
    intro a b hab
    have := congrArg Fin.val hab
    exact Fin.ext (PCG_Hash_injective a.1 b.1 a.2 b.2 this)
  obtain ⟨x, hx⟩ := (Finite.injective_iff_surjective.mp hinj) ⟨w, hw⟩
  exact ⟨x.1, x.2, congrArg Fin.val hx⟩

/-- Claim C20 at the word `0xFFFFFFFF`. -/
theorem PCG_Hash_bijective_witness :
    (4294967295 : Nat) < 2 ^ 32 ∧
    ∃ x : Nat, x < 2 ^ 32 ∧ Utils.PCG_Hash x = 4294967295 :=
  ⟨by norm_num, PCG_Hash_bijective.2 4294967295 (by norm_num)⟩

end HashProofs

/-! ## The external random source on a concrete scene -/

section RandomSourceExamples

theorem sqrt_25 : Real.sqrt 25 = 5 := by
  rw [show (25 : ℝ) = 5 ^ 2 by norm_num, Real.sqrt_sq (by norm_num)]

theorem sqrt_64 : Real.sqrt 64 = 8 := by
  rw [show (64 : ℝ) = 8 ^ 2 by norm_num, Real.sqrt_sq (by norm_num)]

/-- A sphere the ray does not approach has no positive near root. -/
theorem closestT_nonpos {F : Type} [LinearOrderedField F] (sqrt : F → F) (ray : Ray F) (s : Sphere F) (hb : 0 ≤ quadB ray s)
    (ha : 0 < quadA ray) (hs : 0 ≤ sqrt (discriminent ray s)) : closestT sqrt ray s ≤ 0 := by
  unfold closestT
  exact div_nonpos_of_nonpos_of_nonneg (by linarith) (by linarith)

/-- When no sphere qualifies, `TraceRay` returns the payload of `Miss`. -/
theorem TraceRay_eq_miss {F : Type} [LinearOrderedField F] (sqrt : F → F) (fresh : HitPayLoad F) (spheres : List (Sphere F))
    (ray : Ray F)
    (hnone : ∀ s ∈ spheres, ¬ (0 ≤ discriminent ray s ∧ 0 < closestT sqrt ray s)) :
    TraceRay sqrt fresh spheres ray = some (Miss fresh ray) := by
  rcases TraceRay_cases sqrt fresh spheres ray with ⟨hmiss, _⟩ | ⟨k, s, hk, _, hd, hpos, _⟩
  · exact hmiss
  · exact absurd ⟨hd, hpos⟩ (hnone s (List.getElem?_mem hk))

theorem twin_step0 (seed : Nat) :
    bounceStep Real.sqrt zeroPayload twinScene true (fun _ => ⟨24 / 25, 0, -7 / 25⟩) 0
        ⟨⟨⟨0, 0, 0⟩, ⟨0, 0, 1⟩⟩, Vec3.zero, Vec3.one, seed⟩
      = some (some (⟨⟨1, 1, 1⟩, ⟨1, 1, 1⟩, 1⟩,
          ⟨⟨⟨0, 0, 19999 / 10000⟩, ⟨3 / 5, 0, -4 / 5⟩⟩, ⟨1, 1, 1⟩, ⟨1, 1, 1⟩,
            (seed + 0) % 2 ^ 32⟩)) := by
  norm_num [bounceStep, twinScene, TraceRay, scanSpheres, scanFrom, scanStep, closestT,
    discriminent, quadA, quadB, quadC, localOrigin, Vec3.dot, Vec3.sub, Vec3.add, Vec3.mul,
    Vec3.scale, Vec3.normalize, ClosestHit, indexInt, FLT_MAX, zeroPayload, sqrt_four,
    sqrt_25, sqrt_64, Material.GetEmission, Vec3.zero, Vec3.one]

theorem twin_trace1 :
    TraceRay Real.sqrt zeroPayload twinScene.Spheres ⟨⟨0, 0, 19999 / 10000⟩, ⟨3 / 5, 0, -4 / 5⟩⟩
      = some (Miss zeroPayload ⟨⟨0, 0, 19999 / 10000⟩, ⟨3 / 5, 0, -4 / 5⟩⟩) := by
  apply TraceRay_eq_miss
  intro s hs
  simp only [twinScene, List.mem_cons, List.mem_singleton, List.not_mem_nil, or_false] at hs
  rcases hs with rfl | rfl
  · rintro ⟨_, hpos⟩
    refine absurd hpos (not_lt.mpr (closestT_nonpos Real.sqrt _ _ ?_ ?_ (Real.sqrt_nonneg _)))
    · norm_num [quadB, localOrigin, Vec3.dot, Vec3.sub]
    · norm_num [quadA, Vec3.dot]
  · rintro ⟨hd, _⟩
    norm_num [discriminent, quadA, quadB, quadC, localOrigin, Vec3.dot, Vec3.sub] at hd

theorem twin_step1 (l c : Vec3 ℝ) (seed : Nat) :
    bounceStep Real.sqrt zeroPayload twinScene true (fun _ => ⟨24 / 25, 0, -7 / 25⟩) 1
        ⟨⟨⟨0, 0, 19999 / 10000⟩, ⟨3 / 5, 0, -4 / 5⟩⟩, l, c, seed⟩ = some none := by
  unfold bounceStep
  simp only [twin_trace1, Miss]
  norm_num

theorem PerPixel_twin_aside :
    PerPixel Real.sqrt zeroPayload renderer1x1Twin (fun _ => ⟨24 / 25, 0, -7 / 25⟩) 0 0
      = some ⟨1, 1, 1, 1⟩ := by
  unfold PerPixel
  simp only [renderer1x1Twin, duringRender, renderer1x1, camera1]
  have hidx : pixelIndex 1 0 0 = 0 := by simp [pixelIndex]
  simp only [hidx, List.getElem?_cons_zero]
  rw [bounceLoop_succ, twin_step0]
  simp only
  rw [bounceLoop_succ, twin_step1]

theorem PerPixel_twin_backAndForth :
    PerPixel Real.sqrt zeroPayload renderer1x1Twin backAndForth 0 0 = some ⟨5, 5, 5, 1⟩ := by
  norm_num [PerPixel, renderer1x1Twin, duringRender, renderer1x1, twinScene, camera1,
    backAndForth, bounceLoop, pixelIndex,
    TraceRay, scanSpheres, scanFrom, scanStep, closestT, discriminent, quadA, quadB,
    quadC, localOrigin, Vec3.dot, Vec3.sub, Vec3.add, Vec3.mul, Vec3.scale, Vec3.normalize,
    ClosestHit, indexInt, FLT_MAX, zeroPayload, sqrt_four, Miss, Material.GetEmission,
    Vec3.zero, Vec3.one]

/-- Claim C12 fails as stated: with `SlowRandom` on, the same renderer, scene,
camera, frame index and pixel give the radiance `(5,5,5,1)` when the external
source returns `(0,0,-1)`, `(0,0,1)`, ... and `(1,1,1,1)` when it returns
`(24/25, 0, -7/25)`. -/
theorem PerPixel_slow_differs :
    renderer1x1Twin.m_Settings.SlowRandom = true ∧
    PerPixel Real.sqrt zeroPayload renderer1x1Twin backAndForth 0 0 = some ⟨5, 5, 5, 1⟩ ∧
    PerPixel Real.sqrt zeroPayload renderer1x1Twin (fun _ => ⟨24 / 25, 0, -7 / 25⟩) 0 0
      = some ⟨1, 1, 1, 1⟩ ∧
    PerPixel Real.sqrt zeroPayload renderer1x1Twin backAndForth 0 0
      ≠ PerPixel Real.sqrt zeroPayload renderer1x1Twin (fun _ => ⟨24 / 25, 0, -7 / 25⟩) 0 0 := by
  refine ⟨rfl, PerPixel_twin_backAndForth, PerPixel_twin_aside, ?_⟩
  rw [PerPixel_twin_backAndForth, PerPixel_twin_aside]
  norm_num

end RandomSourceExamples

/-! ## Binary32 arithmetic on concrete inputs -/

namespace Binary32

/-- The locals of the loop body of `TraceRay` for `innerRay` and `thinMargin`:
the sum `dot(origin, origin)` is rounded up and the square of the radius is
rounded down, which makes `c` positive. -/
theorem thinMargin_trace :
    quadC innerRay thinMargin = 1 / 8388608 ∧
    discriminent innerRay thinMargin = 8388607 / 2097152 ∧
    sqrt (8388607 / 2097152) = 16777215 / 8388608 ∧
    closestT innerRay thinMargin = 1 / 16777216 := by
  have rx : round (12779435 / 16777216) = 12779435 / 16777216 := by
    rw [round_near _ (-1) 12779435 (by norm_num [abs_of_pos]) (by norm_num [abs_of_pos])
      (by norm_num) (by norm_num)]
    norm_num
  have rxx : round (163313958919225 / 281474976710656) = 9734271 / 16777216 := by
    rw [round_near _ (-1) 9734271 (by norm_num [abs_of_pos]) (by norm_num [abs_of_pos])
      (by norm_num) (by norm_num)]
    norm_num
  have rxx2 : round (9734271 / 16777216) = 9734271 / 16777216 := by
    rw [round_near _ (-1) 9734271 (by norm_num [abs_of_pos]) (by norm_num [abs_of_pos])
      (by norm_num) (by norm_num)]
    norm_num
  have roo : round (26511487 / 16777216) = 207121 / 131072 := by
    rw [round_eq _ 0 13255744 (by norm_num [abs_of_pos]) (by norm_num [abs_of_pos])
      (by rw [roundEven_tie _ 13255743 (by norm_num)]; norm_num)]
    norm_num
  have rrr : round (27799308975025 / 17592186044416) = 13255743 / 8388608 := by
    rw [round_near _ 0 13255743 (by norm_num [abs_of_pos]) (by norm_num [abs_of_pos])
      (by norm_num) (by norm_num)]
    norm_num
  have rc : round (1 / 8388608) = 1 / 8388608 := by
    rw [round_near _ (-23) 8388608 (by norm_num [abs_of_pos]) (by norm_num [abs_of_pos])
      (by norm_num) (by norm_num)]
    norm_num
  have r4c : round (1 / 2097152) = 1 / 2097152 := by
    rw [round_near _ (-21) 8388608 (by norm_num [abs_of_pos]) (by norm_num [abs_of_pos])
      (by norm_num) (by norm_num)]
    norm_num
  have rdisc : round (8388607 / 2097152) = 8388607 / 2097152 := by
    rw [round_near _ 1 16777214 (by norm_num [abs_of_pos]) (by norm_num [abs_of_pos])
      (by norm_num) (by norm_num)]
    norm_num
  have rsq : sqrt (8388607 / 2097152) = 16777215 / 8388608 := by
    rw [sqrt_eq _ 1 49 1125899839733757 (by norm_num) (by norm_num) rfl (by norm_num)
      (by norm_num) (by norm_num)]
    rw [round_near _ 0 16777215 (by norm_num [abs_of_pos]) (by norm_num [abs_of_pos])
      (by norm_num) (by norm_num)]
    norm_num
  have rt : round (1 / 16777216) = 1 / 16777216 := by
    rw [round_near _ (-24) 8388608 (by norm_num [abs_of_pos]) (by norm_num [abs_of_pos])
      (by norm_num) (by norm_num)]
    norm_num
  have hc : quadC innerRay thinMargin = 1 / 8388608 := by
    simp only [quadC, dot, localOrigin, add, sub, mul, innerRay, thinMargin]
    norm_num [round_zero, round_one, round_neg_one, rx, rxx, rxx2, roo, rrr, rc]
  have hdisc : discriminent innerRay thinMargin = 8388607 / 2097152 := by
    simp only [discriminent, quadA, quadB, quadC, dot, localOrigin, add, sub, mul,
      innerRay, thinMargin]
    norm_num [round_zero, round_one, round_neg_one, round_neg_two, round_four, rx, rxx, rxx2,
      roo, rrr, rc, r4c, rdisc]
  refine ⟨hc, hdisc, rsq, ?_⟩
  unfold closestT
  rw [hdisc, rsq]
  simp only [quadA, quadB, dot, localOrigin, add, sub, mul, div, innerRay, thinMargin]
  norm_num [round_zero, round_one, round_neg_one, round_two, round_neg_two, rc, rt]


/-- Six frames of the radiance `dimColour`: the fifth and the sixth addition are
rounded down, and the quotient by `6` is the number next below `0.3f`. -/
theorem dimColour_frames :
    round (3 / 10) = 5033165 / 16777216 ∧
    cellAfter dimColour 1 = dimColour ∧
    accumulatedColor (cellAfter dimColour 1) 1 = dimColour ∧
    cellAfter dimColour 6 = ⟨7549747 / 4194304, 7549747 / 4194304, 7549747 / 4194304, 6⟩ ∧
    accumulatedColor (cellAfter dimColour 6) 6 = dimMean := by
  have s0 : round (3 / 10) = 5033165 / 16777216 := by
    rw [round_near _ (-2) 10066330 (by norm_num [abs_of_pos]) (by norm_num [abs_of_pos])
      (by norm_num) (by norm_num)]
    norm_num
  have s1 : round (5033165 / 16777216) = (5033165 / 16777216) := by
    rw [round_near _ (-2) (10066330) (by norm_num [abs_of_pos]) (by norm_num [abs_of_pos])
      (by norm_num) (by norm_num)]
    norm_num
  have s2 : round (5033165 / 8388608) = (5033165 / 8388608) := by
    rw [round_near _ (-1) (10066330) (by norm_num [abs_of_pos]) (by norm_num [abs_of_pos])
      (by norm_num) (by norm_num)]
    norm_num
  have s3 : round (15099495 / 16777216) = (15099495 / 16777216) := by
    rw [round_near _ (-1) (15099495) (by norm_num [abs_of_pos]) (by norm_num [abs_of_pos])
      (by norm_num) (by norm_num)]
    norm_num
  have s4 : round (5033165 / 4194304) = (5033165 / 4194304) := by
    rw [round_near _ (0) (10066330) (by norm_num [abs_of_pos]) (by norm_num [abs_of_pos])
      (by norm_num) (by norm_num)]
    norm_num
  have s5 : round (25165825 / 16777216) = (3 / 2) := by
    rw [round_eq _ (0) (12582912) (by norm_num [abs_of_pos]) (by norm_num [abs_of_pos])
      (by rw [roundEven_tie _ (12582912) (by norm_num)]; norm_num)]
    norm_num
  have s6 : round (30198989 / 16777216) = (7549747 / 4194304) := by
    rw [round_eq _ (0) (15099494) (by norm_num [abs_of_pos]) (by norm_num [abs_of_pos])
      (by rw [roundEven_tie _ (15099494) (by norm_num)]; norm_num)]
    norm_num
  have hm : round (7549747 / 25165824) = (10066329 / 33554432) := by
    rw [round_near _ (-2) (10066329) (by norm_num [abs_of_pos]) (by norm_num [abs_of_pos])
      (by norm_num) (by norm_num)]
    norm_num
  have r3 : round 3 = 3 := by
    rw [round_near _ (1) (12582912) (by norm_num [abs_of_pos]) (by norm_num [abs_of_pos])
      (by norm_num) (by norm_num)]
    norm_num
  have r5 : round 5 = 5 := by
    rw [round_near _ (2) (10485760) (by norm_num [abs_of_pos]) (by norm_num [abs_of_pos])
      (by norm_num) (by norm_num)]
    norm_num
  have r6 : round 6 = 6 := by
    rw [round_near _ (2) (12582912) (by norm_num [abs_of_pos]) (by norm_num [abs_of_pos])
      (by norm_num) (by norm_num)]
    norm_num
  have c1 : cellAfter dimColour 1 = dimColour := by
    simp only [cellAfter, accumulate, dimColour, Vec4.zero, add]
    norm_num [s1, round_one]
  have c6 : cellAfter dimColour 6
      = ⟨7549747 / 4194304, 7549747 / 4194304, 7549747 / 4194304, 6⟩ := by
    simp only [cellAfter, accumulate, dimColour, Vec4.zero, add]
    norm_num [s1, s2, s3, s4, s5, s6, round_one, round_two, r3, round_four, r5, r6]
  refine ⟨s0, c1, ?_, c6, ?_⟩
  · rw [c1]
    simp only [accumulatedColor, dimColour, div, ofNat, Vec4.clamp01]
    norm_num [s1, round_one]
  · rw [c6]
    simp only [accumulatedColor, dimMean, div, ofNat, Vec4.clamp01]
    norm_num [hm, round_one, r6]

/-- The output words of `dimColour` and of `dimMean`: the bytes
`(250, 75, 75, 76)` and `(250, 74, 74, 76)`. -/
theorem dimColour_words :
    ConvertToRGBA dimColour = 4199238476 ∧ ConvertToRGBA dimMean = 4199172684 := by
  have b1 : round (1283457075 / 16777216) = (153 / 2) := by
    rw [round_near _ (6) (10027008) (by norm_num [abs_of_pos]) (by norm_num [abs_of_pos])
      (by norm_num) (by norm_num)]
    norm_num
  have b2 : round (629145625 / 8388608) = 75 := by
    rw [round_near _ (6) (9830400) (by norm_num [abs_of_pos]) (by norm_num [abs_of_pos])
      (by norm_num) (by norm_num)]
    norm_num
  have b3 : round (2566913895 / 33554432) = (10027007 / 131072) := by
    rw [round_near _ (6) (10027007) (by norm_num [abs_of_pos]) (by norm_num [abs_of_pos])
      (by norm_num) (by norm_num)]
    norm_num
  have b4 : round (1258291125 / 16777216) = (9830399 / 131072) := by
    rw [round_near _ (6) (9830399) (by norm_num [abs_of_pos]) (by norm_num [abs_of_pos])
      (by norm_num) (by norm_num)]
    norm_num
  have r250 : round 250 = 250 := by
    rw [round_near _ (7) (16384000) (by norm_num [abs_of_pos]) (by norm_num [abs_of_pos])
      (by norm_num) (by norm_num)]
    norm_num
  constructor
  · simp only [ConvertToRGBA, dimColour, mul]
    norm_num [b1, b2, r250, Utils.toUInt8]
    decide
  · simp only [ConvertToRGBA, dimMean, mul]
    norm_num [b3, b4, r250, Utils.toUInt8]
    decide

end Binary32

/-! ## Accumulation of two different samples -/

section MixedExamples

theorem mixed_step0_towards (seed : Nat) :
    bounceStep Real.sqrt zeroPayload mixedScene true towardsGlow 0
        ⟨⟨⟨0, 0, 0⟩, ⟨0, 0, 1⟩⟩, Vec3.zero, Vec3.one, seed⟩
      = some (some (⟨⟨1, 1, 1⟩, ⟨0, 0, 0⟩, 0⟩,
          ⟨⟨⟨0, 0, 19999 / 10000⟩, ⟨0, 0, -1⟩⟩, ⟨0, 0, 0⟩, ⟨1, 1, 1⟩,
            (seed + 0) % 2 ^ 32⟩)) := by
  norm_num [bounceStep, mixedScene, towardsGlow, TraceRay, scanSpheres, scanFrom, scanStep,
    closestT, discriminent, quadA, quadB, quadC, localOrigin, Vec3.dot, Vec3.sub, Vec3.add,
    Vec3.mul, Vec3.scale, Vec3.normalize, ClosestHit, indexInt, FLT_MAX, zeroPayload, sqrt_four,
    Material.GetEmission, Vec3.zero, Vec3.one]

theorem mixed_step1_towards (seed : Nat) :
    bounceStep Real.sqrt zeroPayload mixedScene true towardsGlow 1
        ⟨⟨⟨0, 0, 19999 / 10000⟩, ⟨0, 0, -1⟩⟩, ⟨0, 0, 0⟩, ⟨1, 1, 1⟩, seed⟩
      = some (some (⟨⟨1, 1, 1⟩, ⟨1, 4, 1⟩, 1⟩,
          ⟨⟨⟨0, 0, -19999 / 10000⟩, ⟨3 / 5, 0, 4 / 5⟩⟩, ⟨1, 4, 1⟩, ⟨1, 1, 1⟩,
            (seed + 1) % 2 ^ 32⟩)) := by
  norm_num [bounceStep, mixedScene, towardsGlow, TraceRay, scanSpheres, scanFrom, scanStep,
    closestT, discriminent, quadA, quadB, quadC, localOrigin, Vec3.dot, Vec3.sub, Vec3.add,
    Vec3.mul, Vec3.scale, Vec3.normalize, ClosestHit, indexInt, FLT_MAX, zeroPayload, sqrt_four,
    sqrt_25, sqrt_64, Material.GetEmission, Vec3.zero, Vec3.one]

theorem mixed_trace2_towards :
    TraceRay Real.sqrt zeroPayload mixedScene.Spheres
        ⟨⟨0, 0, -19999 / 10000⟩, ⟨3 / 5, 0, 4 / 5⟩⟩
      = some (Miss zeroPayload ⟨⟨0, 0, -19999 / 10000⟩, ⟨3 / 5, 0, 4 / 5⟩⟩) := by
  apply TraceRay_eq_miss
  intro s hs
  simp only [mixedScene, List.mem_cons, List.mem_singleton, List.not_mem_nil, or_false] at hs
  rcases hs with rfl | rfl
  · rintro ⟨hd, _⟩
    norm_num [discriminent, quadA, quadB, quadC, localOrigin, Vec3.dot, Vec3.sub] at hd
  · rintro ⟨_, hpos⟩
    refine absurd hpos (not_lt.mpr (closestT_nonpos Real.sqrt _ _ ?_ ?_ (Real.sqrt_nonneg _)))
    · norm_num [quadB, localOrigin, Vec3.dot, Vec3.sub]
    · norm_num [quadA, Vec3.dot]

theorem mixed_step2_towards (l c : Vec3 ℝ) (seed : Nat) :
    bounceStep Real.sqrt zeroPayload mixedScene true towardsGlow 2
        ⟨⟨⟨0, 0, -19999 / 10000⟩, ⟨3 / 5, 0, 4 / 5⟩⟩, l, c, seed⟩ = some none := by
  unfold bounceStep
  simp only [mixed_trace2_towards, Miss]
  norm_num

theorem mixed_step0_aside (seed : Nat) :
    bounceStep Real.sqrt zeroPayload mixedScene true asideTape 0
        ⟨⟨⟨0, 0, 0⟩, ⟨0, 0, 1⟩⟩, Vec3.zero, Vec3.one, seed⟩
      = some (some (⟨⟨1, 1, 1⟩, ⟨0, 0, 0⟩, 0⟩,
          ⟨⟨⟨0, 0, 19999 / 10000⟩, ⟨3 / 5, 0, -4 / 5⟩⟩, ⟨0, 0, 0⟩, ⟨1, 1, 1⟩,
            (seed + 0) % 2 ^ 32⟩)) := by
  norm_num [bounceStep, mixedScene, asideTape, TraceRay, scanSpheres, scanFrom, scanStep,
    closestT, discriminent, quadA, quadB, quadC, localOrigin, Vec3.dot, Vec3.sub, Vec3.add,
    Vec3.mul, Vec3.scale, Vec3.normalize, ClosestHit, indexInt, FLT_MAX, zeroPayload, sqrt_four,
    sqrt_25, sqrt_64, Material.GetEmission, Vec3.zero, Vec3.one]

theorem mixed_trace1_aside :
    TraceRay Real.sqrt zeroPayload mixedScene.Spheres
        ⟨⟨0, 0, 19999 / 10000⟩, ⟨3 / 5, 0, -4 / 5⟩⟩
      = some (Miss zeroPayload ⟨⟨0, 0, 19999 / 10000⟩, ⟨3 / 5, 0, -4 / 5⟩⟩) := by
  apply TraceRay_eq_miss
  intro s hs
  simp only [mixedScene, List.mem_cons, List.mem_singleton, List.not_mem_nil, or_false] at hs
  rcases hs with rfl | rfl
  · rintro ⟨_, hpos⟩
    refine absurd hpos (not_lt.mpr (closestT_nonpos Real.sqrt _ _ ?_ ?_ (Real.sqrt_nonneg _)))
    · norm_num [quadB, localOrigin, Vec3.dot, Vec3.sub]
    · norm_num [quadA, Vec3.dot]
  · rintro ⟨hd, _⟩
    norm_num [discriminent, quadA, quadB, quadC, localOrigin, Vec3.dot, Vec3.sub] at hd

theorem mixed_step1_aside (l c : Vec3 ℝ) (seed : Nat) :
    bounceStep Real.sqrt zeroPayload mixedScene true asideTape 1
        ⟨⟨⟨0, 0, 19999 / 10000⟩, ⟨3 / 5, 0, -4 / 5⟩⟩, l, c, seed⟩ = some none := by
  unfold bounceStep
  simp only [mixed_trace1_aside, Miss]
  norm_num

/-- On `mixedScene` with the random source `towardsGlow` the camera ray hits the
dark sphere, the second ray hits the glowing sphere, the third ray misses, and
the radiance is `(1,4,1)`, at every frame index. -/
theorem PerPixel_mixed_towards (R : Renderer ℝ) (hcam : R.m_ActiveCam = some camera1)
    (hscene : R.m_ActiveScene = some mixedScene) (himg : R.m_FinalImage = some ⟨1, 1⟩)
    (hslow : R.m_Settings.SlowRandom = true) :
    PerPixel Real.sqrt zeroPayload R towardsGlow 0 0 = some ⟨1, 4, 1, 1⟩ := by
  unfold PerPixel
  rw [hcam, hscene, himg, hslow]
  simp only [camera1]
  have hidx : pixelIndex 1 0 0 = 0 := by simp [pixelIndex]
  simp only [hidx, List.getElem?_cons_zero]
  rw [bounceLoop_succ, mixed_step0_towards]
  simp only
  rw [bounceLoop_succ, mixed_step1_towards]
  simp only
  rw [bounceLoop_succ, mixed_step2_towards]

/-- On `mixedScene` with the random source `asideTape` the camera ray hits the
dark sphere, the second ray misses, and the radiance is `(0,0,0)`, at every
frame index. -/
theorem PerPixel_mixed_aside (R : Renderer ℝ) (hcam : R.m_ActiveCam = some camera1)
    (hscene : R.m_ActiveScene = some mixedScene) (himg : R.m_FinalImage = some ⟨1, 1⟩)
    (hslow : R.m_Settings.SlowRandom = true) :
    PerPixel Real.sqrt zeroPayload R asideTape 0 0 = some ⟨0, 0, 0, 1⟩ := by
  unfold PerPixel
  rw [hcam, hscene, himg, hslow]
  simp only [camera1]
  have hidx : pixelIndex 1 0 0 = 0 := by simp [pixelIndex]
  simp only [hidx, List.getElem?_cons_zero]
  rw [bounceLoop_succ, mixed_step0_aside]
  simp only
  rw [bounceLoop_succ, mixed_step1_aside]

theorem Render_mixed_first :
    Render Real.sqrt zeroPayload renderer1x1 mixedScene camera1 (mixedTape 1)
      = some rendererMixed1 := by
  have h := PerPixel_mixed_towards
    { renderer1x1 with
      m_ActiveCam := some camera1
      m_ActiveScene := some mixedScene
      m_AccumilationData := [some ⟨0, 0, 0, 0⟩] } rfl rfl rfl rfl
  simp only [renderer1x1] at h
  have htape : mixedTape 1 0 0 = towardsGlow := by simp [mixedTape]
  simp only [Render, renderer1x1, rendererMixed1, renderLoop, renderPixel, memsetZero,
    List.foldlM_cons, List.foldlM_nil, htape]
  norm_num [h, pixelIndex, Vec4.add, Vec4.zero, Vec4.divScalar, Vec4.clamp01,
    Utils.ConvertToRGBA, Utils.toUInt8]
  decide

theorem Render_mixed_second :
    Render Real.sqrt zeroPayload rendererMixed1 mixedScene camera1 (mixedTape 2)
      = some rendererMixed2 := by
  have h := PerPixel_mixed_aside
    { rendererMixed1 with
      m_ActiveCam := some camera1
      m_ActiveScene := some mixedScene } rfl rfl rfl rfl
  simp only [rendererMixed1] at h
  have htape : mixedTape 2 0 0 = asideTape := by simp [mixedTape]
  simp only [Render, rendererMixed1, rendererMixed2, renderLoop, renderPixel,
    List.foldlM_cons, List.foldlM_nil, htape]
  norm_num [h, pixelIndex, Vec4.add, Vec4.divScalar, Vec4.clamp01,
    Utils.ConvertToRGBA, Utils.toUInt8]
  decide

theorem renderFrames_mixed :
    renderFrames Real.sqrt zeroPayload mixedScene camera1 mixedTape 2 renderer1x1
      = some rendererMixed2 := by
  simp only [renderFrames, zero_add, one_add_one_eq_two, Render_mixed_first, Render_mixed_second]

end MixedExamples

/-! ## The claims on the accumulation of concrete frames -/

section AccumulationExamples

/-- Claim C3 on two frames of `mixedScene` with the one-pixel renderer: the
samples are `(1,4,1,1)` and `(0,0,0,1)`, the cell ends at their sum `(1,4,1,2)`,
the frame index at `3`, and the output pixel shows the mean `(1/2, 2, 1/2, 1)`
clamped to `(1/2, 1, 1/2, 1)`, the bytes `(127, 250, 125, 250)`. -/
theorem Render_accumulates_witness :
    (1 ≤ 2) ∧ renderer1x1.Sized 1 1 ∧ renderer1x1.m_FrameIndex = 1 ∧
    renderer1x1.m_Settings.Accumulate = true ∧
    renderFrames Real.sqrt zeroPayload mixedScene camera1 mixedTape 2 renderer1x1
      = some rendererMixed2 ∧
    PerPixel Real.sqrt zeroPayload (duringRender renderer1x1 mixedScene camera1 1)
      (mixedTape 1 0 0) 0 0 = some ⟨1, 4, 1, 1⟩ ∧
    PerPixel Real.sqrt zeroPayload (duringRender renderer1x1 mixedScene camera1 2)
      (mixedTape 2 0 0) 0 0 = some ⟨0, 0, 0, 1⟩ ∧
    rendererMixed2.m_AccumilationData = [some ⟨1, 4, 1, 2⟩] ∧
    rendererMixed2.m_ImageData = [some (250 * 2 ^ 24 + 125 * 2 ^ 16 + 250 * 2 ^ 8 + 127)] ∧
    rendererMixed2.m_FrameIndex = 2 + 1 ∧
    ∀ x y, x < 1 → y < 1 →
      ∃ sample : Nat → Vec4 ℝ,
        (∀ k, 1 ≤ k → k ≤ 2 →
          PerPixel Real.sqrt zeroPayload (duringRender renderer1x1 mixedScene camera1 k)
            (mixedTape k x y) x y = some (sample k)) ∧
        rendererMixed2.m_AccumilationData[x + y * 1]? = some (some (sumSamples sample 2)) ∧
        rendererMixed2.m_ImageData[x + y * 1]? =
          some (some (Utils.ConvertToRGBA
            ⟨min (max ((sumSamples sample 2).r / ((2 : ℕ) : ℝ)) 0) 1,
              min (max ((sumSamples sample 2).g / ((2 : ℕ) : ℝ)) 0) 1,
              min (max ((sumSamples sample 2).b / ((2 : ℕ) : ℝ)) 0) 1,
              min (max ((sumSamples sample 2).a / ((2 : ℕ) : ℝ)) 0) 1⟩)) :=
  ⟨by norm_num, renderer1x1_sized, rfl, rfl, renderFrames_mixed,
    PerPixel_mixed_towards _ rfl rfl rfl rfl, PerPixel_mixed_aside _ rfl rfl rfl rfl,
    rfl, by norm_num [rendererMixed2, rendererMixed1],
    Render_accumulates Real.sqrt zeroPayload renderer1x1 rendererMixed2 1 1 2 mixedScene
      camera1 mixedTape (by norm_num) renderer1x1_sized rfl rfl renderFrames_mixed⟩

theorem renderer1x1Fast_sized : renderer1x1Fast.Sized 1 1 := by
  simp [Renderer.Sized, renderer1x1Fast, renderer1x1Glow, duringRender, renderer1x1,
    List.range_succ]

theorem renderFrames_empty :
    renderFrames Real.sqrt zeroPayload emptyScene camera1 (fun _ => awayTape) 2 renderer1x1Fast
      = some rendererEmpty2 := by
  have h1 : Render Real.sqrt zeroPayload renderer1x1Fast emptyScene camera1 awayTape
      = some rendererEmpty1 := by
    simp only [Render, renderer1x1Fast, renderer1x1Glow, duringRender, renderer1x1,
      rendererEmpty1, renderLoop, renderPixel, memsetZero, List.foldlM_cons, List.foldlM_nil,
      PerPixel, bounceLoop, TraceRay, scanSpheres, scanFrom, Miss, emptyScene, camera1,
      zeroPayload]
    norm_num [pixelIndex, Vec4.add, Vec4.zero, Vec4.divScalar, Vec4.clamp01,
      Utils.ConvertToRGBA, Utils.toUInt8, Vec3.zero]
    decide
  have h2 : Render Real.sqrt zeroPayload rendererEmpty1 emptyScene camera1 awayTape
      = some rendererEmpty2 := by
    simp only [Render, rendererEmpty1, rendererEmpty2, renderLoop, renderPixel,
      List.foldlM_cons, List.foldlM_nil,
      PerPixel, bounceLoop, TraceRay, scanSpheres, scanFrom, Miss, emptyScene, camera1,
      zeroPayload]
    norm_num [pixelIndex, Vec4.add, Vec4.zero, Vec4.divScalar, Vec4.clamp01,
      Utils.ConvertToRGBA, Utils.toUInt8, Vec3.zero]
    decide
  simp only [renderFrames, h1, h2]

/-- Claim C19, as amended, on a one-pixel renderer with `SlowRandom` off: the
radiance of `glowScene` is the same at every frame index, and after two frames
of `emptyScene` the cell holds the radiance `(0,0,0,1)` added twice. -/
theorem PerPixel_origin_pixel_witness :
    renderer1x1Fast.m_Settings.SlowRandom = false ∧
    (∀ (slow slow' : Nat → Vec3 ℝ) (k k' : Nat),
      PerPixel Real.sqrt zeroPayload (duringRender renderer1x1Fast glowScene camera1 k) slow 0 0
        = PerPixel Real.sqrt zeroPayload (duringRender renderer1x1Fast glowScene camera1 k')
            slow' 0 0) ∧
    (1 ≤ 2 ∧ 0 < 1 ∧ 0 < 1 ∧ renderer1x1Fast.Sized 1 1 ∧ renderer1x1Fast.m_FrameIndex = 1 ∧
      renderer1x1Fast.m_Settings.Accumulate = true ∧
      renderFrames Real.sqrt zeroPayload emptyScene camera1 (fun _ => awayTape) 2
        renderer1x1Fast = some rendererEmpty2) ∧
    rendererEmpty2.m_AccumilationData = [some ⟨0, 0, 0, 2⟩] ∧
    ∃ c : Vec4 ℝ,
      (∀ (tape : Nat → Vec3 ℝ) (k : Nat),
        PerPixel Real.sqrt zeroPayload (duringRender renderer1x1Fast emptyScene camera1 k)
          tape 0 0 = some c) ∧
      rendererEmpty2.m_AccumilationData[0]? = some (some (sumSamples (fun _ => c) 2)) ∧
      rendererEmpty2.m_ImageData[0]? =
        some (some (Utils.ConvertToRGBA
          ⟨min (max ((sumSamples (fun _ => c) 2).r / ((2 : ℕ) : ℝ)) 0) 1,
            min (max ((sumSamples (fun _ => c) 2).g / ((2 : ℕ) : ℝ)) 0) 1,
            min (max ((sumSamples (fun _ => c) 2).b / ((2 : ℕ) : ℝ)) 0) 1,
            min (max ((sumSamples (fun _ => c) 2).a / ((2 : ℕ) : ℝ)) 0) 1⟩)) :=
  ⟨rfl, (PerPixel_origin_pixel Real.sqrt zeroPayload renderer1x1Fast glowScene camera1 rfl).2.1,
    ⟨by norm_num, by norm_num, by norm_num, renderer1x1Fast_sized, rfl, rfl,
      renderFrames_empty⟩,
    rfl,
    (PerPixel_origin_pixel Real.sqrt zeroPayload renderer1x1Fast emptyScene camera1 rfl).2.2
      1 1 2 rendererEmpty2 (fun _ => awayTape) (by norm_num) (by norm_num) (by norm_num)
      renderer1x1Fast_sized rfl rfl renderFrames_empty⟩

end AccumulationExamples

/-! ## The claims that depend on rounding -/

section RoundingExamples

/-- Claim C18 fails as stated.  The origin lies strictly inside the sphere
`thinMargin`: its distance from the centre is less than the radius, and the
ray, the centre and the radius are binary32 numbers.  In binary32 the local `c`
of `TraceRay` is nevertheless positive, the discriminant is `4 - 2 ^ (-21)`,
whose square root is nearest to the binary32 number `2 - 2 ^ (-23)`, the near
root is `2 ^ (-24)`, positive and below `FLT_MAX`, and the sphere loop ends with
`closestSphere = 0`: `TraceRay` returns the sphere as the hit, at the distance
`2 ^ (-24)`. -/
theorem TraceRay_inside_rounding :
    innerRay.Direction ≠ Vec3.zero ∧
    Binary32.round thinMargin.Position.x = thinMargin.Position.x ∧
    Binary32.round thinMargin.Radius = thinMargin.Radius ∧
    0 < thinMargin.Radius ∧
    Vec3.dot (localOrigin innerRay thinMargin) (localOrigin innerRay thinMargin)
      < thinMargin.Radius * thinMargin.Radius ∧
    Real.sqrt ((Vec3.dot (localOrigin innerRay thinMargin) (localOrigin innerRay thinMargin) : ℚ) : ℝ)
      < ((thinMargin.Radius : ℚ) : ℝ) ∧
    0 < Binary32.quadC innerRay thinMargin ∧
    Binary32.discriminent innerRay thinMargin = 8388607 / 2097152 ∧
    Binary32.sqrt (8388607 / 2097152) = 16777215 / 8388608 ∧
    ((16777215 / 8388608 - 1 / 16777216) ^ 2 < (8388607 / 2097152 : ℚ) ∧
      (8388607 / 2097152 : ℚ) < (16777215 / 8388608 + 1 / 16777216) ^ 2) ∧
    Binary32.closestT innerRay thinMargin = 1 / 16777216 ∧
    Binary32.TraceRay [thinMargin] innerRay = some (0, 1 / 16777216) := by
  obtain ⟨hc, hd, hs, ht⟩ := Binary32.thinMargin_trace
  have hin : Vec3.dot (localOrigin innerRay thinMargin) (localOrigin innerRay thinMargin)
      < thinMargin.Radius * thinMargin.Radius := by
    norm_num [localOrigin, Vec3.dot, Vec3.sub, innerRay, thinMargin]
  have hr : 0 < thinMargin.Radius := by norm_num [thinMargin]
  refine ⟨by simp [innerRay, Vec3.zero], ?_, ?_, hr, hin, ?_, ?_, hd, hs,
    ⟨by norm_num, by norm_num⟩, ht, ?_⟩
  · simp only [thinMargin]
    rw [Binary32.round_near _ (-1) (-12779435) (by norm_num [abs_of_pos])
      (by norm_num [abs_of_pos]) (by norm_num) (by norm_num)]
    norm_num
  · simp only [thinMargin]
    rw [Binary32.round_near _ 0 10545010 (by norm_num [abs_of_pos])
      (by norm_num [abs_of_pos]) (by norm_num) (by norm_num)]
    norm_num
  · rw [Real.sqrt_lt' (by exact_mod_cast hr), pow_two]
    exact_mod_cast hin
  · rw [hc]
    norm_num
  · simp only [Binary32.TraceRay, Binary32.scanSpheres, Binary32.scanFrom, Binary32.scanStep,
      hd, ht]
    norm_num [Binary32.FLT_MAX]

/-- Claim C19 fails as stated.  Let `PerPixel` return the radiance
`(0.3f, 0.3f, 0.3f, 1)` for the pixel in every frame.  After one frame the
colour that is converted is this sample.  After six frames it is a different
colour: the six additions and the division by `6`, in binary32, give
`10066329 / 2 ^ 25` in the colour channels, the binary32 number next below
`0.3f`, and the output pixel has the green and blue bytes `74` where the one of
a single frame has `75`. -/
theorem accumulated_mean_rounding :
    dimColour = ⟨Binary32.round (3 / 10), Binary32.round (3 / 10), Binary32.round (3 / 10), 1⟩ ∧
    Binary32.accumulatedColor (Binary32.cellAfter dimColour 1) 1 = dimColour ∧
    Binary32.accumulatedColor (Binary32.cellAfter dimColour 6) 6 = dimMean ∧
    dimMean ≠ dimColour ∧
    Binary32.ConvertToRGBA (Binary32.accumulatedColor (Binary32.cellAfter dimColour 1) 1)
      = 250 * 2 ^ 24 + 75 * 2 ^ 16 + 75 * 2 ^ 8 + 76 ∧
    Binary32.ConvertToRGBA (Binary32.accumulatedColor (Binary32.cellAfter dimColour 6) 6)
      = 250 * 2 ^ 24 + 74 * 2 ^ 16 + 74 * 2 ^ 8 + 76 := by
  obtain ⟨h0, _, h1, _, h6⟩ := Binary32.dimColour_frames
  obtain ⟨w1, w6⟩ := Binary32.dimColour_words
  refine ⟨?_, h1, h6, ?_, ?_, ?_⟩
  · rw [h0]
    rfl
  · simp only [dimMean, dimColour, ne_eq, Vec4.mk.injEq]
    norm_num
  · rw [h1, w1]
    norm_num
  · rw [h6, w6]
    norm_num

end RoundingExamples

end Walnut
